import Mathlib

/-!
# MemManager: a slab memory pool

A shallow embedding of `src/MemManager.h`.

Modelling conventions.

* Addresses, sizes and counters are natural numbers.  Arithmetic on `uint32_t`
  fields is reduced modulo `2^32`, arithmetic on `size_t` / `uint64_t` values
  modulo `2^64`, wherever the source computes in that type.  Pointer arithmetic
  is plain addition.  The null pointer is `0`.
* The static array `pageclass[PAGE_MAX_CLASS_NUM]` is a map from indices to
  records; the heap arrays `freelist` and `page_list` are maps from indices to
  addresses, with their capacities and fill counts kept in the record exactly
  as in the source.
* The one header byte the allocator reads back, `item.page_classid`, is kept
  in the map `classid` from chunk addresses to the stored byte.
* Calls into the C library are answered by explicit arguments: the address
  returned by `malloc` (`0` for failure) and whether `realloc` succeeds.
* `(size_t)((double)size * factor)` is represented by a function `grow` on
  sizes.  For `factor = 1.0` this is the identity, for `factor = 2.0` it is
  doubling, and for the default `factor = 1.2` it is `fun s => s * 6 / 5` on
  every size below `2^20` (the double nearest to `1.2` is `(6 * 2^52 - 1) / (5 * 2^52)`,
  so the product differs from `6 * s / 5` by less than a third of an ulp).
* A division by zero (`MM_MAX_SIZE / size` with `size = 0`) makes `pages_init`
  return `none`.
* `sizeof(item)` is `16` (LP64: a `uint8_t` followed by an 8-byte aligned `size_t`).
-/

set_option autoImplicit false

namespace MemManager

/-! ## Constants -/

def POWER_SMALLEST : Nat := 1
def POWER_LARGEST : Nat := 200
def PAGE_ALIGN : Nat := 8
def PAGE_MAX_CLASS_NUM : Nat := POWER_LARGEST
def MM_MIN_SIZE : Nat := 1
def MM_MAX_SIZE : Nat := 1 * 1024 * 1024
def sizeof_item : Nat := 16
/-- Number of values of a `uint32_t`. -/
def U32 : Nat := 4294967296
/-- Number of values of a `size_t` / `uint64_t`. -/
def U64 : Nat := 18446744073709551616

/-- The macro `ROUND_UP` on a `size_t`: `(size + PAGE_ALIGN - 1) & ~(PAGE_ALIGN - 1)`. -/
def ROUND_UP (size : Nat) : Nat :=
  ((size + PAGE_ALIGN - 1) % U64) / PAGE_ALIGN * PAGE_ALIGN

/-! ## Data model -/

/-- The record `pageclass_t`. -/
structure pageclass_t where
  chunk_size : Nat
  perpage : Nat
  freelist : Nat → Nat
  free_total : Nat
  free_curr : Nat
  end_page_ptr : Nat
  end_page_free : Nat
  page_total : Nat
  page_list : Nat → Nat
  page_size : Nat

/-- A zero-filled `pageclass_t`. -/
def pageclass_t.zero : pageclass_t :=
  ⟨0, 0, fun _ => 0, 0, 0, 0, 0, 0, fun _ => 0, 0⟩

/-- The file-scope variables of `MemManager.h`, with the header bytes of memory. -/
structure Pool where
  page_class_num : Nat
  pageclass : Nat → pageclass_t
  mem_pool : Nat
  mem_avaliable : Nat
  memalloc : Nat
  memuse : Nat
  classid : Nat → Nat

/-- The state at program start: statics are zero, memory holds `hdr`. -/
def Pool.boot (hdr : Nat → Nat) : Pool :=
  ⟨0, fun _ => pageclass_t.zero, 0, 0, 0, 0, hdr⟩

/-- Answers of the C library to one `alloc_newpage` call. -/
structure Sys where
  realloc_ok : Bool
  malloc_ret : Nat

/-- Array / map update. -/
def upd {α : Type} (f : Nat → α) (i : Nat) (v : α) : Nat → α :=
  fun j => if j = i then v else f j

/-- Replace the record of class `id`. -/
def Pool.setClass (st : Pool) (id : Nat) (c : pageclass_t) : Pool :=
  { st with pageclass := upd st.pageclass id c }

/-! ## Operations -/

/-- The function `get_page_id`: the scan, with `fuel` bounding the iterations. -/
def get_page_id_loop (st : Pool) (size : Nat) : Nat → Nat → Nat
  | 0, _ => 0
  | fuel + 1, index =>
    if index ≤ st.page_class_num ∧ index < POWER_LARGEST then
      if size ≤ (st.pageclass index).chunk_size then index
      else get_page_id_loop st size fuel (index + 1)
    else 0

/-- The function `get_page_id`. -/
def get_page_id (st : Pool) (size : Nat) : Nat :=
  if size = 0 then 0
  else get_page_id_loop st size POWER_LARGEST POWER_SMALLEST

/-- The function `memory_alloc`; `malloc_ret` answers the `malloc` call. -/
def memory_alloc (malloc_ret : Nat) (size : Nat) (st : Pool) : Nat × Pool :=
  if st.mem_pool ≠ 0 then
    if (st.memuse + size) % U64 > st.memalloc then (0, st)
    else
      let rsize := ROUND_UP size
      if (st.memuse + rsize) % U64 > st.memalloc then
        (st.mem_avaliable,
          { st with
            mem_avaliable := st.mem_avaliable + (st.memalloc + U64 - st.memuse) % U64
            memuse := st.memalloc })
      else
        (st.mem_avaliable,
          { st with
            mem_avaliable := st.mem_avaliable + rsize
            memuse := (st.memuse + rsize) % U64 })
  else (malloc_ret, st)

/-- The function `grow_page_list`. -/
def grow_page_list (realloc_ok : Bool) (id : Nat) (st : Pool) : Nat × Pool :=
  let ptr := st.pageclass id
  if ptr.page_size = ptr.page_total then
    let new_size := if ptr.page_size = 0 then 16 else (2 * ptr.page_size) % U32
    if realloc_ok then (1, st.setClass id { ptr with page_size := new_size })
    else (0, st)
  else (1, st)

/-- The local `size` of `alloc_newpage`: the `uint32_t` product
`ptr->chunk_size * ptr->perpage`. -/
def page_bytes (st : Pool) (id : Nat) : Nat :=
  ((st.pageclass id).chunk_size * (st.pageclass id).perpage) % U32

/-- The function `alloc_newpage`. -/
def alloc_newpage (sys : Sys) (id : Nat) (st : Pool) : Nat × Pool :=
  let ptr := st.pageclass id
  let size := page_bytes st id
  if st.mem_pool ≠ 0 ∧ (st.memuse + size) % U64 > st.memalloc ∧ ptr.page_total ≠ 0 then (0, st)
  else
    let g := grow_page_list sys.realloc_ok id st
    if g.1 = 0 then (0, g.2)
    else
      let m := memory_alloc sys.malloc_ret size g.2
      if m.1 = 0 then (0, m.2)
      else
        let new_page := m.1
        let st2 := m.2
        let p := st2.pageclass id
        (1,
          { st2 with
            classid := fun a => if new_page ≤ a ∧ a < new_page + size then 0 else st2.classid a
            pageclass := upd st2.pageclass id
              { p with
                end_page_ptr := new_page
                end_page_free := p.perpage
                page_list := upd p.page_list p.page_total new_page
                page_total := (p.page_total + 1) % U32 } })

/-- Lines 263-267 of `do_mem_alloc`: a page is carved only when the class has
neither a current page nor a free-list entry (the `&&` chain short-circuits).
The first component is `0` when the allocation has to fail. -/
def ensure_page (sys : Sys) (id : Nat) (st : Pool) : Nat × Pool :=
  let ptr := st.pageclass id
  if ptr.end_page_ptr = 0 ∧ ptr.free_curr = 0 then alloc_newpage sys id st else (1, st)

/-- Lines 268-281 of `do_mem_alloc`: pop the free list, else carve the current
page, then stamp the header byte `page_classid` of a non-null result. -/
def take_chunk (id : Nat) (st1 : Pool) : Nat × Pool :=
  let p := st1.pageclass id
  if p.free_curr ≠ 0 then
    let fc := (p.free_curr + U32 - 1) % U32
    let ret := p.freelist fc
    let st2 := st1.setClass id { p with free_curr := fc }
    if ret ≠ 0 then (ret, { st2 with classid := upd st2.classid ret (id % 256) })
    else (ret, st2)
  else if p.end_page_ptr ≠ 0 then
    let ret := p.end_page_ptr
    let epf := (p.end_page_free + U32 - 1) % U32
    let st2 := st1.setClass id
      { p with
        end_page_free := epf
        end_page_ptr := if epf = 0 then 0 else p.end_page_ptr + p.chunk_size }
    (ret, { st2 with classid := upd st2.classid ret (id % 256) })
  else (0, st1)

/-- The function `do_mem_alloc`; `sys` answers the library calls of a page growth. -/
def do_mem_alloc (sys : Sys) (size : Nat) (st : Pool) : Nat × Pool :=
  let id := get_page_id st size
  if id < POWER_SMALLEST ∨ id > st.page_class_num then (0, st)
  else
    let a := ensure_page sys id st
    if a.1 = 0 then (0, a.2)
    else take_chunk id a.2

/-- The function `do_mem_free`; its `size` argument is unused, as in the source. -/
def do_mem_free (realloc_ok : Bool) (pointer : Nat) (_size : Nat) (st : Pool) : Pool :=
  let id := st.classid pointer
  if id < POWER_SMALLEST ∨ id > st.page_class_num then st
  else
    let ptr := st.pageclass id
    let push := fun (q : pageclass_t) =>
      st.setClass id
        { q with
          freelist := upd q.freelist q.free_curr pointer
          free_curr := (q.free_curr + 1) % U32 }
    if ptr.free_curr = ptr.free_total then
      let new_size := if ptr.free_total = 0 then 16 else (2 * ptr.free_total) % U32
      if realloc_ok then push { ptr with free_total := new_size }
      else st
    else push ptr

/-- The loop of `prealloc_page`, with `fuel` bounding the iterations. -/
def prealloc_loop (sys : Nat → Sys) (num : Nat) : Nat → Nat → Pool → Pool
  | 0, _, st => st
  | fuel + 1, i, st =>
    if i ≤ num ∧ i < POWER_LARGEST then
      prealloc_loop sys num fuel (i + 1) (alloc_newpage (sys i) i st).2
    else st

/-- The function `prealloc_page`. -/
def prealloc_page (sys : Nat → Sys) (num : Nat) (st : Pool) : Pool :=
  prealloc_loop sys num POWER_LARGEST POWER_SMALLEST st

/-- The class-table loop of `pages_init`; returns the final index and table,
or `none` on a division by zero. -/
def class_loop (grow : Nat → Nat) :
    Nat → Nat → Nat → (Nat → pageclass_t) → Option (Nat × (Nat → pageclass_t))
  | 0, index, _, pc => some (index, pc)
  | fuel + 1, index, size, pc =>
    if index < POWER_LARGEST ∧ size < MM_MAX_SIZE then
      if size = 0 then none
      else
        class_loop grow fuel (index + 1) (ROUND_UP (grow size))
          (upd pc index
            { pc index with
              chunk_size := size % U32
              perpage := (MM_MAX_SIZE / size) % U32 })
    else some (index, pc)

/-- The function `pages_init`.  `pool_ret` answers the arena `malloc`, `sys i`
the library calls of the page carved for class `i`. -/
def pages_init (memlimit : Nat) (grow : Nat → Nat) (prealloc : Bool)
    (pool_ret : Nat) (sys : Nat → Sys) (st : Pool) : Option Pool :=
  let memlimit := if prealloc ∧ memlimit < 15 then 15 else memlimit
  let memsize := (1 * 1024 * 1024 * memlimit) % U64
  if prealloc ∧ st.mem_pool ≠ 0 then some st
  else
    let st1 : Pool :=
      if prealloc then
        { st with mem_pool := pool_ret, mem_avaliable := pool_ret, memalloc := memsize, memuse := 0 }
      else st
    let pc0 : Nat → pageclass_t :=
      fun i => if i < PAGE_MAX_CLASS_NUM then pageclass_t.zero else st1.pageclass i
    match class_loop grow (POWER_LARGEST - POWER_SMALLEST) POWER_SMALLEST
        (ROUND_UP (sizeof_item + MM_MIN_SIZE)) pc0 with
    | none => none
    | some (index, pc) =>
      let st2 : Pool :=
        { st1 with
          page_class_num := index
          pageclass := upd pc index { pc index with chunk_size := MM_MAX_SIZE, perpage := 1 } }
      some (prealloc_page sys index st2)

/-- The growth step for `factor = 1.2`. -/
def grow12 (s : Nat) : Nat := s * 6 / 5

/-- The growth step for `factor = 1.0`. -/
def grow10 (s : Nat) : Nat := s

/-- Library answers in which every `realloc` succeeds. -/
def sysOk (_ : Nat) : Sys := ⟨true, 0⟩

/-- The pool after `pages_init(15, 1.2, true)` on a fresh program, with the
arena at address 4096 and every `realloc` succeeding. -/
def pool_default : Pool :=
  (pages_init 15 grow12 true 4096 sysOk (Pool.boot (fun _ => 0))).getD (Pool.boot (fun _ => 0))

/-! ## Reachable states -/

/-- The arena accounting invariant: `memuse <= memalloc` and the cursor is
`mem_pool + memuse`. -/
def ArenaOk (st : Pool) : Prop :=
  st.memuse ≤ st.memalloc ∧ st.mem_avaliable = st.mem_pool + st.memuse

/-- The arena invariant together with the bounds that keep the 64-bit
arithmetic of `memory_alloc` from wrapping: `memalloc` is `2^20` times a
`uint32_t`, and nothing is accounted while there is no arena. -/
def ArenaInv (st : Pool) : Prop :=
  ArenaOk st ∧ st.memalloc < 4503599627370496 ∧ (st.mem_pool = 0 → st.memuse = 0)

/-- A call of one of the functions of `MemManager.h`, with the answers of the
C library to the calls it makes. -/
inductive Call where
  | pages_init (memlimit : Nat) (grow : Nat → Nat) (prealloc : Bool) (pool_ret : Nat)
      (sys : Nat → Sys)
  | memory_alloc (malloc_ret : Nat) (size : Nat)
  | alloc_newpage (sys : Sys) (id : Nat)
  | do_mem_alloc (sys : Sys) (size : Nat)
  | do_mem_free (realloc_ok : Bool) (pointer : Nat) (size : Nat)

/-- The state after a call; `none` when `pages_init` divides by zero. -/
def Call.run : Call → Pool → Option Pool
  | .pages_init memlimit grow prealloc pool_ret sys, st =>
    MemManager.pages_init memlimit grow prealloc pool_ret sys st
  | .memory_alloc malloc_ret size, st => some (MemManager.memory_alloc malloc_ret size st).2
  | .alloc_newpage sys id, st => some (MemManager.alloc_newpage sys id st).2
  | .do_mem_alloc sys size, st => some (MemManager.do_mem_alloc sys size st).2
  | .do_mem_free realloc_ok pointer size, st =>
    some (MemManager.do_mem_free realloc_ok pointer size st)

/-- The arguments fit their C types: `memlimit` is a `uint32_t`, the size
handed to `memory_alloc` is an object size, at most `PTRDIFF_MAX = 2^63 - 1`,
and `do_mem_free` reads the header behind its pointer, which is therefore not null. -/
def Call.wellTyped : Call → Prop
  | .pages_init memlimit _ _ _ _ => memlimit < U32
  | .memory_alloc _ size => size < 9223372036854775808
  | .do_mem_free _ pointer _ => pointer ≠ 0
  | _ => True

/-- The states reachable from a first `pages_init` on the program's start state
through any sequence of calls. -/
inductive Reachable : Pool → Prop where
  | start (hdr : Nat → Nat) (memlimit : Nat) (grow : Nat → Nat) (prealloc : Bool)
      (pool_ret : Nat) (sys : Nat → Sys) (st : Pool) :
      memlimit < U32 →
      MemManager.pages_init memlimit grow prealloc pool_ret sys (Pool.boot hdr) = some st →
      Reachable st
  | step (st : Pool) (c : Call) (st2 : Pool) :
      Reachable st → c.wellTyped → c.run st = some st2 → Reachable st2

/-! ## Allocation traces -/

/-- An operation of a client: an allocation, or the release of a chunk. -/
inductive Op where
  | alloc (sys : Sys) (size : Nat)
  | free (realloc_ok : Bool) (pointer : Nat) (size : Nat)

/-- The pool together with the chunks currently on loan to the client. -/
structure Heap where
  pool : Pool
  live : List Nat

/-- One operation.  A non-null result of `do_mem_alloc` becomes live; `do_mem_free`
is admitted only on a live chunk, which then stops being live. -/
def Heap.step (h : Heap) : Op → Option Heap
  | .alloc sys size =>
    some ⟨(do_mem_alloc sys size h.pool).2,
      if (do_mem_alloc sys size h.pool).1 = 0 then h.live
      else (do_mem_alloc sys size h.pool).1 :: h.live⟩
  | .free realloc_ok pointer size =>
    if pointer ∈ h.live then
      some ⟨do_mem_free realloc_ok pointer size h.pool, h.live.erase pointer⟩
    else none

/-- A sequence of operations. -/
def Heap.run (h : Heap) : List Op → Option Heap
  | [] => some h
  | op :: ops => (h.step op).bind (fun h2 => h2.run ops)

/-- The end of the address range of the chunk at `p`: `p + chunk_size` of the
class named by its header. -/
def chunk_end (st : Pool) (p : Nat) : Nat :=
  p + (st.pageclass (st.classid p)).chunk_size

/-- A class id that `get_page_id` can return and `do_mem_alloc` accepts. -/
def ValidClass (st : Pool) (c : Nat) : Prop :=
  1 ≤ c ∧ c ≤ st.page_class_num ∧ c < POWER_LARGEST

/-- The owners of arena bytes: a live chunk, a free-list entry, the uncarved
part of a class's current page, and the arena beyond the cursor. -/
inductive Owner where
  | live (p : Nat)
  | free (c k : Nat)
  | page (c : Nat)
  | rest

/-- The address `a` belongs to the owner. -/
def Covers (h : Heap) : Owner → Nat → Prop
  | .live p, a =>
    p ∈ h.live ∧ p ≤ a ∧ a < chunk_end h.pool p
  | .free c k, a =>
    ValidClass h.pool c ∧ k < (h.pool.pageclass c).free_curr ∧
      (h.pool.pageclass c).freelist k ≤ a ∧
      a < (h.pool.pageclass c).freelist k + (h.pool.pageclass c).chunk_size
  | .page c, a =>
    ValidClass h.pool c ∧ (h.pool.pageclass c).end_page_ptr ≠ 0 ∧
      (h.pool.pageclass c).end_page_ptr ≤ a ∧
      a < (h.pool.pageclass c).end_page_ptr +
        (h.pool.pageclass c).end_page_free * (h.pool.pageclass c).chunk_size
  | .rest, a =>
    h.pool.mem_pool + h.pool.memuse ≤ a ∧ a < h.pool.mem_pool + h.pool.memalloc

/-- The invariant of a pool with an arena: consistent accounting, a well-formed
class table, counters within their types, and every arena byte with at most
one owner. -/
structure HeapInv (h : Heap) : Prop where
  pool_ne : h.pool.mem_pool ≠ 0
  arena : ArenaOk h.pool
  bound : h.pool.memalloc < 4503599627370496
  table : ∀ c, ValidClass h.pool c →
    0 < (h.pool.pageclass c).chunk_size ∧ 0 < (h.pool.pageclass c).perpage ∧
      (h.pool.pageclass c).chunk_size * (h.pool.pageclass c).perpage ≤ MM_MAX_SIZE
  counters : ∀ c, ValidClass h.pool c →
    (h.pool.pageclass c).free_curr < U32 ∧
      ((h.pool.pageclass c).end_page_ptr ≠ 0 →
        0 < (h.pool.pageclass c).end_page_free ∧ (h.pool.pageclass c).end_page_free < U32)
  nodup : h.live.Nodup
  live_class : ∀ p, p ∈ h.live → ValidClass h.pool (h.pool.classid p)
  inside : ∀ k a, Covers h k a → h.pool.mem_pool ≤ a ∧ a < h.pool.mem_pool + h.pool.memalloc
  owner : ∀ k1 k2 a, Covers h k1 a → Covers h k2 a → k1 = k2

/-- A short trace on the default pool: two chunks of class 8, one of class 5,
then the first chunk is released and its address handed out again. -/
def demo_trace : List Op :=
  [Op.alloc ⟨true, 0⟩ 100, Op.alloc ⟨true, 0⟩ 100, Op.alloc ⟨true, 0⟩ 50,
    Op.free true 7344000 0, Op.alloc ⟨true, 0⟩ 110]

/-- The heap after `demo_trace`. -/
def demo_heap : Heap :=
  (Heap.run ⟨pool_default, []⟩ demo_trace).getD ⟨pool_default, []⟩

/-! ## Well-formed pools -/

/-- What every reachable pool satisfies: the classes that `do_mem_alloc` can
select have a positive chunk size and a positive `perpage`; every chunk size is
a multiple of 8 and a page is at most `MM_MAX_SIZE` bytes; the free-list
counter is a `uint32_t` and the entries below it are not null; and a current
page has between 1 and `2^32 - 1` chunks left. -/
structure PoolWF (st : Pool) : Prop where
  table : ∀ c, ValidClass st c →
    0 < (st.pageclass c).chunk_size ∧ 0 < (st.pageclass c).perpage
  sizes : ∀ c, (st.pageclass c).chunk_size % 8 = 0 ∧
    (st.pageclass c).chunk_size * (st.pageclass c).perpage ≤ MM_MAX_SIZE
  entries : ∀ c, (st.pageclass c).free_curr < U32 ∧
    ∀ k, k < (st.pageclass c).free_curr → (st.pageclass c).freelist k ≠ 0
  current : ∀ c, ValidClass st c → (st.pageclass c).end_page_ptr ≠ 0 →
    0 < (st.pageclass c).end_page_free ∧ (st.pageclass c).end_page_free < U32

/-- The capacities a growable array can have: none, or 16 doubled `k` times. -/
def IsCapacity (n : Nat) : Prop := n = 0 ∨ ∃ k, n = 16 * 2 ^ k

/-- The growable-array invariant of one class. -/
def GrowOk (c : pageclass_t) : Prop :=
  c.free_curr ≤ c.free_total ∧ c.page_total ≤ c.page_size ∧
    IsCapacity c.free_total ∧ IsCapacity c.page_size

/-- `n` calls of `do_mem_free` on the same pointer, every `realloc` succeeding. -/
def free_many (pointer : Nat) : Nat → Pool → Pool
  | 0, st => st
  | n + 1, st => free_many pointer n (do_mem_free true pointer 0 st)

/-! ## The typed wrapper

`New<T>` and `Delete<T>` depend on `T` through `sizeof(T)` and
`std::is_pod<T>::value`, which are arguments here.  The header word
`alloc_num` of the header at `p` is kept in the same memory map as the byte
`page_classid`, at address `p + 8`, its offset in `item`.  What the wrapper
does outside the pool is recorded in a log: calls of `malloc`, `free`,
`mem_alloc` and `mem_free`, and the constructor and destructor calls with the
address of the element.  `mem_alloc` and `mem_free` are `do_mem_alloc` and
`do_mem_free` under the mutex. -/

/-- The offset of `alloc_num` in `item`. -/
def offsetof_alloc_num : Nat := 8

/-- Read `((item*)p)->alloc_num`. -/
def read_alloc_num (st : Pool) (p : Nat) : Nat :=
  st.classid (p + offsetof_alloc_num)

/-- Write `((item*)p)->alloc_num = n`. -/
def write_alloc_num (st : Pool) (p n : Nat) : Pool :=
  { st with classid := upd st.classid (p + offsetof_alloc_num) n }

/-- What the typed wrapper does outside the pool's own state. -/
inductive Event where
  | malloc (size : Nat)
  | free (pointer : Nat)
  | mem_alloc (size : Nat)
  | mem_free (pointer : Nat) (size : Nat)
  | construct (addr : Nat)
  | destruct (addr : Nat)
  deriving DecidableEq

/-- The pool and the log of the wrapper's calls. -/
structure World where
  pool : Pool
  log : List Event

/-- The function template `New<T>`; `malloc_ret` answers the `malloc` of an
oversize request, `sys` the library calls of a page growth. -/
def New (sizeofT : Nat) (is_pod : Bool) (malloc_ret : Nat) (sys : Sys) (size : Nat)
    (w : World) : Nat × World :=
  if size ≤ 0 then (0, w)
  else
    let total_size := (sizeofT * size + sizeof_item) % U64
    let a : Nat × World :=
      if total_size > MM_MAX_SIZE then
        (malloc_ret, { w with log := w.log ++ [Event.malloc total_size] })
      else
        ((do_mem_alloc sys total_size w.pool).1,
          ⟨(do_mem_alloc sys total_size w.pool).2, w.log ++ [Event.mem_alloc total_size]⟩)
    let pointer := a.1
    if pointer = 0 then (0, a.2)
    else
      let w2 : World :=
        if is_pod then a.2
        else
          { a.2 with
            log := a.2.log ++
              (List.range size).map (fun i => Event.construct (pointer + sizeof_item + i * sizeofT)) }
      (pointer + sizeof_item, { w2 with pool := write_alloc_num w2.pool pointer size })

/-- The function template `Delete<T>`; `realloc_ok` answers the `realloc` of `do_mem_free`. -/
def Delete (sizeofT : Nat) (is_pod : Bool) (realloc_ok : Bool) (ptr : Nat) (w : World) : World :=
  if ptr = 0 then w
  else
    let count := read_alloc_num w.pool (ptr - sizeof_item)
    if count ≤ 0 then w
    else
      let total_size := (sizeofT * count + sizeof_item) % U64
      let w1 : World :=
        if is_pod then w
        else
          { w with
            log := w.log ++ (List.range count).map (fun i => Event.destruct (ptr + i * sizeofT)) }
      if total_size > MM_MAX_SIZE then
        { w1 with log := w1.log ++ [Event.free (ptr - sizeof_item)] }
      else
        ⟨do_mem_free realloc_ok (ptr - sizeof_item) count w1.pool,
          w1.log ++ [Event.mem_free (ptr - sizeof_item) count]⟩

/-- The default pool after one chunk of class 8 was allocated (at 7344000) and
then released twice. -/
def double_free_state : Pool :=
  do_mem_free true 7344000 0
    (do_mem_free true 7344000 0 (do_mem_alloc ⟨true, 0⟩ 100 pool_default).2)

/-- The pool after `pages_init(15, 1.2, false)` on a fresh program: no arena,
pages come from `malloc`. -/
def pool_heap : Pool :=
  (pages_init 15 grow12 false 0 sysOk (Pool.boot (fun _ => 0))).getD (Pool.boot (fun _ => 0))

/-- The pool after `pages_init(64, 1.2, true)` on a fresh program, with the
arena at address 4096: every class has its first page and the arena has room left. -/
def pool_roomy : Pool :=
  (pages_init 64 grow12 true 4096 sysOk (Pool.boot (fun _ => 0))).getD (Pool.boot (fun _ => 0))

/-- The default pool after one chunk of class 8 was allocated (at 7344000) and
then handed to `do_mem_free` `2^31 + 1` times, every `realloc` answering non-null. -/
def overflow_state : Pool :=
  do_mem_free true 7344000 0
    (free_many 7344000 2147483648 (do_mem_alloc ⟨true, 0⟩ 100 pool_default).2)

/-! ## Basic facts -/

theorem ROUND_UP_ge (x : Nat) (h : x + 7 < U64) :
    x ≤ ROUND_UP x ∧ ROUND_UP x < x + 8 ∧ ROUND_UP x % 8 = 0 := by
  unfold ROUND_UP PAGE_ALIGN U64 at *
  omega

theorem ROUND_UP_wrap (x : Nat) (h : x < U64) (h2 : U64 ≤ x + 7) : ROUND_UP x = 0 := by
  unfold ROUND_UP PAGE_ALIGN U64 at *
  omega

@[simp] theorem upd_same {α : Type} (f : Nat → α) (i : Nat) (v : α) : upd f i v i = v := by
  simp [upd]

theorem upd_other {α : Type} (f : Nat → α) (i j : Nat) (v : α) (h : j ≠ i) :
    upd f i v j = f j := by
  simp [upd, h]

theorem upd_self {α : Type} (f : Nat → α) (i : Nat) : upd f i (f i) = f := by
  funext j
  unfold upd
  split_ifs with h
  · rw [h]
  · rfl

/-- What `memory_alloc` leaves alone. -/
theorem memory_alloc_frame (m size : Nat) (st : Pool) :
    (memory_alloc m size st).2.page_class_num = st.page_class_num ∧
    (memory_alloc m size st).2.pageclass = st.pageclass ∧
    (memory_alloc m size st).2.mem_pool = st.mem_pool ∧
    (memory_alloc m size st).2.memalloc = st.memalloc ∧
    (memory_alloc m size st).2.classid = st.classid := by
  unfold memory_alloc
  simp only []
  split_ifs <;> simp

/-- What `grow_page_list` leaves alone, and what it changes. -/
theorem grow_page_list_frame (ok : Bool) (id : Nat) (st : Pool) :
    (grow_page_list ok id st).2.page_class_num = st.page_class_num ∧
    (grow_page_list ok id st).2.mem_pool = st.mem_pool ∧
    (grow_page_list ok id st).2.mem_avaliable = st.mem_avaliable ∧
    (grow_page_list ok id st).2.memalloc = st.memalloc ∧
    (grow_page_list ok id st).2.memuse = st.memuse ∧
    (grow_page_list ok id st).2.classid = st.classid ∧
    (grow_page_list ok id st).2.pageclass = upd st.pageclass id
      { st.pageclass id with
        page_size := ((grow_page_list ok id st).2.pageclass id).page_size } := by
  unfold grow_page_list Pool.setClass
  simp only []
  split_ifs <;> refine ⟨rfl, rfl, rfl, rfl, rfl, rfl, ?_⟩ <;>
    first | exact (upd_self _ _).symm | simp

theorem grow_page_list_eq (ok : Bool) (id : Nat) (st : Pool) :
    (grow_page_list ok id st).2 = st.setClass id
      { st.pageclass id with
        page_size := ((grow_page_list ok id st).2.pageclass id).page_size } := by
  obtain ⟨h1, h2, h3, h4, h5, h6, h7⟩ := grow_page_list_frame ok id st
  cases hg : (grow_page_list ok id st).2
  rw [hg] at h1 h2 h3 h4 h5 h6 h7
  simp only [Pool.setClass] at *
  subst h1 h2 h3 h4 h5 h6
  rw [← h7]

theorem grow_page_list_fail (ok : Bool) (id : Nat) (st : Pool)
    (h : (grow_page_list ok id st).1 = 0) : (grow_page_list ok id st).2 = st := by
  unfold grow_page_list at h ⊢
  simp only [] at h ⊢
  split_ifs at h ⊢
  all_goals simp_all

theorem memory_alloc_setClass (m size : Nat) (st : Pool) (id : Nat) (c : pageclass_t) :
    memory_alloc m size (st.setClass id c) =
      ((memory_alloc m size st).1, (memory_alloc m size st).2.setClass id c) := by
  unfold memory_alloc Pool.setClass
  simp only []
  split_ifs <;> rfl

/-- The body of `alloc_newpage`, with the two helper calls taken on the entry state. -/
theorem alloc_newpage_unfold (sys : Sys) (id : Nat) (st : Pool) :
    alloc_newpage sys id st =
      if st.mem_pool ≠ 0 ∧ (st.memuse + page_bytes st id) % U64 > st.memalloc ∧
          (st.pageclass id).page_total ≠ 0 then (0, st)
      else if (grow_page_list sys.realloc_ok id st).1 = 0 then (0, st)
      else if (memory_alloc sys.malloc_ret (page_bytes st id) st).1 = 0 then
        (0, (memory_alloc sys.malloc_ret (page_bytes st id) st).2.setClass id
            { st.pageclass id with
              page_size := ((grow_page_list sys.realloc_ok id st).2.pageclass id).page_size })
      else
        (1,
          { (memory_alloc sys.malloc_ret (page_bytes st id) st).2 with
            classid := fun a =>
              if (memory_alloc sys.malloc_ret (page_bytes st id) st).1 ≤ a ∧
                  a < (memory_alloc sys.malloc_ret (page_bytes st id) st).1 + page_bytes st id
              then 0
              else st.classid a
            pageclass := upd st.pageclass id
              { st.pageclass id with
                page_size := ((grow_page_list sys.realloc_ok id st).2.pageclass id).page_size
                end_page_ptr := (memory_alloc sys.malloc_ret (page_bytes st id) st).1
                end_page_free := (st.pageclass id).perpage
                page_list := upd (st.pageclass id).page_list (st.pageclass id).page_total
                  (memory_alloc sys.malloc_ret (page_bytes st id) st).1
                page_total := ((st.pageclass id).page_total + 1) % U32 } }) := by
  unfold alloc_newpage
  simp only []
  by_cases h1 : st.mem_pool ≠ 0 ∧ (st.memuse + page_bytes st id) % U64 > st.memalloc ∧
      (st.pageclass id).page_total ≠ 0
  · rw [if_pos h1, if_pos h1]
  · rw [if_neg h1, if_neg h1]
    by_cases h2 : (grow_page_list sys.realloc_ok id st).1 = 0
    · rw [if_pos h2, if_pos h2, grow_page_list_fail _ _ _ h2]
    · rw [if_neg h2, if_neg h2]
      have hg := grow_page_list_eq sys.realloc_ok id st
      generalize ((grow_page_list sys.realloc_ok id st).2.pageclass id).page_size = G at hg ⊢
      rw [hg, memory_alloc_setClass]
      obtain ⟨f1, f2, f3, f4, f5⟩ := memory_alloc_frame sys.malloc_ret (page_bytes st id) st
      split_ifs
      · rfl
      · simp [Pool.setClass, f2, f5]
        funext j
        by_cases hj : j = id <;> simp [upd, hj]

/-- What `alloc_newpage` leaves alone. -/
theorem alloc_newpage_frame (sys : Sys) (id : Nat) (st : Pool) :
    (alloc_newpage sys id st).2.page_class_num = st.page_class_num ∧
    (alloc_newpage sys id st).2.mem_pool = st.mem_pool ∧
    (alloc_newpage sys id st).2.memalloc = st.memalloc ∧
    (∀ j, j ≠ id → (alloc_newpage sys id st).2.pageclass j = st.pageclass j) ∧
    (∀ j, ((alloc_newpage sys id st).2.pageclass j).chunk_size = (st.pageclass j).chunk_size ∧
      ((alloc_newpage sys id st).2.pageclass j).perpage = (st.pageclass j).perpage ∧
      ((alloc_newpage sys id st).2.pageclass j).freelist = (st.pageclass j).freelist ∧
      ((alloc_newpage sys id st).2.pageclass j).free_total = (st.pageclass j).free_total ∧
      ((alloc_newpage sys id st).2.pageclass j).free_curr = (st.pageclass j).free_curr) := by
  obtain ⟨f1, f2, f3, f4, f5⟩ := memory_alloc_frame sys.malloc_ret (page_bytes st id) st
  rw [alloc_newpage_unfold]
  split_ifs
  · simp
  · simp
  · refine ⟨by simp [Pool.setClass, f1], by simp [Pool.setClass, f3], by simp [Pool.setClass, f4],
      ?_, ?_⟩
    · intro j hj; simp [Pool.setClass, f2, upd, hj]
    · intro j; by_cases hj : j = id <;> simp [Pool.setClass, f2, upd, hj]
  · refine ⟨by simp [f1], by simp [f3], by simp [f4], ?_, ?_⟩
    · intro j hj; simp [upd, hj]
    · intro j; by_cases hj : j = id <;> simp [upd, hj]

/-! ## The class table built by `pages_init` -/

/-- One step of the class-table loop. -/
theorem class_loop_succ (grow : Nat → Nat) (fuel index size : Nat) (pc : Nat → pageclass_t) :
    class_loop grow (fuel + 1) index size pc =
      if index < POWER_LARGEST ∧ size < MM_MAX_SIZE then
        if size = 0 then none
        else
          class_loop grow fuel (index + 1) (ROUND_UP (grow size))
            (upd pc index
              { pc index with
                chunk_size := size % U32
                perpage := (MM_MAX_SIZE / size) % U32 })
      else some (index, pc) := rfl

/-- The class-table loop writes exactly the indices it passes, with a positive
chunk size below `MM_MAX_SIZE` and `perpage = MM_MAX_SIZE / chunk_size`. -/
theorem class_loop_spec (grow : Nat → Nat) :
    ∀ fuel index size pc idx pc2,
      class_loop grow fuel index size pc = some (idx, pc2) →
      index ≤ idx ∧ idx ≤ index + fuel ∧
      (∀ j, j < index ∨ idx ≤ j → pc2 j = pc j) ∧
      (∀ j, index ≤ j → j < idx →
        j < POWER_LARGEST ∧ 0 < (pc2 j).chunk_size ∧ (pc2 j).chunk_size < MM_MAX_SIZE ∧
        (pc2 j).perpage = MM_MAX_SIZE / (pc2 j).chunk_size ∧
        pc2 j = { pc j with chunk_size := (pc2 j).chunk_size, perpage := (pc2 j).perpage }) := by
  intro fuel
  induction fuel with
  | zero =>
    intro index size pc idx pc2 h
    simp only [class_loop, Option.some.injEq, Prod.mk.injEq] at h
    obtain ⟨h1, h2⟩ := h
    subst h1 h2
    exact ⟨le_refl _, le_refl _, fun _ _ => rfl, fun j h1 h2 => absurd h2 (by omega)⟩
  | succ n ih =>
    intro index size pc idx pc2 h
    rw [class_loop_succ] at h
    by_cases hc : index < POWER_LARGEST ∧ size < MM_MAX_SIZE
    · rw [if_pos hc] at h
      by_cases hs : size = 0
      · rw [if_pos hs] at h; exact absurd h (by simp)
      · rw [if_neg hs] at h
        obtain ⟨a, b, c, d⟩ := ih _ _ _ _ _ h
        have hidx : pc2 index = upd pc index
            { pc index with chunk_size := size % U32, perpage := (MM_MAX_SIZE / size) % U32 } index :=
          c index (Or.inl (by omega))
        rw [upd_same] at hidx
        have hsz : size % U32 = size := by
          have := hc.2; unfold MM_MAX_SIZE at this; unfold U32; omega
        have hpp : (MM_MAX_SIZE / size) % U32 = MM_MAX_SIZE / size :=
          Nat.mod_eq_of_lt (lt_of_le_of_lt (Nat.div_le_self _ _)
            (by norm_num [MM_MAX_SIZE, U32]))
        refine ⟨by omega, by omega, ?_, ?_⟩
        · intro j hj
          rw [c j (by omega), upd_other]
          omega
        · intro j h1 h2
          by_cases hj : j = index
          · subst hj
            rw [hidx]
            simp only [hsz, hpp]
            exact ⟨hc.1, by omega, hc.2, trivial, trivial⟩
          · obtain ⟨e1, e2, e3, e4, e5⟩ := d j (by omega) h2
            refine ⟨e1, e2, e3, e4, ?_⟩
            rw [upd_other _ _ _ _ hj] at e5
            exact e5
    · rw [if_neg hc] at h
      simp only [Option.some.injEq, Prod.mk.injEq] at h
      obtain ⟨h1, h2⟩ := h
      subst h1 h2
      exact ⟨le_refl _, by omega, fun _ _ => rfl, fun j h1 h2 => absurd h2 (by omega)⟩

/-- Started on size zero, the class-table loop stops at once or divides by zero. -/
theorem class_loop_zero (grow : Nat → Nat) (fuel index : Nat) (pc : Nat → pageclass_t)
    (idx : Nat) (pc2 : Nat → pageclass_t)
    (h : class_loop grow fuel index 0 pc = some (idx, pc2)) : idx = index := by
  cases fuel with
  | zero =>
    simp only [class_loop, Option.some.injEq, Prod.mk.injEq] at h
    exact h.1.symm
  | succ n =>
    rw [class_loop_succ] at h
    by_cases hc : index < POWER_LARGEST ∧ 0 < MM_MAX_SIZE
    · rw [if_pos hc, if_pos rfl] at h; exact absurd h (by simp)
    · rw [if_neg hc] at h
      simp only [Option.some.injEq, Prod.mk.injEq] at h
      exact h.1.symm

/-- The first class written by the loop gets the entry size. -/
theorem class_loop_first (grow : Nat → Nat) (fuel index size : Nat) (pc : Nat → pageclass_t)
    (idx : Nat) (pc2 : Nat → pageclass_t)
    (h : class_loop grow fuel index size pc = some (idx, pc2)) (hlt : index < idx) :
    (pc2 index).chunk_size = size := by
  cases fuel with
  | zero =>
    simp only [class_loop, Option.some.injEq, Prod.mk.injEq] at h
    omega
  | succ n =>
    rw [class_loop_succ] at h
    by_cases hc : index < POWER_LARGEST ∧ size < MM_MAX_SIZE
    · rw [if_pos hc] at h
      by_cases hs : size = 0
      · rw [if_pos hs] at h; exact absurd h (by simp)
      · rw [if_neg hs] at h
        obtain ⟨_, _, c, _⟩ := class_loop_spec grow _ _ _ _ _ _ h
        rw [c index (Or.inl (by omega)), upd_same]
        have := hc.2
        unfold MM_MAX_SIZE at this
        show size % U32 = size
        unfold U32; omega
    · rw [if_neg hc] at h
      simp only [Option.some.injEq, Prod.mk.injEq] at h
      omega

/-- With a growth step that never shrinks a size, the loop writes chunk sizes
that are at least the entry size and non-decreasing in the class index. -/
theorem class_loop_mono (grow : Nat → Nat)
    (hg : ∀ s, s < MM_MAX_SIZE → s ≤ grow s ∧ grow s < U64) :
    ∀ fuel index size pc idx pc2,
      class_loop grow fuel index size pc = some (idx, pc2) →
      (∀ j, index ≤ j → j < idx → size ≤ (pc2 j).chunk_size) ∧
      (∀ i j, index ≤ i → i ≤ j → j < idx → (pc2 i).chunk_size ≤ (pc2 j).chunk_size) := by
  intro fuel
  induction fuel with
  | zero =>
    intro index size pc idx pc2 h
    simp only [class_loop, Option.some.injEq, Prod.mk.injEq] at h
    obtain ⟨h1, _⟩ := h
    subst h1
    exact ⟨fun j h1 h2 => absurd h2 (by omega), fun i j h1 h2 h3 => absurd h3 (by omega)⟩
  | succ n ih =>
    intro index size pc idx pc2 h
    have hfirst := class_loop_first grow _ _ _ _ _ _ h
    rw [class_loop_succ] at h
    by_cases hc : index < POWER_LARGEST ∧ size < MM_MAX_SIZE
    · rw [if_pos hc] at h
      by_cases hs : size = 0
      · rw [if_pos hs] at h; exact absurd h (by simp)
      · rw [if_neg hs] at h
        obtain ⟨g1, g2⟩ := hg size hc.2
        by_cases hw : grow size + 7 < U64
        · obtain ⟨r1, _, _⟩ := ROUND_UP_ge (grow size) hw
          obtain ⟨a, b⟩ := ih _ _ _ _ _ h
          have key : ∀ j, index ≤ j → j < idx → size ≤ (pc2 j).chunk_size := by
            intro j h1 h2
            by_cases hj : j = index
            · subst hj; rw [hfirst h2]
            · have := a j (by omega) h2; omega
          refine ⟨key, ?_⟩
          intro i j h1 h2 h3
          by_cases hi : i = index
          · subst hi; rw [hfirst (by omega)]; exact key j h2 h3
          · exact b i j (by omega) h2 h3
        · rw [ROUND_UP_wrap _ g2 (by omega)] at h
          have hidx := class_loop_zero grow _ _ _ _ _ h
          refine ⟨?_, ?_⟩
          · intro j h1 h2
            have hj : j = index := by omega
            subst hj; rw [hfirst h2]
          · intro i j h1 h2 h3
            have hj : j = index := by omega
            have hi : i = index := by omega
            rw [hi, hj]
    · rw [if_neg hc] at h
      simp only [Option.some.injEq, Prod.mk.injEq] at h
      obtain ⟨h1, _⟩ := h
      subst h1
      exact ⟨fun j h1 h2 => absurd h2 (by omega), fun i j h1 h2 h3 => absurd h3 (by omega)⟩

/-- What the loop of `prealloc_page` leaves alone. -/
theorem prealloc_loop_frame (sys : Nat → Sys) (num : Nat) :
    ∀ fuel i st,
      (prealloc_loop sys num fuel i st).page_class_num = st.page_class_num ∧
      (prealloc_loop sys num fuel i st).mem_pool = st.mem_pool ∧
      (prealloc_loop sys num fuel i st).memalloc = st.memalloc ∧
      (∀ j, ((prealloc_loop sys num fuel i st).pageclass j).chunk_size
          = (st.pageclass j).chunk_size ∧
        ((prealloc_loop sys num fuel i st).pageclass j).perpage = (st.pageclass j).perpage) := by
  intro fuel
  induction fuel with
  | zero => intro i st; exact ⟨rfl, rfl, rfl, fun _ => ⟨rfl, rfl⟩⟩
  | succ n ih =>
    intro i st
    unfold prealloc_loop
    split_ifs with hc
    · obtain ⟨a, b, c, d⟩ := ih (i + 1) (alloc_newpage (sys i) i st).2
      obtain ⟨f1, f2, f3, _, f5⟩ := alloc_newpage_frame (sys i) i st
      refine ⟨a.trans f1, b.trans f2, c.trans f3, fun j => ?_⟩
      exact ⟨(d j).1.trans (f5 j).1, (d j).2.trans (f5 j).2.1⟩
    · exact ⟨rfl, rfl, rfl, fun _ => ⟨rfl, rfl⟩⟩

/-- A first `pages_init` (no arena yet, or `prealloc` off) builds the class table
with the loop, pins class `page_class_num` to `MM_MAX_SIZE`, and carves pages
without touching the chunk sizes. -/
theorem pages_init_table (memlimit : Nat) (grow : Nat → Nat) (prealloc : Bool)
    (pool_ret : Nat) (sys : Nat → Sys) (st st2 : Pool)
    (hfresh : ¬(prealloc = true ∧ st.mem_pool ≠ 0))
    (h : pages_init memlimit grow prealloc pool_ret sys st = some st2) :
    ∃ pc0 pc, class_loop grow (POWER_LARGEST - POWER_SMALLEST) POWER_SMALLEST
        (ROUND_UP (sizeof_item + MM_MIN_SIZE)) pc0 = some (st2.page_class_num, pc) ∧
      (∀ j, j < PAGE_MAX_CLASS_NUM → pc0 j = pageclass_t.zero) ∧
      (∀ j, (st2.pageclass j).chunk_size =
          (upd pc st2.page_class_num
            { pc st2.page_class_num with chunk_size := MM_MAX_SIZE, perpage := 1 } j).chunk_size ∧
        (st2.pageclass j).perpage =
          (upd pc st2.page_class_num
            { pc st2.page_class_num with chunk_size := MM_MAX_SIZE, perpage := 1 } j).perpage) := by
  unfold pages_init at h
  simp only [] at h
  rw [if_neg hfresh] at h
  split at h
  · exact absurd h (by simp)
  · rename_i index pc hloop
    simp only [Option.some.injEq] at h
    subst h
    obtain ⟨a, _, _, d⟩ := prealloc_loop_frame sys index POWER_LARGEST POWER_SMALLEST
      { (if prealloc = true then
            { st with
              mem_pool := pool_ret, mem_avaliable := pool_ret,
              memalloc := (1 * 1024 * 1024 * (if prealloc = true ∧ memlimit < 15 then 15 else memlimit)) % U64,
              memuse := 0 }
          else st) with
        page_class_num := index
        pageclass := upd pc index { pc index with chunk_size := MM_MAX_SIZE, perpage := 1 } }
    unfold prealloc_page
    rw [a]
    exact ⟨_, pc, hloop, fun j hj => by simp [hj], d⟩

/-! ## Fuel

The loops of the source are bounded by `POWER_LARGEST`; the starting fuel
is enough, so that more fuel changes nothing. -/

theorem class_loop_fuel (grow : Nat → Nat) :
    ∀ fuel index size pc, POWER_LARGEST ≤ index + fuel →
      class_loop grow (fuel + 1) index size pc = class_loop grow fuel index size pc := by
  intro fuel
  induction fuel with
  | zero =>
    intro index size pc h
    rw [class_loop_succ, if_neg (by omega)]
    rfl
  | succ n ih =>
    intro index size pc h
    rw [class_loop_succ grow (n + 1), class_loop_succ grow n index size pc]
    by_cases hc : index < POWER_LARGEST ∧ size < MM_MAX_SIZE
    · rw [if_pos hc, if_pos hc]
      by_cases hs : size = 0
      · rw [if_pos hs, if_pos hs]
      · rw [if_neg hs, if_neg hs]
        exact ih _ _ _ (by omega)
    · rw [if_neg hc, if_neg hc]

theorem prealloc_loop_fuel (sys : Nat → Sys) (num : Nat) :
    ∀ fuel i st, POWER_LARGEST ≤ i + fuel →
      prealloc_loop sys num (fuel + 1) i st = prealloc_loop sys num fuel i st := by
  intro fuel
  induction fuel with
  | zero =>
    intro i st h
    unfold prealloc_loop
    rw [if_neg (by omega)]
  | succ n ih =>
    intro i st h
    show (if i ≤ num ∧ i < POWER_LARGEST then
        prealloc_loop sys num (n + 1) (i + 1) (alloc_newpage (sys i) i st).2 else st)
      = (if i ≤ num ∧ i < POWER_LARGEST then
        prealloc_loop sys num n (i + 1) (alloc_newpage (sys i) i st).2 else st)
    by_cases hc : i ≤ num ∧ i < POWER_LARGEST
    · rw [if_pos hc, if_pos hc]
      exact ih _ _ (by omega)
    · rw [if_neg hc, if_neg hc]

theorem get_page_id_loop_fuel (st : Pool) (size : Nat) :
    ∀ fuel index, POWER_LARGEST ≤ index + fuel →
      get_page_id_loop st size (fuel + 1) index = get_page_id_loop st size fuel index := by
  intro fuel
  induction fuel with
  | zero =>
    intro index h
    unfold get_page_id_loop
    rw [if_neg (by omega)]
  | succ n ih =>
    intro index h
    show (if index ≤ st.page_class_num ∧ index < POWER_LARGEST then
        if size ≤ (st.pageclass index).chunk_size then index
        else get_page_id_loop st size (n + 1) (index + 1)
      else 0)
      = (if index ≤ st.page_class_num ∧ index < POWER_LARGEST then
        if size ≤ (st.pageclass index).chunk_size then index
        else get_page_id_loop st size n (index + 1)
      else 0)
    by_cases hc : index ≤ st.page_class_num ∧ index < POWER_LARGEST
    · rw [if_pos hc, if_pos hc]
      by_cases hs : size ≤ (st.pageclass index).chunk_size
      · rw [if_pos hs, if_pos hs]
      · rw [if_neg hs, if_neg hs]
        exact ih _ (by omega)
    · rw [if_neg hc, if_neg hc]

/-! ## Size-class resolution -/

/-- The scan either fails with `0` or stops at the first index from `index`
on whose chunk size fits. -/
theorem get_page_id_loop_found (st : Pool) (size : Nat) :
    ∀ fuel index, 1 ≤ index →
      get_page_id_loop st size fuel index = 0 ∨
      (index ≤ get_page_id_loop st size fuel index ∧
        get_page_id_loop st size fuel index ≤ st.page_class_num ∧
        get_page_id_loop st size fuel index < POWER_LARGEST ∧
        size ≤ (st.pageclass (get_page_id_loop st size fuel index)).chunk_size ∧
        ∀ j, index ≤ j → j < get_page_id_loop st size fuel index →
          (st.pageclass j).chunk_size < size) := by
  intro fuel
  induction fuel with
  | zero => intro index _; left; rfl
  | succ n ih =>
    intro index h1
    unfold get_page_id_loop
    by_cases hc : index ≤ st.page_class_num ∧ index < POWER_LARGEST
    · rw [if_pos hc]
      by_cases hs : size ≤ (st.pageclass index).chunk_size
      · rw [if_pos hs]
        right
        exact ⟨le_refl _, hc.1, hc.2, hs, fun j h2 h3 => absurd h3 (by omega)⟩
      · rw [if_neg hs]
        rcases ih (index + 1) (by omega) with h0 | ⟨a, b, c, d, e⟩
        · left; exact h0
        · right
          refine ⟨by omega, b, c, d, ?_⟩
          intro j h2 h3
          by_cases hj : j = index
          · subst hj; omega
          · exact e j (by omega) h3
    · rw [if_neg hc]; left; rfl

/-- With enough fuel, a failed scan means no scanned class fits. -/
theorem get_page_id_loop_none (st : Pool) (size : Nat) :
    ∀ fuel index, 1 ≤ index → POWER_LARGEST ≤ index + fuel →
      get_page_id_loop st size fuel index = 0 →
      ∀ j, index ≤ j → j ≤ st.page_class_num → j < POWER_LARGEST →
        (st.pageclass j).chunk_size < size := by
  intro fuel
  induction fuel with
  | zero => intro index _ h2 _ j h4 _ h6; omega
  | succ n ih =>
    intro index h1 h2 h3 j h4 h5 h6
    unfold get_page_id_loop at h3
    by_cases hc : index ≤ st.page_class_num ∧ index < POWER_LARGEST
    · rw [if_pos hc] at h3
      by_cases hs : size ≤ (st.pageclass index).chunk_size
      · rw [if_pos hs] at h3; omega
      · rw [if_neg hs] at h3
        by_cases hj : j = index
        · subst hj; omega
        · exact ih (index + 1) (by omega) (by omega) h3 j (by omega) h5 h6
    · exfalso; apply hc; constructor <;> omega

/-- A non-zero result of `get_page_id` is a scanned class that fits, and the first such. -/
theorem get_page_id_pos (st : Pool) (size : Nat) (h : get_page_id st size ≠ 0) :
    size ≠ 0 ∧ 1 ≤ get_page_id st size ∧ get_page_id st size ≤ st.page_class_num ∧
      get_page_id st size < POWER_LARGEST ∧
      size ≤ (st.pageclass (get_page_id st size)).chunk_size ∧
      ∀ j, 1 ≤ j → j < get_page_id st size → (st.pageclass j).chunk_size < size := by
  unfold get_page_id at h ⊢
  by_cases hs : size = 0
  · rw [if_pos hs] at h; exact absurd rfl h
  · rw [if_neg hs] at h ⊢
    rcases get_page_id_loop_found st size POWER_LARGEST POWER_SMALLEST (le_refl _) with h0 | ⟨a, b, c, d, e⟩
    · exact absurd h0 h
    · exact ⟨hs, a, b, c, d, e⟩

/-- A zero result of `get_page_id` means the size is zero or no scanned class fits. -/
theorem get_page_id_zero (st : Pool) (size : Nat) (h : get_page_id st size = 0) :
    size = 0 ∨ ∀ j, 1 ≤ j → j ≤ st.page_class_num → j < POWER_LARGEST →
      (st.pageclass j).chunk_size < size := by
  unfold get_page_id at h
  by_cases hs : size = 0
  · left; exact hs
  · rw [if_neg hs] at h
    right
    exact get_page_id_loop_none st size POWER_LARGEST POWER_SMALLEST (le_refl _)
      (by unfold POWER_LARGEST; omega) h

/-- C2 (as amended): `get_page_id st size = i` holds exactly when either `i` is
the sentinel `0` and the size is zero or exceeds the chunk size of every class
in `[1, page_class_num]` below index 200, or `i` is the smallest class id in
`[1, page_class_num]` below index 200 whose chunk size is at least `size`. -/
theorem get_page_id_spec (st : Pool) (size i : Nat) :
    get_page_id st size = i ↔
      (i = 0 ∧ (size = 0 ∨ ∀ j, 1 ≤ j → j ≤ st.page_class_num → j < POWER_LARGEST →
          (st.pageclass j).chunk_size < size)) ∨
      (size ≠ 0 ∧ 1 ≤ i ∧ i ≤ st.page_class_num ∧ i < POWER_LARGEST ∧
        size ≤ (st.pageclass i).chunk_size ∧
        ∀ j, 1 ≤ j → j < i → (st.pageclass j).chunk_size < size) := by
  constructor
  · intro h
    by_cases h0 : get_page_id st size = 0
    · left; exact ⟨by omega, get_page_id_zero st size h0⟩
    · right; subst h; exact get_page_id_pos st size h0
  · rintro (⟨hi, hz⟩ | ⟨hs, h1, h2, h3, h4, h5⟩)
    · subst hi
      by_contra hne
      obtain ⟨a, b, c, d, e, _⟩ := get_page_id_pos st size hne
      rcases hz with hz | hz
      · exact a hz
      · have := hz _ b c d; omega
    · by_cases h0 : get_page_id st size = 0
      · rcases get_page_id_zero st size h0 with hz | hz
        · exact absurd hz hs
        · have := hz i h1 h2 h3; omega
      · obtain ⟨_, b, c, d, e, f⟩ := get_page_id_pos st size h0
        rcases Nat.lt_trichotomy (get_page_id st size) i with hlt | heq | hgt
        · have := h5 _ b hlt; omega
        · exact heq
        · have := f i h1 hgt; omega

/-- C2 (counterexample): after `pages_init(15, 1.0, true)` the table has
`page_class_num = 200` and class 200 has chunk size 1 MB, yet `get_page_id(25)`
is the sentinel `0` although class 200 lies in `[1, page_class_num]` and fits. -/
theorem get_page_id_skips_class_200 :
    (pages_init 15 grow10 true 4096 sysOk (Pool.boot (fun _ => 0))).map
      (fun st => (get_page_id st 25, st.page_class_num, (st.pageclass 200).chunk_size))
      = some (0, 200, 1048576) := by
  decide!

/-! ## Claims about initialisation -/

/-- The loop of `pages_init` runs at least once: class 1 is below `page_class_num`. -/
theorem pages_init_first_class (memlimit : Nat) (grow : Nat → Nat) (prealloc : Bool)
    (pool_ret : Nat) (sys : Nat → Sys) (st st2 : Pool)
    (hfresh : ¬(prealloc = true ∧ st.mem_pool ≠ 0))
    (h : pages_init memlimit grow prealloc pool_ret sys st = some st2) :
    1 < st2.page_class_num ∧
      (st2.pageclass 1).chunk_size = ROUND_UP (sizeof_item + MM_MIN_SIZE) := by
  obtain ⟨pc0, pc, hloop, _, hcs⟩ := pages_init_table _ _ _ _ _ _ _ hfresh h
  have hlt : 1 < st2.page_class_num := by
    have h2 := hloop
    have e : POWER_LARGEST - POWER_SMALLEST = 198 + 1 := rfl
    rw [e, class_loop_succ] at h2
    have hc : POWER_SMALLEST < POWER_LARGEST ∧ ROUND_UP (sizeof_item + MM_MIN_SIZE) < MM_MAX_SIZE := by
      decide
    have hs : ¬ROUND_UP (sizeof_item + MM_MIN_SIZE) = 0 := by decide
    rw [if_pos hc, if_neg hs] at h2
    have := (class_loop_spec grow _ _ _ _ _ _ h2).1
    unfold POWER_SMALLEST at this
    omega
  refine ⟨hlt, ?_⟩
  rw [(hcs 1).1, upd_other _ _ _ _ (by omega)]
  exact class_loop_first grow _ _ _ _ _ _ hloop hlt

/-- C3 (evaluation at the failing input): after `pages_init(15, 1.0, true)` the
pool-eligible size 25 resolves to the sentinel `0`, and `do_mem_alloc(25)`
returns null. -/
theorem size_25_unresolved_at_factor_one :
    (pages_init 15 grow10 true 4096 sysOk (Pool.boot (fun _ => 0))).map
      (fun st => (get_page_id st 25, (do_mem_alloc ⟨true, 0⟩ 25 st).1, st.page_class_num))
      = some (0, 0, 200) := by
  decide!

/-- When the class table ends below index 200, every size in `[1, MM_MAX_SIZE]`
resolves to a class in `[1, page_class_num]`. -/
theorem pages_init_resolves_below_200 (memlimit : Nat) (grow : Nat → Nat) (prealloc : Bool)
    (pool_ret : Nat) (sys : Nat → Sys) (st st2 : Pool)
    (hfresh : ¬(prealloc = true ∧ st.mem_pool ≠ 0))
    (h : pages_init memlimit grow prealloc pool_ret sys st = some st2)
    (hnum : st2.page_class_num < POWER_LARGEST)
    (s : Nat) (h1 : 1 ≤ s) (h2 : s ≤ MM_MAX_SIZE) :
    1 ≤ get_page_id st2 s ∧ get_page_id st2 s ≤ st2.page_class_num := by
  obtain ⟨hlt, _⟩ := pages_init_first_class _ _ _ _ _ _ _ hfresh h
  obtain ⟨pc0, pc, hloop, _, hcs⟩ := pages_init_table _ _ _ _ _ _ _ hfresh h
  have hne : get_page_id st2 s ≠ 0 := by
    intro h0
    rcases get_page_id_zero st2 s h0 with hz | hz
    · omega
    · have := hz st2.page_class_num (by omega) (le_refl _) hnum
      rw [(hcs _).1, upd_same] at this
      simp only [] at this
      omega
  obtain ⟨_, a, b, _⟩ := get_page_id_pos st2 s hne
  exact ⟨a, b⟩

/-- C4: after a `pages_init` that builds the table with a growth step that never
shrinks a size (growth factor at least 1), `chunk_size` is non-decreasing in
the class id over `[1, page_class_num]`, the last class pinned to 1 MB included. -/
theorem pages_init_chunk_size_mono (memlimit : Nat) (grow : Nat → Nat) (prealloc : Bool)
    (pool_ret : Nat) (sys : Nat → Sys) (st st2 : Pool)
    (hg : ∀ s, s < MM_MAX_SIZE → s ≤ grow s ∧ grow s < U64)
    (hfresh : ¬(prealloc = true ∧ st.mem_pool ≠ 0))
    (h : pages_init memlimit grow prealloc pool_ret sys st = some st2) :
    ∀ i j, 1 ≤ i → i ≤ j → j ≤ st2.page_class_num →
      (st2.pageclass i).chunk_size ≤ (st2.pageclass j).chunk_size := by
  obtain ⟨pc0, pc, hloop, _, hcs⟩ := pages_init_table _ _ _ _ _ _ _ hfresh h
  obtain ⟨_, hm⟩ := class_loop_mono grow hg _ _ _ _ _ _ hloop
  obtain ⟨_, _, _, hsp⟩ := class_loop_spec grow _ _ _ _ _ _ hloop
  intro i j h1 h2 h3
  rw [(hcs i).1, (hcs j).1]
  by_cases hj : j = st2.page_class_num
  · by_cases hi : i = st2.page_class_num
    · rw [hi, hj]
    · rw [hj, upd_same, upd_other _ _ _ _ hi]
      have := (hsp i h1 (by omega)).2.2.1
      exact le_of_lt this
  · rw [upd_other _ _ _ _ hj, upd_other _ _ _ _ (by omega)]
    exact hm i j h1 h2 (by omega)

/-- C4 (witness): the default configuration `pages_init(15, 1.2, true)`. -/
theorem pages_init_chunk_size_mono_witness :
    ∃ st2, pages_init 15 grow12 true 4096 sysOk (Pool.boot (fun _ => 0)) = some st2 ∧
      ∀ i j, 1 ≤ i → i ≤ j → j ≤ st2.page_class_num →
        (st2.pageclass i).chunk_size ≤ (st2.pageclass j).chunk_size := by
  obtain ⟨st2, h⟩ := Option.isSome_iff_exists.mp
    (show (pages_init 15 grow12 true 4096 sysOk (Pool.boot (fun _ => 0))).isSome = true by
      decide!)
  refine ⟨st2, h, pages_init_chunk_size_mono 15 grow12 true 4096 sysOk _ st2 ?_ ?_ h⟩
  · intro s hs
    unfold grow12 U64
    unfold MM_MAX_SIZE at hs
    omega
  · simp [Pool.boot]

/-- C9 (counterexample): a second `pages_init` with `prealloc = false` on a pool
whose arena exists rebuilds the class table; class 1 loses its page. -/
theorem reinit_without_prealloc_changes_state :
    ((pages_init 15 grow12 true 4096 sysOk (Pool.boot (fun _ => 0))).bind
      (fun st => (pages_init 15 grow12 false 4096 sysOk st).map
        (fun st2 => (decide (st.mem_pool ≠ 0), (st.pageclass 1).page_total,
          (st2.pageclass 1).page_total, (st.pageclass 1).end_page_ptr,
          (st2.pageclass 1).end_page_ptr))))
      = some (true, 1, 0, 4096, 0) := by
  decide!

/-- C9 (as amended): when an arena already exists, `pages_init` with
`prealloc = true` returns the pool state unchanged, for every memory limit,
growth step and library answers. -/
theorem pages_init_again_noop (memlimit : Nat) (grow : Nat → Nat)
    (pool_ret : Nat) (sys : Nat → Sys) (st : Pool) (h : st.mem_pool ≠ 0) :
    pages_init memlimit grow true pool_ret sys st = some st := by
  unfold pages_init
  simp [h]

/-- C9 (witness): a pool whose arena sits at address 4096. -/
theorem pages_init_again_noop_witness :
    pages_init 20 grow10 true 8192 sysOk
        ⟨58, fun _ => pageclass_t.zero, 4096, 4096, 15728640, 0, fun _ => 0⟩
      = some ⟨58, fun _ => pageclass_t.zero, 4096, 4096, 15728640, 0, fun _ => 0⟩ :=
  pages_init_again_noop 20 grow10 8192 sysOk
    ⟨58, fun _ => pageclass_t.zero, 4096, 4096, 15728640, 0, fun _ => 0⟩ (by decide)

/-- C10 (counterexample): after `pages_init(15, 1.2, true)` the chunk size of
class 1 is 24, not 8. -/
theorem first_class_chunk_size_is_not_8 :
    (pages_init 15 grow12 true 4096 sysOk (Pool.boot (fun _ => 0))).map
      (fun st => (st.pageclass 1).chunk_size) = some 24 ∧
    (pages_init 15 grow12 true 4096 sysOk (Pool.boot (fun _ => 0))).map
      (fun st => (st.pageclass 1).chunk_size) ≠ some 8 := by
  decide!

/-- C10 (as amended): after a `pages_init` that builds the table, class 1 has
`chunk_size = 24`: one byte plus the 16-byte header, rounded up to a multiple of 8. -/
theorem pages_init_first_chunk_size (memlimit : Nat) (grow : Nat → Nat) (prealloc : Bool)
    (pool_ret : Nat) (sys : Nat → Sys) (st st2 : Pool)
    (hfresh : ¬(prealloc = true ∧ st.mem_pool ≠ 0))
    (h : pages_init memlimit grow prealloc pool_ret sys st = some st2) :
    (st2.pageclass 1).chunk_size = 24 ∧ ROUND_UP (sizeof_item + MM_MIN_SIZE) = 24 := by
  obtain ⟨_, hcs⟩ := pages_init_first_class _ _ _ _ _ _ _ hfresh h
  rw [hcs]
  decide

/-- C10 (witness): the configuration `pages_init(15, 1.2, true)` on a fresh pool. -/
theorem pages_init_first_chunk_size_witness :
    ∃ st2, pages_init 15 grow12 true 4096 sysOk (Pool.boot (fun _ => 0)) = some st2 ∧
      (st2.pageclass 1).chunk_size = 24 ∧ ROUND_UP (sizeof_item + MM_MIN_SIZE) = 24 := by
  obtain ⟨st2, h⟩ := Option.isSome_iff_exists.mp
    (show (pages_init 15 grow12 true 4096 sysOk (Pool.boot (fun _ => 0))).isSome = true by
      decide!)
  exact ⟨st2, h, pages_init_first_chunk_size 15 grow12 true 4096 sysOk _ st2
    (by simp [Pool.boot]) h⟩

/-! ## The arena -/

/-- The two outcomes of `memory_alloc` on an arena in a consistent state, for a
size whose 64-bit arithmetic does not wrap. -/
theorem memory_alloc_cases (m size : Nat) (st : Pool)
    (hpool : st.mem_pool ≠ 0) (hinv : st.memuse ≤ st.memalloc)
    (hav : st.mem_avaliable = st.mem_pool + st.memuse)
    (hno : st.memuse + size + 7 < U64) :
    ((memory_alloc m size st).1 = 0 ↔ st.memuse + size > st.memalloc) ∧
    (st.memuse + size > st.memalloc → memory_alloc m size st = (0, st)) ∧
    (st.memuse + size ≤ st.memalloc →
      memory_alloc m size st =
        (st.mem_avaliable,
          { st with
            mem_avaliable := st.mem_avaliable + min (ROUND_UP size) (st.memalloc - st.memuse)
            memuse := st.memuse + min (ROUND_UP size) (st.memalloc - st.memuse) })) := by
  obtain ⟨r1, r2, _⟩ := ROUND_UP_ge size (by omega)
  have e1 : (st.memuse + size) % U64 = st.memuse + size := Nat.mod_eq_of_lt (by omega)
  have e2 : (st.memuse + ROUND_UP size) % U64 = st.memuse + ROUND_UP size :=
    Nat.mod_eq_of_lt (by omega)
  have key : st.memuse + size ≤ st.memalloc →
      memory_alloc m size st =
        (st.mem_avaliable,
          { st with
            mem_avaliable := st.mem_avaliable + min (ROUND_UP size) (st.memalloc - st.memuse)
            memuse := st.memuse + min (ROUND_UP size) (st.memalloc - st.memuse) }) := by
    intro hle
    unfold memory_alloc
    simp only []
    rw [if_pos hpool, e1, if_neg (by omega), e2]
    by_cases hc : st.memuse + ROUND_UP size > st.memalloc
    · rw [if_pos hc]
      have e3 : (st.memalloc + U64 - st.memuse) % U64 = st.memalloc - st.memuse := by
        unfold U64 at *; omega
      have e4 : min (ROUND_UP size) (st.memalloc - st.memuse) = st.memalloc - st.memuse :=
        Nat.min_eq_right (by omega)
      rw [e3, e4]
      have e5 : st.memuse + (st.memalloc - st.memuse) = st.memalloc := by omega
      rw [e5]
    · rw [if_neg hc]
      have e4 : min (ROUND_UP size) (st.memalloc - st.memuse) = ROUND_UP size :=
        Nat.min_eq_left (by omega)
      rw [e4]
  have fail : st.memuse + size > st.memalloc → memory_alloc m size st = (0, st) := by
    intro hgt
    unfold memory_alloc
    simp only []
    rw [if_pos hpool, e1, if_pos hgt]
  refine ⟨?_, fail, key⟩
  constructor
  · intro h0
    by_contra hle
    rw [key (by omega)] at h0
    simp only [] at h0
    omega
  · intro hgt
    rw [fail hgt]

/-- C7: with an arena in a consistent state (`memuse <= memalloc`, cursor at
`mem_pool + memuse`) and a size whose 64-bit arithmetic does not wrap,
`memory_alloc(size)` returns null exactly when `memuse + size > memalloc`, and
then leaves the state unchanged; otherwise it returns the old cursor, advances
cursor and `memuse` by `min (ROUND_UP size) (memalloc - memuse)` and changes
nothing else, and the block `[ret, ret + size)` lies inside the arena and
below the new cursor. -/
theorem memory_alloc_spec (m size : Nat) (st : Pool)
    (hpool : st.mem_pool ≠ 0) (hinv : st.memuse ≤ st.memalloc)
    (hav : st.mem_avaliable = st.mem_pool + st.memuse)
    (hno : st.memuse + size + 7 < U64) :
    ((memory_alloc m size st).1 = 0 ↔ st.memuse + size > st.memalloc) ∧
    (st.memuse + size > st.memalloc → memory_alloc m size st = (0, st)) ∧
    (st.memuse + size ≤ st.memalloc →
      memory_alloc m size st =
        (st.mem_avaliable,
          { st with
            mem_avaliable := st.mem_avaliable + min (ROUND_UP size) (st.memalloc - st.memuse)
            memuse := st.memuse + min (ROUND_UP size) (st.memalloc - st.memuse) }) ∧
      st.mem_pool ≤ (memory_alloc m size st).1 ∧
      (memory_alloc m size st).1 + size ≤ (memory_alloc m size st).2.mem_avaliable ∧
      (memory_alloc m size st).2.mem_avaliable ≤ st.mem_pool + st.memalloc) := by
  obtain ⟨c1, c2, c3⟩ := memory_alloc_cases m size st hpool hinv hav hno
  obtain ⟨r1, _, _⟩ := ROUND_UP_ge size (by omega)
  refine ⟨c1, c2, fun hle => ⟨c3 hle, ?_⟩⟩
  rw [c3 hle]
  simp only []
  have := Nat.min_le_right (ROUND_UP size) (st.memalloc - st.memuse)
  have hm : size ≤ min (ROUND_UP size) (st.memalloc - st.memuse) :=
    Nat.le_min.mpr ⟨r1, by omega⟩
  omega

/-- C7 (witness): an arena of 100 bytes at address 4096 with 90 bytes used; a request of 5. -/
theorem memory_alloc_spec_witness :
    memory_alloc 0 5 ⟨0, fun _ => pageclass_t.zero, 4096, 4186, 100, 90, fun _ => 0⟩ =
      (4186, ⟨0, fun _ => pageclass_t.zero, 4096, 4186 + min (ROUND_UP 5) (100 - 90), 100,
        90 + min (ROUND_UP 5) (100 - 90), fun _ => 0⟩) :=
  ((memory_alloc_spec 0 5 ⟨0, fun _ => pageclass_t.zero, 4096, 4186, 100, 90, fun _ => 0⟩
    (by decide) (by decide) (by decide) (by decide)).2.2 (by decide)).1

theorem page_bytes_lt (st : Pool) (id : Nat) : page_bytes st id < U32 :=
  Nat.mod_lt _ (by decide)

/-- `memory_alloc` keeps the arena invariant and never decreases `memuse`. -/
theorem memory_alloc_arena (m size : Nat) (st : Pool)
    (hok : ArenaOk st) (hb : st.memalloc < 4503599627370496)
    (hs : size < 9223372036854775808) :
    ArenaOk (memory_alloc m size st).2 ∧ st.memuse ≤ (memory_alloc m size st).2.memuse := by
  obtain ⟨h1, h2⟩ := hok
  by_cases hp : st.mem_pool = 0
  · have : memory_alloc m size st = (m, st) := by
      unfold memory_alloc; simp [hp]
    rw [this]; exact ⟨⟨h1, h2⟩, le_refl _⟩
  · obtain ⟨_, a, b⟩ := memory_alloc_cases m size st hp h1 h2 (by unfold U64; omega)
    by_cases hgt : st.memuse + size > st.memalloc
    · rw [a hgt]; exact ⟨⟨h1, h2⟩, le_refl _⟩
    · have e := b (by omega)
      rw [e]
      have := Nat.min_le_right (ROUND_UP size) (st.memalloc - st.memuse)
      refine ⟨⟨?_, ?_⟩, ?_⟩ <;> simp only [] <;> omega

/-- `alloc_newpage` keeps the arena invariant and never decreases `memuse`. -/
theorem alloc_newpage_arena (sys : Sys) (id : Nat) (st : Pool)
    (hok : ArenaOk st) (hb : st.memalloc < 4503599627370496)
    (hz : st.mem_pool = 0 → st.memuse = 0) :
    ArenaOk (alloc_newpage sys id st).2 ∧ st.memuse ≤ (alloc_newpage sys id st).2.memuse ∧
      ((alloc_newpage sys id st).2.mem_pool = 0 → (alloc_newpage sys id st).2.memuse = 0) := by
  have hpb := page_bytes_lt st id
  obtain ⟨a, b⟩ := memory_alloc_arena sys.malloc_ret (page_bytes st id) st hok hb
    (by unfold U32 at hpb; omega)
  obtain ⟨_, _, f3, _, _⟩ := memory_alloc_frame sys.malloc_ret (page_bytes st id) st
  have hz2 : (memory_alloc sys.malloc_ret (page_bytes st id) st).2.mem_pool = 0 →
      (memory_alloc sys.malloc_ret (page_bytes st id) st).2.memuse = 0 := by
    intro h0
    rw [f3] at h0
    have : memory_alloc sys.malloc_ret (page_bytes st id) st = (sys.malloc_ret, st) := by
      unfold memory_alloc; simp [h0]
    rw [this]; exact hz h0
  rw [alloc_newpage_unfold]
  split_ifs
  · exact ⟨hok, le_refl _, hz⟩
  · exact ⟨hok, le_refl _, hz⟩
  · exact ⟨a, b, hz2⟩
  · exact ⟨a, b, hz2⟩

/-- What `take_chunk` leaves alone. -/
theorem take_chunk_frame (id : Nat) (st : Pool) :
    (take_chunk id st).2.page_class_num = st.page_class_num ∧
    (take_chunk id st).2.mem_pool = st.mem_pool ∧
    (take_chunk id st).2.mem_avaliable = st.mem_avaliable ∧
    (take_chunk id st).2.memalloc = st.memalloc ∧
    (take_chunk id st).2.memuse = st.memuse ∧
    (∀ j, j ≠ id → (take_chunk id st).2.pageclass j = st.pageclass j) ∧
    (∀ j, ((take_chunk id st).2.pageclass j).chunk_size = (st.pageclass j).chunk_size ∧
      ((take_chunk id st).2.pageclass j).perpage = (st.pageclass j).perpage ∧
      ((take_chunk id st).2.pageclass j).freelist = (st.pageclass j).freelist ∧
      ((take_chunk id st).2.pageclass j).free_total = (st.pageclass j).free_total ∧
      ((take_chunk id st).2.pageclass j).page_total = (st.pageclass j).page_total ∧
      ((take_chunk id st).2.pageclass j).page_list = (st.pageclass j).page_list ∧
      ((take_chunk id st).2.pageclass j).page_size = (st.pageclass j).page_size) := by
  unfold take_chunk Pool.setClass
  simp only []
  split_ifs
  all_goals
    refine ⟨rfl, rfl, rfl, rfl, rfl, ?_, ?_⟩
    · intro j hj; simp [upd, hj]
    · intro j; by_cases hj : j = id <;> simp [upd, hj]

/-- What `ensure_page` leaves alone. -/
theorem ensure_page_frame (sys : Sys) (id : Nat) (st : Pool) :
    (ensure_page sys id st).2.page_class_num = st.page_class_num ∧
    (ensure_page sys id st).2.mem_pool = st.mem_pool ∧
    (ensure_page sys id st).2.memalloc = st.memalloc ∧
    (∀ j, j ≠ id → (ensure_page sys id st).2.pageclass j = st.pageclass j) ∧
    (∀ j, ((ensure_page sys id st).2.pageclass j).chunk_size = (st.pageclass j).chunk_size ∧
      ((ensure_page sys id st).2.pageclass j).perpage = (st.pageclass j).perpage ∧
      ((ensure_page sys id st).2.pageclass j).freelist = (st.pageclass j).freelist ∧
      ((ensure_page sys id st).2.pageclass j).free_total = (st.pageclass j).free_total ∧
      ((ensure_page sys id st).2.pageclass j).free_curr = (st.pageclass j).free_curr) := by
  unfold ensure_page
  simp only []
  split_ifs
  · exact alloc_newpage_frame sys id st
  · exact ⟨rfl, rfl, rfl, fun _ _ => rfl, fun _ => ⟨rfl, rfl, rfl, rfl, rfl⟩⟩

/-- What `do_mem_free` leaves alone. -/
theorem do_mem_free_frame (ok : Bool) (pointer size : Nat) (st : Pool) :
    (do_mem_free ok pointer size st).page_class_num = st.page_class_num ∧
    (do_mem_free ok pointer size st).mem_pool = st.mem_pool ∧
    (do_mem_free ok pointer size st).mem_avaliable = st.mem_avaliable ∧
    (do_mem_free ok pointer size st).memalloc = st.memalloc ∧
    (do_mem_free ok pointer size st).memuse = st.memuse ∧
    (do_mem_free ok pointer size st).classid = st.classid ∧
    (∀ j, j ≠ st.classid pointer →
      (do_mem_free ok pointer size st).pageclass j = st.pageclass j) ∧
    (∀ j, ((do_mem_free ok pointer size st).pageclass j).chunk_size
        = (st.pageclass j).chunk_size ∧
      ((do_mem_free ok pointer size st).pageclass j).perpage = (st.pageclass j).perpage ∧
      ((do_mem_free ok pointer size st).pageclass j).end_page_ptr
        = (st.pageclass j).end_page_ptr ∧
      ((do_mem_free ok pointer size st).pageclass j).end_page_free
        = (st.pageclass j).end_page_free ∧
      ((do_mem_free ok pointer size st).pageclass j).page_total = (st.pageclass j).page_total ∧
      ((do_mem_free ok pointer size st).pageclass j).page_list = (st.pageclass j).page_list ∧
      ((do_mem_free ok pointer size st).pageclass j).page_size = (st.pageclass j).page_size) := by
  unfold do_mem_free Pool.setClass
  simp only []
  split_ifs
  all_goals
    refine ⟨rfl, rfl, rfl, rfl, rfl, rfl, ?_, ?_⟩
    · intro j hj; simp [upd, hj]
    · intro j; by_cases hj : j = st.classid pointer <;> simp [upd, hj]

/-- The arena fields after `do_mem_alloc` are those after its page growth, if any. -/
theorem do_mem_alloc_arena (sys : Sys) (size : Nat) (st : Pool)
    (hok : ArenaOk st) (hb : st.memalloc < 4503599627370496)
    (hz : st.mem_pool = 0 → st.memuse = 0) :
    ArenaOk (do_mem_alloc sys size st).2 ∧ st.memuse ≤ (do_mem_alloc sys size st).2.memuse ∧
      ((do_mem_alloc sys size st).2.mem_pool = 0 → (do_mem_alloc sys size st).2.memuse = 0) ∧
      (do_mem_alloc sys size st).2.memalloc = st.memalloc := by
  have he : ArenaOk (ensure_page sys (get_page_id st size) st).2 ∧
      st.memuse ≤ (ensure_page sys (get_page_id st size) st).2.memuse ∧
      ((ensure_page sys (get_page_id st size) st).2.mem_pool = 0 →
        (ensure_page sys (get_page_id st size) st).2.memuse = 0) := by
    unfold ensure_page
    simp only []
    split_ifs
    · exact alloc_newpage_arena sys _ st hok hb hz
    · exact ⟨hok, le_refl _, hz⟩
  obtain ⟨e1, e2, e3⟩ := he
  obtain ⟨_, g2, g3, _, _⟩ := ensure_page_frame sys (get_page_id st size) st
  unfold do_mem_alloc
  simp only []
  split_ifs
  · exact ⟨hok, le_refl _, hz, rfl⟩
  · exact ⟨e1, e2, e3, g3⟩
  · obtain ⟨_, f2, f3, f4, f5, _⟩ :=
      take_chunk_frame (get_page_id st size) (ensure_page sys (get_page_id st size) st).2
    unfold ArenaOk at e1 ⊢
    rw [f2, f3, f4, f5]
    exact ⟨e1, e2, e3, g3⟩

theorem alloc_newpage_inv (sys : Sys) (id : Nat) (st : Pool) (h : ArenaInv st) :
    ArenaInv (alloc_newpage sys id st).2 ∧ st.memuse ≤ (alloc_newpage sys id st).2.memuse := by
  obtain ⟨h1, h2, h3⟩ := h
  obtain ⟨a, b, c⟩ := alloc_newpage_arena sys id st h1 h2 h3
  obtain ⟨_, _, f3, _⟩ := alloc_newpage_frame sys id st
  exact ⟨⟨a, by rw [f3]; exact h2, c⟩, b⟩

theorem prealloc_loop_inv (sys : Nat → Sys) (num : Nat) :
    ∀ fuel i st, ArenaInv st →
      ArenaInv (prealloc_loop sys num fuel i st) ∧
        st.memuse ≤ (prealloc_loop sys num fuel i st).memuse := by
  intro fuel
  induction fuel with
  | zero => intro i st h; exact ⟨h, le_refl _⟩
  | succ n ih =>
    intro i st h
    unfold prealloc_loop
    split_ifs
    · obtain ⟨a, b⟩ := alloc_newpage_inv (sys i) i st h
      obtain ⟨c, d⟩ := ih (i + 1) _ a
      exact ⟨c, le_trans b d⟩
    · exact ⟨h, le_refl _⟩

theorem pages_init_inv (memlimit : Nat) (grow : Nat → Nat) (prealloc : Bool)
    (pool_ret : Nat) (sys : Nat → Sys) (st st2 : Pool)
    (hml : memlimit < U32) (hinv : ArenaInv st)
    (h : pages_init memlimit grow prealloc pool_ret sys st = some st2) :
    ArenaInv st2 ∧ st.memuse ≤ st2.memuse := by
  unfold pages_init at h
  simp only [] at h
  by_cases hre : prealloc = true ∧ st.mem_pool ≠ 0
  · rw [if_pos hre] at h
    simp only [Option.some.injEq] at h
    subst h
    exact ⟨hinv, le_refl _⟩
  · rw [if_neg hre] at h
    split at h
    · exact absurd h (by simp)
    · rename_i index pc hloop
      simp only [Option.some.injEq] at h
      subst h
      unfold prealloc_page
      by_cases hp : prealloc = true
      · have hz : st.mem_pool = 0 := by
          by_contra hne; exact hre ⟨hp, hne⟩
        have hmu : st.memuse = 0 := hinv.2.2 hz
        simp only [hp, if_true, true_and]
        refine (fun x => ⟨x.1, by rw [hmu]; exact Nat.zero_le _⟩)
          (prealloc_loop_inv sys index POWER_LARGEST POWER_SMALLEST _ ?_)
        refine ⟨⟨Nat.zero_le _, rfl⟩, ?_, fun _ => rfl⟩
        show (1 * 1024 * 1024 * (if memlimit < 15 then 15 else memlimit)) % U64 < _
        unfold U32 at hml
        unfold U64
        split_ifs <;> omega
      · simp only [hp, if_false]
        exact prealloc_loop_inv sys index POWER_LARGEST POWER_SMALLEST _
          ⟨hinv.1, hinv.2.1, hinv.2.2⟩

/-- Every call keeps the invariant and never decreases `memuse`. -/
theorem call_inv (c : Call) (st st2 : Pool) (hinv : ArenaInv st) (hc : c.wellTyped)
    (h : c.run st = some st2) : ArenaInv st2 ∧ st.memuse ≤ st2.memuse := by
  cases c with
  | pages_init memlimit grow prealloc pool_ret sys =>
    exact pages_init_inv memlimit grow prealloc pool_ret sys st st2 hc hinv h
  | memory_alloc m size =>
    simp only [Call.run, Option.some.injEq] at h
    subst h
    obtain ⟨a, b⟩ := memory_alloc_arena m size st hinv.1 hinv.2.1 hc
    obtain ⟨_, _, f3, f4, _⟩ := memory_alloc_frame m size st
    refine ⟨⟨a, by rw [f4]; exact hinv.2.1, ?_⟩, b⟩
    intro h0
    rw [f3] at h0
    have : memory_alloc m size st = (m, st) := by
      unfold memory_alloc; simp [h0]
    rw [this]; exact hinv.2.2 h0
  | alloc_newpage sys id =>
    simp only [Call.run, Option.some.injEq] at h
    subst h
    exact alloc_newpage_inv sys id st hinv
  | do_mem_alloc sys size =>
    simp only [Call.run, Option.some.injEq] at h
    subst h
    obtain ⟨a, b, c, d⟩ := do_mem_alloc_arena sys size st hinv.1 hinv.2.1 hinv.2.2
    exact ⟨⟨a, by rw [d]; exact hinv.2.1, c⟩, b⟩
  | do_mem_free ok pointer size =>
    simp only [Call.run, Option.some.injEq] at h
    subst h
    obtain ⟨_, f2, f3, f4, f5, _⟩ := do_mem_free_frame ok pointer size st
    unfold ArenaInv ArenaOk at hinv ⊢
    rw [f2, f3, f4, f5]
    exact ⟨hinv, le_refl _⟩

theorem boot_inv (hdr : Nat → Nat) : ArenaInv (Pool.boot hdr) :=
  ⟨⟨le_refl _, rfl⟩, by show (0 : Nat) < 4503599627370496; omega, fun _ => rfl⟩

theorem reachable_inv (st : Pool) (h : Reachable st) : ArenaInv st := by
  induction h with
  | start hdr memlimit grow prealloc pool_ret sys st hml hinit =>
    exact (pages_init_inv memlimit grow prealloc pool_ret sys _ st hml (boot_inv hdr) hinit).1
  | step st c st2 _ hc hrun ih => exact (call_inv c st st2 ih hc hrun).1

/-- C6: in every state reachable from `pages_init` through any sequence of
`pages_init`, `memory_alloc`, `alloc_newpage`, `do_mem_alloc` and `do_mem_free`
calls, `memuse <= memalloc` and `mem_avaliable = mem_pool + memuse`, and no
further call decreases `memuse`. -/
theorem arena_accounting (st : Pool) (h : Reachable st) :
    st.memuse ≤ st.memalloc ∧ st.mem_avaliable = st.mem_pool + st.memuse ∧
      ∀ (c : Call) (st2 : Pool), c.wellTyped → c.run st = some st2 →
        st.memuse ≤ st2.memuse := by
  have hinv := reachable_inv st h
  exact ⟨hinv.1.1, hinv.1.2, fun c st2 hc hrun => (call_inv c st st2 hinv hc hrun).2⟩

/-- C6 (witness): the state after `pages_init(15, 1.2, true)` and one `do_mem_alloc(100)`. -/
theorem arena_accounting_witness :
    ∃ st, Reachable st ∧ st.memuse ≤ st.memalloc ∧
      st.mem_avaliable = st.mem_pool + st.memuse ∧
      ∀ (c : Call) (st2 : Pool), c.wellTyped → c.run st = some st2 →
        st.memuse ≤ st2.memuse := by
  obtain ⟨st0, h0⟩ := Option.isSome_iff_exists.mp
    (show (pages_init 15 grow12 true 4096 sysOk (Pool.boot (fun _ => 0))).isSome = true by
      decide!)
  have hr : Reachable (do_mem_alloc ⟨true, 0⟩ 100 st0).2 :=
    Reachable.step st0 (Call.do_mem_alloc ⟨true, 0⟩ 100) _
      (Reachable.start _ 15 grow12 true 4096 sysOk st0 (by decide) h0) trivial rfl
  exact ⟨_, hr, arena_accounting _ hr⟩

/-! ## Allocation and release -/
/-- The scan of `get_page_id` reads only `page_class_num` and the chunk sizes. -/
theorem get_page_id_congr (st st2 : Pool) (size : Nat)
    (h1 : st2.page_class_num = st.page_class_num)
    (h2 : ∀ j, (st2.pageclass j).chunk_size = (st.pageclass j).chunk_size) :
    get_page_id st2 size = get_page_id st size := by
  have loop : ∀ fuel index,
      get_page_id_loop st2 size fuel index = get_page_id_loop st size fuel index := by
    intro fuel
    induction fuel with
    | zero => intro index; rfl
    | succ n ih =>
      intro index
      unfold get_page_id_loop
      rw [h1, h2, ih]
  unfold get_page_id
  rw [loop]

/-- `do_mem_alloc` changes neither `page_class_num` nor any chunk size. -/
theorem do_mem_alloc_table (sys : Sys) (size : Nat) (st : Pool) :
    (do_mem_alloc sys size st).2.page_class_num = st.page_class_num ∧
    ∀ j, ((do_mem_alloc sys size st).2.pageclass j).chunk_size = (st.pageclass j).chunk_size ∧
      ((do_mem_alloc sys size st).2.pageclass j).perpage = (st.pageclass j).perpage := by
  obtain ⟨g1, _, _, _, g5⟩ := ensure_page_frame sys (get_page_id st size) st
  unfold do_mem_alloc
  simp only []
  split_ifs
  · exact ⟨rfl, fun _ => ⟨rfl, rfl⟩⟩
  · exact ⟨g1, fun j => ⟨(g5 j).1, (g5 j).2.1⟩⟩
  · obtain ⟨f1, _, _, _, _, _, f7⟩ :=
      take_chunk_frame (get_page_id st size) (ensure_page sys (get_page_id st size) st).2
    exact ⟨f1.trans g1, fun j => ⟨(f7 j).1.trans (g5 j).1, (f7 j).2.1.trans (g5 j).2.1⟩⟩

/-- A successful `do_mem_alloc` went through `take_chunk` on a valid class. -/
theorem do_mem_alloc_ok (sys : Sys) (size : Nat) (st : Pool)
    (h : (do_mem_alloc sys size st).1 ≠ 0) :
    1 ≤ get_page_id st size ∧ get_page_id st size ≤ st.page_class_num ∧
      get_page_id st size < POWER_LARGEST ∧
      (ensure_page sys (get_page_id st size) st).1 ≠ 0 ∧
      do_mem_alloc sys size st =
        take_chunk (get_page_id st size) (ensure_page sys (get_page_id st size) st).2 := by
  unfold do_mem_alloc at h ⊢
  simp only [] at h ⊢
  split_ifs at h ⊢ with h1 h2
  · exact absurd rfl h
  · exact absurd rfl h
  · have hne : get_page_id st size ≠ 0 := by unfold POWER_SMALLEST at h1; omega
    obtain ⟨_, a, b, c, _⟩ := get_page_id_pos st size hne
    exact ⟨a, b, c, h2, rfl⟩

/-- A non-null chunk taken from class `id` carries `id` in its header, and
leaves the free list of the class short of its `uint32_t` limit. -/
theorem take_chunk_ok (id : Nat) (st : Pool) (h : (take_chunk id st).1 ≠ 0)
    (hfc : (st.pageclass id).free_curr < U32) :
    (take_chunk id st).2.classid (take_chunk id st).1 = id % 256 ∧
      ((take_chunk id st).2.pageclass id).free_curr + 1 < U32 := by
  unfold take_chunk at h ⊢
  simp only [] at h ⊢
  by_cases h1 : (st.pageclass id).free_curr ≠ 0
  · rw [if_pos h1] at h ⊢
    by_cases h2 : (st.pageclass id).freelist (((st.pageclass id).free_curr + U32 - 1) % U32) ≠ 0
    · rw [if_pos h2]
      refine ⟨by simp, ?_⟩
      simp only [Pool.setClass, upd_same]
      unfold U32 at *
      omega
    · rw [if_neg h2] at h
      exact absurd h (by simpa using h2)
  · rw [if_neg h1] at h ⊢
    by_cases h3 : (st.pageclass id).end_page_ptr ≠ 0
    · rw [if_pos h3]
      refine ⟨by simp, ?_⟩
      simp only [Pool.setClass, upd_same]
      unfold U32 at *
      omega
    · rw [if_neg h3] at h
      exact absurd rfl h

/-- With a non-empty free list, `take_chunk` returns its top entry and carves nothing. -/
theorem take_chunk_pop (id : Nat) (st : Pool) (h : (st.pageclass id).free_curr ≠ 0) :
    (take_chunk id st).1 =
      (st.pageclass id).freelist (((st.pageclass id).free_curr + U32 - 1) % U32) ∧
    ((take_chunk id st).2.pageclass id).free_curr
      = ((st.pageclass id).free_curr + U32 - 1) % U32 ∧
    ((take_chunk id st).2.pageclass id).end_page_ptr = (st.pageclass id).end_page_ptr ∧
    ((take_chunk id st).2.pageclass id).end_page_free = (st.pageclass id).end_page_free := by
  unfold take_chunk
  simp only []
  rw [if_pos h]
  split_ifs <;> simp [Pool.setClass]

/-- A `do_mem_free` whose header names a valid class and whose list growth, if
any, succeeds pushes the pointer on that class's free list. -/
theorem do_mem_free_push (pointer size : Nat) (st : Pool)
    (h1 : 1 ≤ st.classid pointer) (h2 : st.classid pointer ≤ st.page_class_num) :
    ((do_mem_free true pointer size st).pageclass (st.classid pointer)).free_curr
      = ((st.pageclass (st.classid pointer)).free_curr + 1) % U32 ∧
    ((do_mem_free true pointer size st).pageclass (st.classid pointer)).freelist
      = upd (st.pageclass (st.classid pointer)).freelist
          (st.pageclass (st.classid pointer)).free_curr pointer := by
  unfold do_mem_free
  simp only []
  rw [if_neg (by unfold POWER_SMALLEST; omega)]
  split_ifs <;> simp [Pool.setClass]

/-- C5 (LIFO round trip): if `do_mem_alloc(s)` returns a non-null `p`, and
`do_mem_free(p)` follows with its list growth succeeding, then the next
`do_mem_alloc(s2)` of a size of the same class returns `p` again, and no
class gets a new page. -/
theorem lifo_round_trip (sys sys2 : Sys) (size size2 fsize : Nat) (st : Pool)
    (hfc : (st.pageclass (get_page_id st size)).free_curr < U32)
    (hid : get_page_id st size2 = get_page_id st size)
    (hp : (do_mem_alloc sys size st).1 ≠ 0) :
    (do_mem_alloc sys2 size2
        (do_mem_free true (do_mem_alloc sys size st).1 fsize (do_mem_alloc sys size st).2)).1
      = (do_mem_alloc sys size st).1 ∧
    ∀ j, ((do_mem_alloc sys2 size2
        (do_mem_free true (do_mem_alloc sys size st).1 fsize
          (do_mem_alloc sys size st).2)).2.pageclass j).page_total
      = ((do_mem_free true (do_mem_alloc sys size st).1 fsize
          (do_mem_alloc sys size st).2).pageclass j).page_total := by
  obtain ⟨a1, a2, a3, _, a5⟩ := do_mem_alloc_ok sys size st hp
  obtain ⟨t1, t2⟩ := do_mem_alloc_table sys size st
  obtain ⟨_, _, _, _, e5⟩ := ensure_page_frame sys (get_page_id st size) st
  have hfc2 : ((ensure_page sys (get_page_id st size) st).2.pageclass
      (get_page_id st size)).free_curr < U32 := by
    rw [(e5 _).2.2.2.2]; exact hfc
  have hp2 : (take_chunk (get_page_id st size)
      (ensure_page sys (get_page_id st size) st).2).1 ≠ 0 := by rw [← a5]; exact hp
  obtain ⟨c1, c2⟩ := take_chunk_ok _ _ hp2 hfc2
  rw [← a5] at c1 c2
  have hmod : get_page_id st size % 256 = get_page_id st size :=
    Nat.mod_eq_of_lt (by unfold POWER_LARGEST at a3; omega)
  rw [hmod] at c1
  generalize hP : (do_mem_alloc sys size st).1 = p at *
  generalize hS : (do_mem_alloc sys size st).2 = st1 at *
  obtain ⟨d1, _, _, _, _, _, _, d8⟩ := do_mem_free_frame true p fsize st1
  obtain ⟨q1, q2⟩ := do_mem_free_push p fsize st1 (by omega) (by omega)
  rw [c1] at q1 q2
  generalize hF : do_mem_free true p fsize st1 = st2 at *
  have hid2 : get_page_id st2 size2 = get_page_id st size := by
    rw [← hid]
    apply get_page_id_congr
    · rw [d1, t1]
    · intro j; rw [(d8 j).1, (t2 j).1]
  have hfc3 : (st2.pageclass (get_page_id st size)).free_curr ≠ 0 := by
    rw [q1]; unfold U32 at *; omega
  have hens : ensure_page sys2 (get_page_id st size) st2 = (1, st2) := by
    unfold ensure_page
    simp only []
    rw [if_neg (fun h => hfc3 h.2)]
  obtain ⟨r1, _⟩ := take_chunk_pop (get_page_id st size) st2 hfc3
  have hret : (take_chunk (get_page_id st size) st2).1 = p := by
    rw [r1, q1, q2]
    have : (((st1.pageclass (get_page_id st size)).free_curr + 1) % U32 + U32 - 1) % U32
        = (st1.pageclass (get_page_id st size)).free_curr := by
      unfold U32 at *; omega
    rw [this, upd_same]
  have hrun : do_mem_alloc sys2 size2 st2 = take_chunk (get_page_id st size) st2 := by
    unfold do_mem_alloc
    simp only []
    rw [hid2, if_neg (by unfold POWER_SMALLEST; rw [d1, t1]; omega), hens]
    simp
  rw [hrun]
  refine ⟨hret, fun j => ?_⟩
  obtain ⟨_, _, _, _, _, _, f7⟩ := take_chunk_frame (get_page_id st size) st2
  exact (f7 j).2.2.2.2.1


/-- C5 (witness): on the default pool, sizes 100 and 110 share class 8; the
chunk allocated for 100 and freed is returned again for 110. -/
theorem lifo_round_trip_witness :
    (do_mem_alloc ⟨true, 0⟩ 110
        (do_mem_free true (do_mem_alloc ⟨true, 0⟩ 100 pool_default).1 0
          (do_mem_alloc ⟨true, 0⟩ 100 pool_default).2)).1
      = (do_mem_alloc ⟨true, 0⟩ 100 pool_default).1 :=
  (lifo_round_trip ⟨true, 0⟩ ⟨true, 0⟩ 100 110 0 pool_default
    (by decide!) (by decide!) (by decide!)).1

/-! ## Page preallocation -/
/-- The loop of `prealloc_page` from index `i` on leaves the classes below `i` alone. -/
theorem prealloc_loop_below (sys : Nat → Sys) (num : Nat) :
    ∀ fuel i st j, j < i → (prealloc_loop sys num fuel i st).pageclass j = st.pageclass j := by
  intro fuel
  induction fuel with
  | zero => intro i st j _; rfl
  | succ n ih =>
    intro i st j hj
    unfold prealloc_loop
    split_ifs
    · rw [ih (i + 1) _ j (by omega)]
      exact (alloc_newpage_frame (sys i) i st).2.2.2.1 j (by omega)
    · rfl

/-- A first page: with an arena that has room, an empty page list and a
succeeding `realloc`, `alloc_newpage` carves the page at the cursor. -/
theorem alloc_newpage_first (sys : Sys) (id : Nat) (st : Pool)
    (hpool : st.mem_pool ≠ 0) (hok : ArenaOk st) (hb : st.memalloc < 4503599627370496)
    (hre : sys.realloc_ok = true)
    (hpt : (st.pageclass id).page_total = 0) (hps : (st.pageclass id).page_size = 0)
    (hsz : page_bytes st id ≤ MM_MAX_SIZE)
    (hroom : st.memuse + MM_MAX_SIZE ≤ st.memalloc) :
    (alloc_newpage sys id st).1 = 1 ∧
    ((alloc_newpage sys id st).2.pageclass id).page_total = 1 ∧
    ((alloc_newpage sys id st).2.pageclass id).end_page_ptr = st.mem_avaliable ∧
    ((alloc_newpage sys id st).2.pageclass id).end_page_ptr ≠ 0 ∧
    ((alloc_newpage sys id st).2.pageclass id).end_page_free = (st.pageclass id).perpage ∧
    (alloc_newpage sys id st).2.memuse ≤ st.memuse + MM_MAX_SIZE := by
  obtain ⟨h1, h2⟩ := hok
  unfold MM_MAX_SIZE at hsz hroom
  have hfit : st.memuse + page_bytes st id ≤ st.memalloc := by omega
  obtain ⟨_, _, b⟩ := memory_alloc_cases sys.malloc_ret (page_bytes st id) st hpool h1 h2
    (by unfold U64; omega)
  have e := b hfit
  have hg : (grow_page_list sys.realloc_ok id st).1 = 1 := by
    unfold grow_page_list
    simp only []
    rw [hre, hps, hpt]
    simp
  have hm : (memory_alloc sys.malloc_ret (page_bytes st id) st).1 = st.mem_avaliable := by
    rw [e]
  have hav : st.mem_avaliable ≠ 0 := by omega
  have hr : ROUND_UP (page_bytes st id) ≤ 1048576 := by
    unfold ROUND_UP PAGE_ALIGN U64; omega
  rw [alloc_newpage_unfold]
  rw [if_neg (by rw [hpt]; simp), if_neg (by rw [hg]; simp), if_neg (by rw [hm]; exact hav)]
  simp only [upd_same, hm, hpt]
  refine ⟨trivial, by decide, trivial, hav, trivial, ?_⟩
  rw [e]
  simp only []
  have := Nat.min_le_left (ROUND_UP (page_bytes st id)) (st.memalloc - st.memuse)
  unfold MM_MAX_SIZE
  omega

/-- With an arena that has room for one page per remaining class, the loop of
`prealloc_page` gives every class it visits its first page. -/
theorem prealloc_loop_pages (sys : Nat → Sys) (num : Nat)
    (hre : ∀ i, (sys i).realloc_ok = true) :
    ∀ fuel i st,
      st.mem_pool ≠ 0 → ArenaOk st → st.memalloc < 4503599627370496 →
      (∀ j, i ≤ j → j ≤ num → j < POWER_LARGEST →
        (st.pageclass j).page_total = 0 ∧ (st.pageclass j).page_size = 0 ∧
          page_bytes st j ≤ MM_MAX_SIZE) →
      st.memuse + MM_MAX_SIZE * (num + 1 - i) ≤ st.memalloc →
      ∀ j, i ≤ j → j ≤ num → j < POWER_LARGEST → j < i + fuel →
        ((prealloc_loop sys num fuel i st).pageclass j).page_total = 1 ∧
        ((prealloc_loop sys num fuel i st).pageclass j).end_page_ptr ≠ 0 ∧
        ((prealloc_loop sys num fuel i st).pageclass j).end_page_free
          = (st.pageclass j).perpage := by
  intro fuel
  induction fuel with
  | zero => intro i st _ _ _ _ _ j h1 _ _ h4; omega
  | succ n ih =>
    intro i st hpool hok hb hpr hroom j h1 h2 h3 h4
    have hc : i ≤ num ∧ i < POWER_LARGEST := ⟨by omega, by omega⟩
    unfold prealloc_loop
    rw [if_pos hc]
    obtain ⟨p1, p2, p3⟩ := hpr i (le_refl _) hc.1 hc.2
    have hroom1 : st.memuse + MM_MAX_SIZE ≤ st.memalloc := by
      unfold MM_MAX_SIZE at hroom ⊢; omega
    obtain ⟨_, a2, _, a4, a5, a6⟩ :=
      alloc_newpage_first (sys i) i st hpool hok hb (hre i) p1 p2 p3 hroom1
    obtain ⟨_, f2, f3, f4, f5⟩ := alloc_newpage_frame (sys i) i st
    by_cases hj : j = i
    · subst hj
      rw [prealloc_loop_below sys num n (j + 1) _ j (by omega)]
      exact ⟨a2, a4, a5⟩
    · obtain ⟨b1, _, _⟩ := alloc_newpage_arena (sys i) i st hok hb (fun h => absurd h hpool)
      have := ih (i + 1) (alloc_newpage (sys i) i st).2 (by rw [f2]; exact hpool) b1
        (by rw [f3]; exact hb)
        (by
          intro k k1 k2 k3
          have hk := f4 k (by omega)
          have hb2 : page_bytes (alloc_newpage (sys i) i st).2 k = page_bytes st k := by
            unfold page_bytes; rw [hk]
          rw [hb2, hk]
          exact hpr k (by omega) k2 k3)
        (by rw [f3]; unfold MM_MAX_SIZE at a6 hroom ⊢; omega)
        j (by omega) h2 h3 (by omega)
      rw [(f5 j).2.1] at this
      exact this

/-- The state in which a first `pages_init` with `prealloc = true` enters `prealloc_page`. -/
theorem pages_init_prealloc_unfold (memlimit : Nat) (grow : Nat → Nat)
    (pool_ret : Nat) (sys : Nat → Sys) (st st2 : Pool) (hfresh : st.mem_pool = 0)
    (h : pages_init memlimit grow true pool_ret sys st = some st2) :
    ∃ pc, class_loop grow (POWER_LARGEST - POWER_SMALLEST) POWER_SMALLEST
        (ROUND_UP (sizeof_item + MM_MIN_SIZE))
        (fun i => if i < PAGE_MAX_CLASS_NUM then pageclass_t.zero else st.pageclass i)
          = some (st2.page_class_num, pc) ∧
      st2 = prealloc_page sys st2.page_class_num
        ⟨st2.page_class_num,
          upd pc st2.page_class_num
            { pc st2.page_class_num with chunk_size := MM_MAX_SIZE, perpage := 1 },
          pool_ret, pool_ret,
          (1 * 1024 * 1024 * (if memlimit < 15 then 15 else memlimit)) % U64, 0, st.classid⟩ := by
  unfold pages_init at h
  simp only [] at h
  rw [if_neg (fun hh => hh.2 hfresh)] at h
  split at h
  · exact absurd h (by simp)
  · rename_i index pc hloop
    simp only [Option.some.injEq] at h
    have hidx : st2.page_class_num = index := by
      rw [← h]
      unfold prealloc_page
      exact (prealloc_loop_frame sys index POWER_LARGEST POWER_SMALLEST _).1
    rw [hidx]
    simp only [if_true, true_and] at hloop h
    exact ⟨pc, hloop, h.symm⟩

theorem some_getD_of_isSome {α : Type} (o : Option α) (d : α) (h : o.isSome = true) :
    o = some (o.getD d) := by
  cases o with
  | none => exact absurd h (by simp)
  | some a => rfl

/-- C8 (counterexample): after `pages_init(15, 1.2, true)` there are 58 classes,
and class 16 has no page: the 15 MB arena is used up by the pages of classes 1 to 15. -/
theorem default_pool_class_16_has_no_page :
    (pages_init 15 grow12 true 4096 sysOk (Pool.boot (fun _ => 0))).map
      (fun st => (st.page_class_num, (st.pageclass 16).page_total,
        (st.pageclass 16).end_page_ptr, (st.pageclass 15).page_total))
      = some (58, 0, 0, 1) := by
  decide!

/-- C8 (as amended): after a first `pages_init(memlimit, grow, true)` in which the
arena `malloc` and every page-list `realloc` succeed, and whose memory limit is
at least `page_class_num` megabytes, every class id in `[1, page_class_num]`
below index 200 owns exactly one page, which is its current page with
`end_page_free = perpage`. -/
theorem prealloc_gives_every_class_a_page (memlimit : Nat) (grow : Nat → Nat)
    (pool_ret : Nat) (sys : Nat → Sys) (st st2 : Pool)
    (hml : memlimit < U32) (hfresh : st.mem_pool = 0) (hpool : pool_ret ≠ 0)
    (hre : ∀ i, (sys i).realloc_ok = true)
    (h : pages_init memlimit grow true pool_ret sys st = some st2)
    (hroom : st2.page_class_num ≤ memlimit) :
    ∀ i, 1 ≤ i → i ≤ st2.page_class_num → i < POWER_LARGEST →
      (st2.pageclass i).page_total = 1 ∧ (st2.pageclass i).end_page_ptr ≠ 0 ∧
        (st2.pageclass i).end_page_free = (st2.pageclass i).perpage := by
  obtain ⟨pc, hloop, hst2⟩ := pages_init_prealloc_unfold memlimit grow pool_ret sys st st2 hfresh h
  obtain ⟨_, _, hc, hd⟩ := class_loop_spec grow _ _ _ _ _ _ hloop
  intro i i1 i2 i3
  generalize hS : (⟨st2.page_class_num,
          upd pc st2.page_class_num
            { pc st2.page_class_num with chunk_size := MM_MAX_SIZE, perpage := 1 },
          pool_ret, pool_ret,
          (1 * 1024 * 1024 * (if memlimit < 15 then 15 else memlimit)) % U64, 0,
          st.classid⟩ : Pool) = S at hst2
  have hmem : S.memalloc = 1048576 * (if memlimit < 15 then 15 else memlimit) := by
    rw [← hS]
    show (1 * 1024 * 1024 * (if memlimit < 15 then 15 else memlimit)) % U64 = _
    unfold U32 at hml; unfold U64
    split_ifs <;> omega
  have hpr : ∀ j, POWER_SMALLEST ≤ j → j ≤ st2.page_class_num → j < POWER_LARGEST →
      (S.pageclass j).page_total = 0 ∧ (S.pageclass j).page_size = 0 ∧
        page_bytes S j ≤ MM_MAX_SIZE := by
    intro j j1 j2 j3
    unfold page_bytes
    rw [← hS]
    simp only []
    by_cases hj : j = st2.page_class_num
    · rw [hj, upd_same]
      rw [hc _ (Or.inr (le_refl _)),
        if_pos (show st2.page_class_num < PAGE_MAX_CLASS_NUM by rw [← hj]; exact j3)]
      exact ⟨rfl, rfl, by decide⟩
    · rw [upd_other _ _ _ _ hj]
      obtain ⟨_, d2, d3, d4, d5⟩ := hd j j1 (by omega)
      rw [d5, if_pos (show j < PAGE_MAX_CLASS_NUM from j3)]
      refine ⟨rfl, rfl, ?_⟩
      simp only []
      rw [d4]
      exact le_trans (Nat.mod_le _ _) (Nat.mul_div_le _ _)
  have key := prealloc_loop_pages sys st2.page_class_num hre POWER_LARGEST POWER_SMALLEST S
    (by rw [← hS]; exact hpool)
    (by rw [← hS]; exact ⟨Nat.zero_le _, rfl⟩)
    (by rw [hmem]; unfold U32 at hml; split_ifs <;> omega)
    hpr
    (by
      rw [hmem]
      have : S.memuse = 0 := by rw [← hS]
      rw [this]
      unfold MM_MAX_SIZE POWER_SMALLEST
      split_ifs <;> omega)
    i i1 i2 i3 (by unfold POWER_SMALLEST POWER_LARGEST at *; omega)
  have hpp := ((prealloc_loop_frame sys st2.page_class_num POWER_LARGEST POWER_SMALLEST S).2.2.2
    i).2
  unfold prealloc_page at hst2
  rw [← hst2] at key hpp
  rw [hpp]
  exact key

/-- C8 (witness): `pages_init(100, 1.2, true)`, an arena of 100 MB for 58
classes; the last class, 58, has its page. -/
theorem prealloc_gives_every_class_a_page_witness :
    (((pages_init 100 grow12 true 4096 sysOk (Pool.boot (fun _ => 0))).getD
        (Pool.boot (fun _ => 0))).pageclass 58).page_total = 1 ∧
    (((pages_init 100 grow12 true 4096 sysOk (Pool.boot (fun _ => 0))).getD
        (Pool.boot (fun _ => 0))).pageclass 58).end_page_ptr ≠ 0 ∧
    (((pages_init 100 grow12 true 4096 sysOk (Pool.boot (fun _ => 0))).getD
        (Pool.boot (fun _ => 0))).pageclass 58).end_page_free
      = (((pages_init 100 grow12 true 4096 sysOk (Pool.boot (fun _ => 0))).getD
        (Pool.boot (fun _ => 0))).pageclass 58).perpage :=
  prealloc_gives_every_class_a_page 100 grow12 4096 sysOk (Pool.boot (fun _ => 0)) _
    (by decide) rfl (by decide) (fun _ => rfl)
    (some_getD_of_isSome _ _ (by decide!)) (by decide!) 58 (by decide) (by decide!) (by decide)

/-! ## Ownership of arena bytes -/
/-- A new heap keeps the invariant when each of its owners sits inside an owner
of the old heap, and two of its owners that sit inside the same old owner
share no address. -/
theorem HeapInv.transfer (h h2 : Heap) (φ : Owner → Owner) (hinv : HeapInv h)
    (hpool : h2.pool.mem_pool = h.pool.mem_pool)
    (hmem : h2.pool.memalloc = h.pool.memalloc)
    (harena : ArenaOk h2.pool)
    (htable : ∀ c, ValidClass h2.pool c →
      0 < (h2.pool.pageclass c).chunk_size ∧ 0 < (h2.pool.pageclass c).perpage ∧
        (h2.pool.pageclass c).chunk_size * (h2.pool.pageclass c).perpage ≤ MM_MAX_SIZE)
    (hcount : ∀ c, ValidClass h2.pool c →
      (h2.pool.pageclass c).free_curr < U32 ∧
        ((h2.pool.pageclass c).end_page_ptr ≠ 0 →
          0 < (h2.pool.pageclass c).end_page_free ∧ (h2.pool.pageclass c).end_page_free < U32))
    (hnodup : h2.live.Nodup)
    (hlive : ∀ p, p ∈ h2.live → ValidClass h2.pool (h2.pool.classid p))
    (T1 : ∀ k a, Covers h2 k a → Covers h (φ k) a)
    (T2 : ∀ k1 k2 a, Covers h2 k1 a → Covers h2 k2 a → φ k1 = φ k2 → k1 = k2) :
    HeapInv h2 where
  pool_ne := by rw [hpool]; exact hinv.pool_ne
  arena := harena
  bound := by rw [hmem]; exact hinv.bound
  table := htable
  counters := hcount
  nodup := hnodup
  live_class := hlive
  inside := by
    intro k a hc
    rw [hpool, hmem]
    exact hinv.inside _ a (T1 k a hc)
  owner := by
    intro k1 k2 a h1 h2c
    exact T2 k1 k2 a h1 h2c (hinv.owner _ _ a (T1 k1 a h1) (T1 k2 a h2c))

/-- The transfer with one owner renamed: the new owner `src` sits inside the
old owner `dst`, every other new owner is an old owner of the same name. -/
theorem HeapInv.redirect (h h2 : Heap) (src dst : Owner) (hinv : HeapInv h)
    (hpool : h2.pool.mem_pool = h.pool.mem_pool)
    (hmem : h2.pool.memalloc = h.pool.memalloc)
    (harena : ArenaOk h2.pool)
    (htable : ∀ c, ValidClass h2.pool c →
      0 < (h2.pool.pageclass c).chunk_size ∧ 0 < (h2.pool.pageclass c).perpage ∧
        (h2.pool.pageclass c).chunk_size * (h2.pool.pageclass c).perpage ≤ MM_MAX_SIZE)
    (hcount : ∀ c, ValidClass h2.pool c →
      (h2.pool.pageclass c).free_curr < U32 ∧
        ((h2.pool.pageclass c).end_page_ptr ≠ 0 →
          0 < (h2.pool.pageclass c).end_page_free ∧ (h2.pool.pageclass c).end_page_free < U32))
    (hnodup : h2.live.Nodup)
    (hlive : ∀ p, p ∈ h2.live → ValidClass h2.pool (h2.pool.classid p))
    (T1 : ∀ k a, Covers h2 k a → k ≠ src → Covers h k a)
    (T2 : ∀ a, Covers h2 src a → Covers h dst a)
    (T3 : ∀ a, Covers h2 src a → Covers h2 dst a → src = dst) :
    HeapInv h2 := by
  classical
  refine HeapInv.transfer h h2 (fun k => if k = src then dst else k) hinv hpool hmem harena
    htable hcount hnodup hlive ?_ ?_
  · intro k a hc
    by_cases hk : k = src
    · simp only [hk, if_true]; exact T2 a (hk ▸ hc)
    · simp only [hk, if_false]; exact T1 k a hc hk
  · intro k1 k2 a h1 h2c he
    by_cases hk1 : k1 = src
    · by_cases hk2 : k2 = src
      · rw [hk1, hk2]
      · simp only [hk1, hk2, if_true, if_false] at he
        rw [hk1, ← he]
        exact T3 a (hk1 ▸ h1) (he ▸ h2c)
    · by_cases hk2 : k2 = src
      · simp only [hk1, hk2, if_true, if_false] at he
        rw [hk2, he]
        exact (T3 a (hk2 ▸ h2c) (he ▸ h1)).symm
      · simp only [hk1, hk2, if_false] at he
        exact he

/-- A live chunk owns its first byte. -/
theorem HeapInv.live_self {h : Heap} (hinv : HeapInv h) (p : Nat) (hp : p ∈ h.live) :
    Covers h (Owner.live p) p := by
  have := (hinv.table _ (hinv.live_class p hp)).1
  exact ⟨hp, le_refl _, by unfold chunk_end; omega⟩

/-- A free-list entry owns its first byte. -/
theorem HeapInv.free_self {h : Heap} (hinv : HeapInv h) (c k : Nat)
    (hc : ValidClass h.pool c) (hk : k < (h.pool.pageclass c).free_curr) :
    Covers h (Owner.free c k) ((h.pool.pageclass c).freelist k) := by
  have := (hinv.table c hc).1
  exact ⟨hc, hk, le_refl _, by omega⟩

/-- The current page owns its first chunk. -/
theorem HeapInv.page_self {h : Heap} (hinv : HeapInv h) (c : Nat)
    (hc : ValidClass h.pool c) (hp : (h.pool.pageclass c).end_page_ptr ≠ 0) (a : Nat)
    (h1 : (h.pool.pageclass c).end_page_ptr ≤ a)
    (h2 : a < (h.pool.pageclass c).end_page_ptr + (h.pool.pageclass c).chunk_size) :
    Covers h (Owner.page c) a := by
  have := (hinv.counters c hc).2 hp
  refine ⟨hc, hp, h1, lt_of_lt_of_le h2 ?_⟩
  have : (h.pool.pageclass c).chunk_size
      ≤ (h.pool.pageclass c).end_page_free * (h.pool.pageclass c).chunk_size :=
    Nat.le_mul_of_pos_left _ this.1
  omega

/-- Dropping a chunk from the live list keeps the invariant. -/
theorem HeapInv.erase {h : Heap} (hinv : HeapInv h) (p : Nat) :
    HeapInv ⟨h.pool, h.live.erase p⟩ := by
  refine HeapInv.transfer h _ id hinv rfl rfl hinv.arena hinv.table hinv.counters
    (hinv.nodup.erase p) (fun q hq => hinv.live_class q (List.mem_of_mem_erase hq)) ?_ ?_
  · intro k a hc
    cases k with
    | live q => exact ⟨List.mem_of_mem_erase hc.1, hc.2⟩
    | free c k => exact hc
    | page c => exact hc
    | rest => exact hc
  · intro k1 k2 a _ _ he
    exact he

theorem ValidClass.mod (st : Pool) (c : Nat) (h : ValidClass st c) : c % 256 = c :=
  Nat.mod_eq_of_lt (by have := h.2.2; unfold POWER_LARGEST at this; omega)

/-- The state after popping the top of a class's free list keeps the invariant,
and the popped address was not live. -/
theorem HeapInv.pop_state {st : Pool} {live : List Nat} (hinv : HeapInv ⟨st, live⟩) (id : Nat)
    (hid : ValidClass st id) (hfc : (st.pageclass id).free_curr ≠ 0) :
    (st.pageclass id).freelist ((st.pageclass id).free_curr - 1) ≠ 0 ∧
    HeapInv ⟨⟨st.page_class_num,
        upd st.pageclass id
          { st.pageclass id with free_curr := (st.pageclass id).free_curr - 1 },
        st.mem_pool, st.mem_avaliable, st.memalloc, st.memuse,
        upd st.classid ((st.pageclass id).freelist ((st.pageclass id).free_curr - 1)) id⟩,
      (st.pageclass id).freelist ((st.pageclass id).free_curr - 1) :: live⟩ := by
  have hlt := (hinv.counters id hid).1
  have hself := hinv.free_self id ((st.pageclass id).free_curr - 1) hid
    (show (st.pageclass id).free_curr - 1 < (st.pageclass id).free_curr by omega)
  have hf0 : (st.pageclass id).freelist ((st.pageclass id).free_curr - 1) ≠ 0 := by
    have h1 := (hinv.inside _ _ hself).1
    have h2 := hinv.pool_ne
    simp only at h1 h2
    omega
  have hfresh : (st.pageclass id).freelist ((st.pageclass id).free_curr - 1) ∉ live := by
    intro hmem
    have := hinv.owner _ _ _ (hinv.live_self _ hmem) hself
    exact absurd this (by simp)
  refine ⟨hf0, ?_⟩
  generalize hf : (st.pageclass id).freelist ((st.pageclass id).free_curr - 1) = f at *
  have hpc : ∀ c, c ≠ id → upd st.pageclass id
      { st.pageclass id with free_curr := (st.pageclass id).free_curr - 1 } c
        = st.pageclass c := fun c hc => upd_other _ _ _ _ hc
  refine HeapInv.redirect ⟨st, live⟩ _ (Owner.live f)
    (Owner.free id ((st.pageclass id).free_curr - 1)) hinv rfl rfl hinv.arena ?_ ?_ ?_ ?_ ?_ ?_ ?_
  · intro c hc
    have := hinv.table c hc
    by_cases hcid : c = id
    · subst hcid; simp only [upd_same]; exact this
    · simp only [hpc c hcid]; exact this
  · intro c hc
    have := hinv.counters c hc
    by_cases hcid : c = id
    · subst hcid
      simp only [upd_same]
      exact ⟨by simp only at this; omega, this.2⟩
    · simp only [hpc c hcid]; exact this
  · exact List.nodup_cons.mpr ⟨hfresh, hinv.nodup⟩
  · intro q hq
    show ValidClass st (upd st.classid f id q)
    by_cases hqf : q = f
    · rw [hqf, upd_same]; exact hid
    · rw [upd_other _ _ _ _ hqf]
      rcases List.mem_cons.mp hq with h1 | h1
      · exact absurd h1 hqf
      · exact hinv.live_class q h1
  · intro k a hc hk
    cases k with
    | live q =>
      have hqf : q ≠ f := fun e => hk (by rw [e])
      obtain ⟨c1, c2, c3⟩ := hc
      rcases List.mem_cons.mp c1 with h1 | h1
      · exact absurd h1 hqf
      · refine ⟨h1, c2, ?_⟩
        unfold chunk_end at c3 ⊢
        simp only [upd_other _ _ _ _ hqf] at c3
        by_cases hcid : st.classid q = id
        · rw [hcid] at c3 ⊢; simp only [upd_same] at c3; exact c3
        · rw [hpc _ hcid] at c3; exact c3
    | free c k =>
      obtain ⟨c1, c2, c3, c4⟩ := hc
      by_cases hcid : c = id
      · subst hcid
        simp only [upd_same] at c2 c3 c4
        exact ⟨c1, by simp only; omega, c3, c4⟩
      · simp only [hpc c hcid] at c2 c3 c4
        exact ⟨c1, c2, c3, c4⟩
    | page c =>
      obtain ⟨c1, c2, c3, c4⟩ := hc
      by_cases hcid : c = id
      · subst hcid
        simp only [upd_same] at c2 c3 c4
        exact ⟨c1, c2, c3, c4⟩
      · simp only [hpc c hcid] at c2 c3 c4
        exact ⟨c1, c2, c3, c4⟩
    | rest => exact hc
  · intro a hc
    obtain ⟨_, c2, c3⟩ := hc
    unfold chunk_end at c3
    simp only [upd_same] at c3
    refine ⟨hid, by simp only; omega, ?_, ?_⟩
    · show (st.pageclass id).freelist ((st.pageclass id).free_curr - 1) ≤ a
      rw [hf]; exact c2
    · show a < (st.pageclass id).freelist ((st.pageclass id).free_curr - 1) + _
      rw [hf]; exact c3
  · intro a _ hc
    obtain ⟨_, c2, _⟩ := hc
    simp only [upd_same] at c2
    omega

/-- The state after carving the next chunk of a class's current page keeps the
invariant, and the carved address was not live. -/
theorem HeapInv.carve_state {st : Pool} {live : List Nat} (hinv : HeapInv ⟨st, live⟩) (id : Nat)
    (hid : ValidClass st id) (hep : (st.pageclass id).end_page_ptr ≠ 0) :
    HeapInv ⟨⟨st.page_class_num,
        upd st.pageclass id
          { st.pageclass id with
            end_page_free := (st.pageclass id).end_page_free - 1
            end_page_ptr := if (st.pageclass id).end_page_free - 1 = 0 then 0
              else (st.pageclass id).end_page_ptr + (st.pageclass id).chunk_size },
        st.mem_pool, st.mem_avaliable, st.memalloc, st.memuse,
        upd st.classid (st.pageclass id).end_page_ptr id⟩,
      (st.pageclass id).end_page_ptr :: live⟩ := by
  obtain ⟨hfcl, hcnt⟩ := hinv.counters id hid
  obtain ⟨hf1, hf2⟩ := hcnt hep
  obtain ⟨hcs, _, _⟩ := hinv.table id hid
  simp only at hfcl hf1 hf2 hcs
  have hfresh : (st.pageclass id).end_page_ptr ∉ live := by
    intro hmem
    have := hinv.owner _ _ _ (hinv.live_self _ hmem)
      (hinv.page_self id hid hep _ (le_refl _) (by simp only; omega))
    exact absurd this (by simp)
  obtain ⟨E, hE⟩ : ∃ E, (st.pageclass id).end_page_free = E + 1 := ⟨_, (Nat.succ_pred_eq_of_pos hf1).symm⟩
  have hmul : (st.pageclass id).end_page_free * (st.pageclass id).chunk_size
      = E * (st.pageclass id).chunk_size + (st.pageclass id).chunk_size := by
    rw [hE, Nat.succ_mul]
  have hE1 : (st.pageclass id).end_page_free - 1 = E := by omega
  rw [hE1]
  generalize hp : (st.pageclass id).end_page_ptr = p at *
  have hpc : ∀ c, c ≠ id → upd st.pageclass id
      { st.pageclass id with
        end_page_free := E
        end_page_ptr := if E = 0 then 0 else p + (st.pageclass id).chunk_size } c
        = st.pageclass c := fun c hc => upd_other _ _ _ _ hc
  refine HeapInv.redirect ⟨st, live⟩ _ (Owner.live p) (Owner.page id) hinv rfl rfl hinv.arena
    ?_ ?_ ?_ ?_ ?_ ?_ ?_
  · intro c hc
    have := hinv.table c hc
    by_cases hcid : c = id
    · subst hcid; simp only [upd_same]; exact this
    · simp only [hpc c hcid]; exact this
  · intro c hc
    have := hinv.counters c hc
    by_cases hcid : c = id
    · subst hcid
      simp only [upd_same]
      refine ⟨hfcl, fun hne => ?_⟩
      by_cases hE0 : E = 0
      · rw [if_pos hE0] at hne; exact absurd rfl hne
      · exact ⟨by omega, by omega⟩
    · simp only [hpc c hcid]; exact this
  · exact List.nodup_cons.mpr ⟨hfresh, hinv.nodup⟩
  · intro q hq
    show ValidClass st (upd st.classid p id q)
    by_cases hqf : q = p
    · rw [hqf, upd_same]; exact hid
    · rw [upd_other _ _ _ _ hqf]
      rcases List.mem_cons.mp hq with h1 | h1
      · exact absurd h1 hqf
      · exact hinv.live_class q h1
  · intro k a hc hk
    cases k with
    | live q =>
      have hqf : q ≠ p := fun e => hk (by rw [e])
      obtain ⟨c1, c2, c3⟩ := hc
      rcases List.mem_cons.mp c1 with h1 | h1
      · exact absurd h1 hqf
      · refine ⟨h1, c2, ?_⟩
        unfold chunk_end at c3 ⊢
        simp only [upd_other _ _ _ _ hqf] at c3
        by_cases hcid : st.classid q = id
        · rw [hcid] at c3 ⊢; simp only [upd_same] at c3; exact c3
        · rw [hpc _ hcid] at c3; exact c3
    | free c k =>
      obtain ⟨c1, c2, c3, c4⟩ := hc
      by_cases hcid : c = id
      · subst hcid
        simp only [upd_same] at c2 c3 c4
        exact ⟨c1, c2, c3, c4⟩
      · simp only [hpc c hcid] at c2 c3 c4
        exact ⟨c1, c2, c3, c4⟩
    | page c =>
      obtain ⟨c1, c2, c3, c4⟩ := hc
      by_cases hcid : c = id
      · subst hcid
        simp only [upd_same] at c2 c3 c4
        by_cases hE0 : E = 0
        · rw [if_pos hE0] at c2; exact absurd rfl c2
        · rw [if_neg hE0] at c3 c4
          refine ⟨c1, by simp only; rw [hp]; exact hep, ?_, ?_⟩
          · show (st.pageclass c).end_page_ptr ≤ a
            rw [hp]; omega
          · show a < (st.pageclass c).end_page_ptr + _ * _
            rw [hp, hmul]; omega
      · simp only [hpc c hcid] at c2 c3 c4
        exact ⟨c1, c2, c3, c4⟩
    | rest => exact hc
  · intro a hc
    obtain ⟨_, c2, c3⟩ := hc
    unfold chunk_end at c3
    simp only [upd_same] at c3
    refine hinv.page_self id hid (by simp only; rw [hp]; exact hep) a ?_ ?_
    · show (st.pageclass id).end_page_ptr ≤ a
      rw [hp]; exact c2
    · show a < (st.pageclass id).end_page_ptr + _
      rw [hp]; exact c3
  · intro a h1 h2
    obtain ⟨_, _, c3⟩ := h1
    obtain ⟨_, d2, d3, _⟩ := h2
    unfold chunk_end at c3
    simp only [upd_same] at c3 d2 d3
    by_cases hE0 : E = 0
    · rw [if_pos hE0] at d2; exact absurd rfl d2
    · rw [if_neg hE0] at d3; omega

/-- The state after pushing a live chunk on the free list of its class keeps
the invariant; the chunk is no longer live. -/
theorem HeapInv.push_state {st : Pool} {live : List Nat} (hinv : HeapInv ⟨st, live⟩) (p : Nat)
    (hp : p ∈ live) (ft : Nat) :
    HeapInv ⟨⟨st.page_class_num,
        upd st.pageclass (st.classid p)
          { st.pageclass (st.classid p) with
            free_total := ft
            freelist := upd (st.pageclass (st.classid p)).freelist
              (st.pageclass (st.classid p)).free_curr p
            free_curr := ((st.pageclass (st.classid p)).free_curr + 1) % U32 },
        st.mem_pool, st.mem_avaliable, st.memalloc, st.memuse, st.classid⟩,
      live.erase p⟩ := by
  have hid := hinv.live_class p hp
  simp only at hid
  generalize hc : st.classid p = id at *
  have hpc : ∀ c, c ≠ id → upd st.pageclass id
      { st.pageclass id with
        free_total := ft
        freelist := upd (st.pageclass id).freelist (st.pageclass id).free_curr p
        free_curr := ((st.pageclass id).free_curr + 1) % U32 } c
        = st.pageclass c := fun c hc => upd_other _ _ _ _ hc
  have hle : ((st.pageclass id).free_curr + 1) % U32 ≤ (st.pageclass id).free_curr + 1 :=
    Nat.mod_le _ _
  refine HeapInv.redirect ⟨st, live⟩ _ (Owner.free id (st.pageclass id).free_curr)
    (Owner.live p) hinv rfl rfl hinv.arena ?_ ?_ ?_ ?_ ?_ ?_ ?_
  · intro c hcv
    have := hinv.table c hcv
    by_cases hcid : c = id
    · subst hcid; simp only [upd_same]; exact this
    · simp only [hpc c hcid]; exact this
  · intro c hcv
    have := hinv.counters c hcv
    by_cases hcid : c = id
    · subst hcid
      simp only [upd_same]
      exact ⟨Nat.mod_lt _ (by decide), this.2⟩
    · simp only [hpc c hcid]; exact this
  · exact hinv.nodup.erase p
  · intro q hq
    exact hinv.live_class q (List.mem_of_mem_erase hq)
  · intro k a hcov hk
    cases k with
    | live q =>
      obtain ⟨c1, c2, c3⟩ := hcov
      refine ⟨List.mem_of_mem_erase c1, c2, ?_⟩
      unfold chunk_end at c3 ⊢
      by_cases hcid : st.classid q = id
      · simp only [hcid, upd_same] at c3 ⊢; exact c3
      · simp only [hpc _ hcid] at c3; exact c3
    | free c k =>
      obtain ⟨c1, c2, c3, c4⟩ := hcov
      by_cases hcid : c = id
      · subst hcid
        simp only [upd_same] at c2 c3 c4
        have hkf : k ≠ (st.pageclass c).free_curr := fun e => hk (by rw [e])
        rw [upd_other _ _ _ _ hkf] at c3 c4
        exact ⟨c1, by simp only; omega, c3, c4⟩
      · simp only [hpc c hcid] at c2 c3 c4
        exact ⟨c1, c2, c3, c4⟩
    | page c =>
      obtain ⟨c1, c2, c3, c4⟩ := hcov
      by_cases hcid : c = id
      · subst hcid
        simp only [upd_same] at c2 c3 c4
        exact ⟨c1, c2, c3, c4⟩
      · simp only [hpc c hcid] at c2 c3 c4
        exact ⟨c1, c2, c3, c4⟩
    | rest => exact hcov
  · intro a hcov
    obtain ⟨_, _, c3, c4⟩ := hcov
    simp only [upd_same] at c3 c4
    refine ⟨hp, c3, ?_⟩
    unfold chunk_end
    simp only [hc]
    exact c4
  · intro a _ hcov
    exact absurd hcov.1 (List.Nodup.not_mem_erase hinv.nodup)

/-- A change of `page_size` alone does not touch the invariant. -/
theorem HeapInv.page_size_state {st : Pool} {live : List Nat} (hinv : HeapInv ⟨st, live⟩)
    (id ps : Nat) :
    HeapInv ⟨st.setClass id { st.pageclass id with page_size := ps }, live⟩ := by
  have hpc : ∀ c, c ≠ id → upd st.pageclass id { st.pageclass id with page_size := ps } c
        = st.pageclass c := fun c hc => upd_other _ _ _ _ hc
  refine HeapInv.redirect ⟨st, live⟩ _ Owner.rest Owner.rest hinv rfl rfl hinv.arena
    ?_ ?_ hinv.nodup hinv.live_class ?_ ?_ ?_
  · intro c hcv
    have := hinv.table c hcv
    by_cases hcid : c = id
    · subst hcid; simp only [Pool.setClass, upd_same]; exact this
    · simp only [Pool.setClass, hpc c hcid]; exact this
  · intro c hcv
    have := hinv.counters c hcv
    by_cases hcid : c = id
    · subst hcid; simp only [Pool.setClass, upd_same]; exact this
    · simp only [Pool.setClass, hpc c hcid]; exact this
  · intro k a hcov hk
    cases k with
    | live q =>
      obtain ⟨c1, c2, c3⟩ := hcov
      refine ⟨c1, c2, ?_⟩
      unfold chunk_end at c3 ⊢
      simp only [Pool.setClass] at c3
      by_cases hcid : st.classid q = id
      · simp only [hcid, upd_same] at c3 ⊢; exact c3
      · simp only [hpc _ hcid] at c3; exact c3
    | free c k =>
      obtain ⟨c1, c2, c3, c4⟩ := hcov
      simp only [Pool.setClass] at c2 c3 c4
      by_cases hcid : c = id
      · subst hcid
        simp only [upd_same] at c2 c3 c4
        exact ⟨c1, c2, c3, c4⟩
      · simp only [hpc c hcid] at c2 c3 c4
        exact ⟨c1, c2, c3, c4⟩
    | page c =>
      obtain ⟨c1, c2, c3, c4⟩ := hcov
      simp only [Pool.setClass] at c2 c3 c4
      by_cases hcid : c = id
      · subst hcid
        simp only [upd_same] at c2 c3 c4
        exact ⟨c1, c2, c3, c4⟩
      · simp only [hpc c hcid] at c2 c3 c4
        exact ⟨c1, c2, c3, c4⟩
    | rest => exact absurd rfl hk
  · intro a hcov; exact hcov
  · intro a _ _; rfl

/-- The state after carving a new page at the cursor keeps the invariant. -/
theorem HeapInv.newpage_state {st : Pool} {live : List Nat} (hinv : HeapInv ⟨st, live⟩)
    (id : Nat) (hid : ValidClass st id) (adv ps pt : Nat) (pl : Nat → Nat)
    (hadv : page_bytes st id ≤ adv) (hroom : st.memuse + adv ≤ st.memalloc) :
    HeapInv ⟨⟨st.page_class_num,
        upd st.pageclass id
          { st.pageclass id with
            page_size := ps
            end_page_ptr := st.mem_avaliable
            end_page_free := (st.pageclass id).perpage
            page_list := pl
            page_total := pt },
        st.mem_pool, st.mem_avaliable + adv, st.memalloc, st.memuse + adv,
        fun a =>
          if st.mem_avaliable ≤ a ∧ a < st.mem_avaliable + page_bytes st id then 0
          else st.classid a⟩,
      live⟩ := by
  obtain ⟨hcs, hpp, hsz⟩ := hinv.table id hid
  obtain ⟨hu, hav⟩ := hinv.arena
  have hne := hinv.pool_ne
  simp only at hcs hpp hsz hu hav hne
  have hbytes : page_bytes st id = (st.pageclass id).perpage * (st.pageclass id).chunk_size := by
    unfold page_bytes
    rw [Nat.mul_comm]
    apply Nat.mod_eq_of_lt
    rw [Nat.mul_comm]
    unfold MM_MAX_SIZE at hsz; unfold U32; omega
  have hpc : ∀ c, c ≠ id → upd st.pageclass id
      { st.pageclass id with
        page_size := ps
        end_page_ptr := st.mem_avaliable
        end_page_free := (st.pageclass id).perpage
        page_list := pl
        page_total := pt } c
        = st.pageclass c := fun c hc => upd_other _ _ _ _ hc
  have hhdr : ∀ q, q ∈ live →
      (if st.mem_avaliable ≤ q ∧ q < st.mem_avaliable + page_bytes st id then 0
        else st.classid q) = st.classid q := by
    intro q hq
    by_cases hin : st.mem_avaliable ≤ q ∧ q < st.mem_avaliable + page_bytes st id
    · have h1 : Covers ⟨st, live⟩ Owner.rest q := by
        refine ⟨?_, ?_⟩ <;> simp only <;> omega
      exact absurd (hinv.owner _ _ _ (hinv.live_self q hq) h1) (by simp)
    · rw [if_neg hin]
  refine HeapInv.redirect ⟨st, live⟩ _ (Owner.page id) Owner.rest hinv rfl rfl ?_
    ?_ ?_ hinv.nodup ?_ ?_ ?_ ?_
  · refine ⟨?_, ?_⟩ <;> simp only <;> omega
  · intro c hcv
    have := hinv.table c hcv
    by_cases hcid : c = id
    · subst hcid; simp only [upd_same]; exact this
    · simp only [hpc c hcid]; exact this
  · intro c hcv
    have := hinv.counters c hcv
    by_cases hcid : c = id
    · subst hcid
      simp only [upd_same]
      refine ⟨this.1, fun _ => ⟨hpp, ?_⟩⟩
      have : (st.pageclass c).perpage ≤ (st.pageclass c).chunk_size * (st.pageclass c).perpage :=
        Nat.le_mul_of_pos_left _ hcs
      unfold MM_MAX_SIZE at hsz; unfold U32; omega
    · simp only [hpc c hcid]; exact this
  · intro q hq
    show ValidClass st _
    simp only
    rw [hhdr q hq]
    exact hinv.live_class q hq
  · intro k a hcov hk
    cases k with
    | live q =>
      obtain ⟨c1, c2, c3⟩ := hcov
      refine ⟨c1, c2, ?_⟩
      unfold chunk_end at c3 ⊢
      simp only at c3
      rw [hhdr q c1] at c3
      by_cases hcid : st.classid q = id
      · simp only [hcid, upd_same] at c3 ⊢; exact c3
      · simp only [hpc _ hcid] at c3; exact c3
    | free c k =>
      obtain ⟨c1, c2, c3, c4⟩ := hcov
      by_cases hcid : c = id
      · subst hcid
        simp only [upd_same] at c2 c3 c4
        exact ⟨c1, c2, c3, c4⟩
      · simp only [hpc c hcid] at c2 c3 c4
        exact ⟨c1, c2, c3, c4⟩
    | page c =>
      obtain ⟨c1, c2, c3, c4⟩ := hcov
      have hcid : c ≠ id := fun e => hk (by rw [e])
      simp only [hpc c hcid] at c2 c3 c4
      exact ⟨c1, c2, c3, c4⟩
    | rest =>
      obtain ⟨c1, c2⟩ := hcov
      simp only at c1 c2
      refine ⟨?_, ?_⟩ <;> simp only <;> omega
  · intro a hcov
    obtain ⟨_, _, c3, c4⟩ := hcov
    simp only [upd_same] at c3 c4
    rw [← hbytes] at c4
    refine ⟨?_, ?_⟩ <;> simp only <;> omega
  · intro a h1 h2
    obtain ⟨_, _, c3, c4⟩ := h1
    obtain ⟨d1, _⟩ := h2
    simp only [upd_same] at c3 c4 d1
    rw [← hbytes] at c4
    omega

/-- `alloc_newpage` on a valid class keeps the invariant. -/
theorem HeapInv.alloc_newpage {st : Pool} {live : List Nat} (hinv : HeapInv ⟨st, live⟩)
    (sys : Sys) (id : Nat) (hid : ValidClass st id) :
    HeapInv ⟨(alloc_newpage sys id st).2, live⟩ := by
  obtain ⟨hu, hav⟩ := hinv.arena
  have hne := hinv.pool_ne
  have hb := hinv.bound
  simp only at hu hav hne hb
  have hpb := page_bytes_lt st id
  obtain ⟨m1, m2, m3⟩ := memory_alloc_cases sys.malloc_ret (page_bytes st id) st hne hu hav
    (by unfold U32 at hpb; unfold U64; omega)
  rw [alloc_newpage_unfold]
  split_ifs with h1 h2 h3
  · exact hinv
  · exact hinv
  · rw [m2 (m1.mp h3)]
    exact hinv.page_size_state id _
  · have hfit : st.memuse + page_bytes st id ≤ st.memalloc := by
      by_contra hgt
      exact h3 (m1.mpr (by omega))
    have e := m3 hfit
    obtain ⟨r1, _, _⟩ := ROUND_UP_ge (page_bytes st id) (by unfold U32 at hpb; unfold U64; omega)
    have := hinv.newpage_state id hid
      (min (ROUND_UP (page_bytes st id)) (st.memalloc - st.memuse))
      ((grow_page_list sys.realloc_ok id st).2.pageclass id).page_size
      (((st.pageclass id).page_total + 1) % U32)
      (upd (st.pageclass id).page_list (st.pageclass id).page_total st.mem_avaliable)
      (Nat.le_min.mpr ⟨r1, by omega⟩)
      (by have := Nat.min_le_right (ROUND_UP (page_bytes st id)) (st.memalloc - st.memuse); omega)
    rw [e]
    exact this

/-- `take_chunk` on a valid class keeps the invariant, a non-null result
becoming live. -/
theorem HeapInv.take_chunk {st : Pool} {live : List Nat} (hinv : HeapInv ⟨st, live⟩)
    (id : Nat) (hid : ValidClass st id) :
    HeapInv ⟨(take_chunk id st).2,
      if (take_chunk id st).1 = 0 then live else (take_chunk id st).1 :: live⟩ := by
  obtain ⟨hlt, hcnt⟩ := hinv.counters id hid
  simp only at hlt hcnt
  by_cases hfc : (st.pageclass id).free_curr ≠ 0
  · obtain ⟨hf0, hst⟩ := hinv.pop_state id hid hfc
    have hfc2 : ((st.pageclass id).free_curr + U32 - 1) % U32 = (st.pageclass id).free_curr - 1 := by
      unfold U32 at *; omega
    have heq : MemManager.take_chunk id st =
        ((st.pageclass id).freelist ((st.pageclass id).free_curr - 1),
          ⟨st.page_class_num,
            upd st.pageclass id
              { st.pageclass id with free_curr := (st.pageclass id).free_curr - 1 },
            st.mem_pool, st.mem_avaliable, st.memalloc, st.memuse,
            upd st.classid ((st.pageclass id).freelist ((st.pageclass id).free_curr - 1)) id⟩) := by
      unfold MemManager.take_chunk
      simp only []
      rw [if_pos hfc, hfc2, if_pos hf0, hid.mod]
      rfl
    rw [heq]
    simp only [if_neg hf0]
    exact hst
  · by_cases hep : (st.pageclass id).end_page_ptr ≠ 0
    · obtain ⟨e1, e2⟩ := hcnt hep
      have hst := hinv.carve_state id hid hep
      have hepf : ((st.pageclass id).end_page_free + U32 - 1) % U32
          = (st.pageclass id).end_page_free - 1 := by
        unfold U32 at *; omega
      have heq : MemManager.take_chunk id st =
          ((st.pageclass id).end_page_ptr,
            ⟨st.page_class_num,
              upd st.pageclass id
                { st.pageclass id with
                  end_page_free := (st.pageclass id).end_page_free - 1
                  end_page_ptr := if (st.pageclass id).end_page_free - 1 = 0 then 0
                    else (st.pageclass id).end_page_ptr + (st.pageclass id).chunk_size },
              st.mem_pool, st.mem_avaliable, st.memalloc, st.memuse,
              upd st.classid (st.pageclass id).end_page_ptr id⟩) := by
        unfold MemManager.take_chunk
        simp only []
        rw [if_neg hfc, if_pos hep, hepf, hid.mod]
        rfl
      rw [heq]
      simp only [if_neg hep]
      exact hst
    · have heq : MemManager.take_chunk id st = (0, st) := by
        unfold MemManager.take_chunk
        simp only []
        rw [if_neg hfc, if_neg hep]
      rw [heq]
      exact hinv

/-- `do_mem_alloc` keeps the invariant, a non-null result becoming live. -/
theorem HeapInv.do_mem_alloc {st : Pool} {live : List Nat} (hinv : HeapInv ⟨st, live⟩)
    (sys : Sys) (size : Nat) :
    HeapInv ⟨(do_mem_alloc sys size st).2,
      if (do_mem_alloc sys size st).1 = 0 then live else (do_mem_alloc sys size st).1 :: live⟩ := by
  unfold MemManager.do_mem_alloc
  simp only []
  by_cases hv : get_page_id st size < POWER_SMALLEST ∨ get_page_id st size > st.page_class_num
  · rw [if_pos hv]; exact hinv
  · rw [if_neg hv]
    have hne : get_page_id st size ≠ 0 := by unfold POWER_SMALLEST at hv; omega
    obtain ⟨_, a, b, c, _⟩ := get_page_id_pos st size hne
    have hid : ValidClass st (get_page_id st size) := ⟨a, b, c⟩
    have he : HeapInv ⟨(ensure_page sys (get_page_id st size) st).2, live⟩ := by
      unfold ensure_page
      simp only []
      split_ifs
      · exact hinv.alloc_newpage sys _ hid
      · exact hinv
    by_cases hz : (ensure_page sys (get_page_id st size) st).1 = 0
    · rw [if_pos hz]; exact he
    · rw [if_neg hz]
      refine he.take_chunk _ ?_
      obtain ⟨g1, _⟩ := ensure_page_frame sys (get_page_id st size) st
      exact ⟨a, by rw [g1]; exact b, c⟩

/-- `do_mem_free` on a live chunk keeps the invariant; the chunk stops being live. -/
theorem HeapInv.do_mem_free {st : Pool} {live : List Nat} (hinv : HeapInv ⟨st, live⟩)
    (ok : Bool) (p size : Nat) (hp : p ∈ live) :
    HeapInv ⟨do_mem_free ok p size st, live.erase p⟩ := by
  have hid := hinv.live_class p hp
  simp only at hid
  unfold MemManager.do_mem_free
  simp only []
  rw [if_neg (by have := hid.1; have := hid.2.1; unfold POWER_SMALLEST; omega)]
  split_ifs
  all_goals first | exact hinv.erase p | exact hinv.push_state p hp _

/-- Every operation of a trace keeps the invariant. -/
theorem HeapInv.step {h h2 : Heap} (hinv : HeapInv h) (op : Op) (hs : h.step op = some h2) :
    HeapInv h2 := by
  obtain ⟨st, live⟩ := h
  cases op with
  | alloc sys size =>
    simp only [Heap.step, Option.some.injEq] at hs
    subst hs
    exact hinv.do_mem_alloc sys size
  | free ok p size =>
    simp only [Heap.step] at hs
    split_ifs at hs with hp
    simp only [Option.some.injEq] at hs
    subst hs
    exact hinv.do_mem_free ok p size hp

/-- Every trace keeps the invariant. -/
theorem HeapInv.run (ops : List Op) : ∀ {h h2 : Heap}, HeapInv h → h.run ops = some h2 →
    HeapInv h2 := by
  induction ops with
  | nil =>
    intro h h2 hinv hr
    simp only [Heap.run, Option.some.injEq] at hr
    subst hr; exact hinv
  | cons op ops ih =>
    intro h h2 hinv hr
    simp only [Heap.run] at hr
    cases hs : h.step op with
    | none => rw [hs] at hr; exact absurd hr (by simp)
    | some h1 =>
      rw [hs] at hr
      exact ih (hinv.step op hs) hr

/-- The loop of `prealloc_page` keeps the invariant. -/
theorem HeapInv.prealloc_loop (sys : Nat → Sys) (num : Nat) :
    ∀ fuel i st, HeapInv ⟨st, []⟩ → 1 ≤ i → num ≤ st.page_class_num →
      HeapInv ⟨prealloc_loop sys num fuel i st, []⟩ := by
  intro fuel
  induction fuel with
  | zero => intro i st hinv _ _; exact hinv
  | succ n ih =>
    intro i st hinv h1 h2
    unfold MemManager.prealloc_loop
    split_ifs with hc
    · refine ih (i + 1) _ (hinv.alloc_newpage (sys i) i ⟨h1, by omega, hc.2⟩) (by omega) ?_
      rw [(alloc_newpage_frame (sys i) i st).1]; exact h2
    · exact hinv

/-- After a first `pages_init` with `prealloc = true` whose arena `malloc`
succeeds, the pool satisfies the invariant with no chunk on loan. -/
theorem HeapInv.pages_init (memlimit : Nat) (grow : Nat → Nat)
    (pool_ret : Nat) (sys : Nat → Sys) (st st2 : Pool)
    (hml : memlimit < U32) (hfresh : st.mem_pool = 0) (hpool : pool_ret ≠ 0)
    (h : pages_init memlimit grow true pool_ret sys st = some st2) :
    HeapInv ⟨st2, []⟩ := by
  obtain ⟨pc, hloop, hst2⟩ := pages_init_prealloc_unfold memlimit grow pool_ret sys st st2 hfresh h
  obtain ⟨hge, _, hc, hd⟩ := class_loop_spec grow _ _ _ _ _ _ hloop
  have hrec : ∀ c, 1 ≤ c → c ≤ st2.page_class_num → c < POWER_LARGEST →
      (upd pc st2.page_class_num
        { pc st2.page_class_num with chunk_size := MM_MAX_SIZE, perpage := 1 } c).free_curr = 0 ∧
      (upd pc st2.page_class_num
        { pc st2.page_class_num with chunk_size := MM_MAX_SIZE, perpage := 1 } c).end_page_ptr = 0 ∧
      0 < (upd pc st2.page_class_num
        { pc st2.page_class_num with chunk_size := MM_MAX_SIZE, perpage := 1 } c).chunk_size ∧
      0 < (upd pc st2.page_class_num
        { pc st2.page_class_num with chunk_size := MM_MAX_SIZE, perpage := 1 } c).perpage ∧
      (upd pc st2.page_class_num
        { pc st2.page_class_num with chunk_size := MM_MAX_SIZE, perpage := 1 } c).chunk_size *
        (upd pc st2.page_class_num
          { pc st2.page_class_num with chunk_size := MM_MAX_SIZE, perpage := 1 } c).perpage
          ≤ MM_MAX_SIZE := by
    intro c c1 c2 c3
    by_cases hcn : c = st2.page_class_num
    · rw [hcn, upd_same, hc _ (Or.inr (le_refl _)),
        if_pos (show st2.page_class_num < PAGE_MAX_CLASS_NUM by rw [← hcn]; exact c3)]
      exact ⟨rfl, rfl, by decide, by decide, by decide⟩
    · rw [upd_other _ _ _ _ hcn]
      obtain ⟨_, d2, d3, d4, d5⟩ := hd c c1 (by omega)
      have hfc : (pc c).free_curr = 0 := by
        rw [d5, if_pos (show c < PAGE_MAX_CLASS_NUM from c3)]; rfl
      have hep : (pc c).end_page_ptr = 0 := by
        rw [d5, if_pos (show c < PAGE_MAX_CLASS_NUM from c3)]; rfl
      refine ⟨hfc, hep, d2, ?_, ?_⟩
      · rw [d4]
        exact Nat.div_pos (le_of_lt d3) d2
      · rw [d4]
        exact Nat.mul_div_le _ _
  have hS : HeapInv ⟨⟨st2.page_class_num,
      upd pc st2.page_class_num
        { pc st2.page_class_num with chunk_size := MM_MAX_SIZE, perpage := 1 },
      pool_ret, pool_ret,
      (1 * 1024 * 1024 * (if memlimit < 15 then 15 else memlimit)) % U64, 0, st.classid⟩, []⟩ := by
    refine ⟨hpool, ⟨Nat.zero_le _, rfl⟩, ?_, ?_, ?_, List.nodup_nil, ?_, ?_, ?_⟩
    · show (1 * 1024 * 1024 * (if memlimit < 15 then 15 else memlimit)) % U64 < _
      unfold U32 at hml; unfold U64
      split_ifs <;> omega
    · intro c hcv
      obtain ⟨_, _, r3, r4, r5⟩ := hrec c hcv.1 hcv.2.1 hcv.2.2
      exact ⟨r3, r4, r5⟩
    · intro c hcv
      obtain ⟨r1, r2, _⟩ := hrec c hcv.1 hcv.2.1 hcv.2.2
      refine ⟨?_, fun hne => absurd r2 hne⟩
      show (upd pc st2.page_class_num _ c).free_curr < U32
      rw [r1]; decide
    · intro p hp; exact absurd hp (List.not_mem_nil p)
    · intro k a hcov
      cases k with
      | live q => exact absurd hcov.1 (List.not_mem_nil q)
      | free c k =>
        obtain ⟨c1, c2, _⟩ := hcov
        obtain ⟨r1, _⟩ := hrec c c1.1 c1.2.1 c1.2.2
        have c3 : k < (upd pc st2.page_class_num _ c).free_curr := c2
        rw [r1] at c3
        exact absurd c3 (Nat.not_lt_zero _)
      | page c =>
        obtain ⟨c1, c2, _⟩ := hcov
        obtain ⟨_, r2, _⟩ := hrec c c1.1 c1.2.1 c1.2.2
        exact absurd r2 c2
      | rest =>
        obtain ⟨c1, c2⟩ := hcov
        simp only at c1 c2
        exact ⟨by simp only; omega, c2⟩
    · intro k1 k2 a h1 h2
      cases k1 with
      | live q => exact absurd h1.1 (List.not_mem_nil q)
      | free c k =>
        obtain ⟨c1, c2, _⟩ := h1
        obtain ⟨r1, _⟩ := hrec c c1.1 c1.2.1 c1.2.2
        have c3 : k < (upd pc st2.page_class_num _ c).free_curr := c2
        rw [r1] at c3
        exact absurd c3 (Nat.not_lt_zero _)
      | page c =>
        obtain ⟨c1, c2, _⟩ := h1
        obtain ⟨_, r2, _⟩ := hrec c c1.1 c1.2.1 c1.2.2
        exact absurd r2 c2
      | rest =>
        cases k2 with
        | live q => exact absurd h2.1 (List.not_mem_nil q)
        | free c k =>
          obtain ⟨c1, c2, _⟩ := h2
          obtain ⟨r1, _⟩ := hrec c c1.1 c1.2.1 c1.2.2
          have c3 : k < (upd pc st2.page_class_num _ c).free_curr := c2
          rw [r1] at c3
          exact absurd c3 (Nat.not_lt_zero _)
        | page c =>
          obtain ⟨c1, c2, _⟩ := h2
          obtain ⟨_, r2, _⟩ := hrec c c1.1 c1.2.1 c1.2.2
          exact absurd r2 c2
        | rest => rfl
  rw [hst2]
  unfold prealloc_page
  exact HeapInv.prealloc_loop sys _ _ _ _ hS (le_refl _) (le_refl _)

/-- C1: in any trace of `do_mem_alloc` / `do_mem_free` calls on a pool
initialised by `pages_init` with an arena, where `do_mem_free` is called only
on live chunks, no address is live twice, every live chunk `p` (of the class
named by its header) has its range `[p, chunk_end p)` inside the arena
`[mem_pool, mem_pool + memalloc)`, and the ranges of two distinct live chunks
are disjoint. -/
theorem live_chunks_disjoint (memlimit : Nat) (grow : Nat → Nat) (pool_ret : Nat)
    (sys : Nat → Sys) (hdr : Nat → Nat) (st0 : Pool) (ops : List Op) (h : Heap)
    (hml : memlimit < U32) (hpool : pool_ret ≠ 0)
    (hinit : pages_init memlimit grow true pool_ret sys (Pool.boot hdr) = some st0)
    (hrun : Heap.run ⟨st0, []⟩ ops = some h) :
    h.live.Nodup ∧
    (∀ p, p ∈ h.live →
      h.pool.mem_pool ≤ p ∧ chunk_end h.pool p ≤ h.pool.mem_pool + h.pool.memalloc) ∧
    (∀ p q, p ∈ h.live → q ∈ h.live → p ≠ q →
      chunk_end h.pool p ≤ q ∨ chunk_end h.pool q ≤ p) := by
  have hinv : HeapInv h :=
    HeapInv.run ops
      (HeapInv.pages_init memlimit grow pool_ret sys _ st0 hml rfl hpool hinit) hrun
  have hpos : ∀ p, p ∈ h.live → 0 < (h.pool.pageclass (h.pool.classid p)).chunk_size :=
    fun p hp => (hinv.table _ (hinv.live_class p hp)).1
  refine ⟨hinv.nodup, ?_, ?_⟩
  · intro p hp
    have h0 := hpos p hp
    have h1 := hinv.inside _ _ (hinv.live_self p hp)
    have h2 := hinv.inside (Owner.live p) (chunk_end h.pool p - 1)
      ⟨hp, by unfold chunk_end; omega, by unfold chunk_end; omega⟩
    unfold chunk_end at h2 ⊢
    omega
  · intro p q hp hq hne
    have h0 := hpos p hp
    have h1 := hpos q hq
    by_contra hov
    rcases Nat.lt_or_ge p q with hlt | hge
    · have := hinv.owner (Owner.live p) (Owner.live q) q
        ⟨hp, by omega, by unfold chunk_end at hov ⊢; omega⟩ (hinv.live_self q hq)
      simp only [Owner.live.injEq] at this
      exact hne this
    · have := hinv.owner (Owner.live q) (Owner.live p) p
        ⟨hq, by omega, by unfold chunk_end at hov ⊢; omega⟩ (hinv.live_self p hp)
      simp only [Owner.live.injEq] at this
      exact hne this.symm

/-- C1 (witness): after `demo_trace` on the default pool, the live chunks at
7344000 and 7344120 do not overlap. -/
theorem live_chunks_disjoint_witness :
    chunk_end demo_heap.pool 7344000 ≤ 7344120 ∨ chunk_end demo_heap.pool 7344120 ≤ 7344000 :=
  (live_chunks_disjoint 15 grow12 4096 sysOk (fun _ => 0) pool_default demo_trace demo_heap
    (by decide) (by decide)
    (some_getD_of_isSome _ _ (by decide!)) (some_getD_of_isSome _ _ (by decide!))).2.2
    7344000 7344120 (by decide!) (by decide!) (by decide)

/-! ## The class table of the default configuration -/

/-- Consecutive classes written by the loop: the next chunk size is the grown
size, rounded up. -/
theorem class_loop_step (grow : Nat → Nat) :
    ∀ fuel index size pc idx pc2,
      class_loop grow fuel index size pc = some (idx, pc2) →
      ∀ j, index ≤ j → j + 1 < idx →
        (pc2 (j + 1)).chunk_size = ROUND_UP (grow (pc2 j).chunk_size) := by
  intro fuel
  induction fuel with
  | zero =>
    intro index size pc idx pc2 h j h1 h2
    simp only [class_loop, Option.some.injEq, Prod.mk.injEq] at h
    omega
  | succ n ih =>
    intro index size pc idx pc2 h j h1 h2
    have hfirst := class_loop_first grow _ _ _ _ _ _ h
    rw [class_loop_succ] at h
    by_cases hc : index < POWER_LARGEST ∧ size < MM_MAX_SIZE
    · rw [if_pos hc] at h
      by_cases hs : size = 0
      · rw [if_pos hs] at h; exact absurd h (by simp)
      · rw [if_neg hs] at h
        by_cases hj : j = index
        · subst hj
          rw [hfirst (by omega)]
          exact class_loop_first grow _ _ _ _ _ _ h h2
        · exact ih _ _ _ _ _ h j (by omega) h2
    · rw [if_neg hc] at h
      simp only [Option.some.injEq, Prod.mk.injEq] at h
      omega

/-- The final class index never exceeds `POWER_LARGEST`. -/
theorem pages_init_page_class_num_le (memlimit : Nat) (grow : Nat → Nat) (prealloc : Bool)
    (pool_ret : Nat) (sys : Nat → Sys) (st st2 : Pool)
    (hfresh : ¬(prealloc = true ∧ st.mem_pool ≠ 0))
    (h : pages_init memlimit grow prealloc pool_ret sys st = some st2) :
    st2.page_class_num ≤ POWER_LARGEST := by
  obtain ⟨pc0, pc, hloop, _, _⟩ := pages_init_table _ _ _ _ _ _ _ hfresh h
  have := (class_loop_spec grow _ _ _ _ _ _ hloop).2.1
  unfold POWER_SMALLEST POWER_LARGEST at *
  omega

/-- C11 (counterexample): after `pages_init(15, 1.2, true)` the last class, 58,
has chunk size 1 MB, which is not the rounded-up growth 1218552 of the chunk
size 1015456 of class 57. -/
theorem last_class_is_pinned_not_grown :
    (pages_init 15 grow12 true 4096 sysOk (Pool.boot (fun _ => 0))).map
      (fun st => (st.page_class_num, (st.pageclass 57).chunk_size,
        ROUND_UP (grow12 (st.pageclass 57).chunk_size), (st.pageclass 58).chunk_size))
      = some (58, 1015456, 1218552, 1048576) := by
  decide!

/-- C11 (as amended): after a `pages_init` that builds the table (in particular
`pages_init(15, 1.2, true)` with `grow = grow12`), the final class
`page_class_num` has `chunk_size = MM_MAX_SIZE` and `perpage = 1`; every earlier
class `i` in `[1, page_class_num - 1]` has `chunk_size < MM_MAX_SIZE` and
`perpage = MM_MAX_SIZE / chunk_size >= 1`; and every class after the first and
before the last has `chunk_size = ROUND_UP (grow (previous chunk_size))`. -/
theorem pages_init_table_shape (memlimit : Nat) (grow : Nat → Nat) (prealloc : Bool)
    (pool_ret : Nat) (sys : Nat → Sys) (st st2 : Pool)
    (hfresh : ¬(prealloc = true ∧ st.mem_pool ≠ 0))
    (h : pages_init memlimit grow prealloc pool_ret sys st = some st2) :
    (st2.pageclass st2.page_class_num).chunk_size = MM_MAX_SIZE ∧
    (st2.pageclass st2.page_class_num).perpage = 1 ∧
    (∀ i, 1 ≤ i → i < st2.page_class_num →
      (st2.pageclass i).chunk_size < MM_MAX_SIZE ∧
      (st2.pageclass i).perpage = MM_MAX_SIZE / (st2.pageclass i).chunk_size ∧
      1 ≤ (st2.pageclass i).perpage) ∧
    (∀ i, 1 ≤ i → i + 1 < st2.page_class_num →
      (st2.pageclass (i + 1)).chunk_size = ROUND_UP (grow (st2.pageclass i).chunk_size)) := by
  obtain ⟨pc0, pc, hloop, _, hcs⟩ := pages_init_table _ _ _ _ _ _ _ hfresh h
  obtain ⟨_, _, _, hd⟩ := class_loop_spec grow _ _ _ _ _ _ hloop
  have hstep := class_loop_step grow _ _ _ _ _ _ hloop
  refine ⟨?_, ?_, ?_, ?_⟩
  · rw [(hcs _).1, upd_same]
  · rw [(hcs _).2, upd_same]
  · intro i i1 i2
    obtain ⟨_, d2, d3, d4, _⟩ := hd i i1 i2
    rw [(hcs i).1, (hcs i).2, upd_other _ _ _ _ (by omega)]
    refine ⟨d3, d4, ?_⟩
    rw [d4]
    exact Nat.div_pos (le_of_lt d3) d2
  · intro i i1 i2
    rw [(hcs i).1, (hcs (i + 1)).1, upd_other _ _ _ _ (by omega), upd_other _ _ _ _ (by omega)]
    exact hstep i i1 i2

/-- C11 (witness): `pages_init(15, 1.2, true)` on a fresh pool; class 3 follows
class 2 by the growth rule. -/
theorem pages_init_table_shape_witness :
    (pool_default.pageclass (2 + 1)).chunk_size
      = ROUND_UP (grow12 (pool_default.pageclass 2).chunk_size) := by
  have hinit : pages_init 15 grow12 true 4096 sysOk (Pool.boot (fun _ => 0)) = some pool_default :=
    some_getD_of_isSome _ _ (by decide!)
  exact (pages_init_table_shape 15 grow12 true 4096 sysOk (Pool.boot (fun _ => 0)) pool_default
    (fun hh => hh.2 rfl) hinit).2.2.2 2 (by decide) (by decide!)

/-- C19 (evaluation at the failing input): `pages_init(15, 1.0, true)` ends with
`page_class_num = 200 = PAGE_MAX_CLASS_NUM`, so the pinned class is
`pageclass[200]`, outside the array and outside the scan of `get_page_id`. -/
theorem page_class_num_reaches_200 :
    (pages_init 15 grow10 true 4096 sysOk (Pool.boot (fun _ => 0))).map
      (fun st => (st.page_class_num, decide (st.page_class_num < PAGE_MAX_CLASS_NUM),
        get_page_id st MM_MAX_SIZE))
      = some (200, false, 0) := by
  decide!

/-- The default pool is reachable. -/
theorem pool_default_reachable : Reachable pool_default :=
  Reachable.start (fun _ => 0) 15 grow12 true 4096 sysOk pool_default (by decide)
    (some_getD_of_isSome _ _ (by decide!))

/-- C20: double free is not detected.  On the default pool `do_mem_alloc(100)`
returns the chunk at 7344000; after two calls of `do_mem_free` on it the free
list of class 8 holds the address twice, and the next two `do_mem_alloc(100)`
both return 7344000. -/
theorem double_free_aliases :
    Reachable pool_default ∧ Reachable double_free_state ∧
    (do_mem_alloc ⟨true, 0⟩ 100 pool_default).1 = 7344000 ∧
    get_page_id pool_default 100 = 8 ∧
    (double_free_state.pageclass 8).free_curr = 2 ∧
    (double_free_state.pageclass 8).freelist 0 = 7344000 ∧
    (double_free_state.pageclass 8).freelist 1 = 7344000 ∧
    (do_mem_alloc ⟨true, 0⟩ 100 double_free_state).1 = 7344000 ∧
    (do_mem_alloc ⟨true, 0⟩ 100 (do_mem_alloc ⟨true, 0⟩ 100 double_free_state).2).1
      = 7344000 := by
  have h1 : Reachable (do_mem_alloc ⟨true, 0⟩ 100 pool_default).2 :=
    Reachable.step _ (Call.do_mem_alloc ⟨true, 0⟩ 100) _ pool_default_reachable trivial rfl
  have h2 : Reachable (do_mem_free true 7344000 0 (do_mem_alloc ⟨true, 0⟩ 100 pool_default).2) :=
    Reachable.step _ (Call.do_mem_free true 7344000 0) _ h1 (show (7344000 : Nat) ≠ 0 by decide) rfl
  have h3 : Reachable double_free_state :=
    Reachable.step _ (Call.do_mem_free true 7344000 0) _ h2 (show (7344000 : Nat) ≠ 0 by decide) rfl
  exact ⟨pool_default_reachable, h3, by decide!, by decide!, by decide!, by decide!,
    by decide!, by decide!, by decide!⟩

/-! ## Well-formedness of reachable pools -/

theorem ROUND_UP_mod (x : Nat) : ROUND_UP x % 8 = 0 := by
  unfold ROUND_UP PAGE_ALIGN
  omega

/-- Started on a multiple of 8, the loop writes only multiples of 8. -/
theorem class_loop_aligned (grow : Nat → Nat) :
    ∀ fuel index size pc idx pc2,
      class_loop grow fuel index size pc = some (idx, pc2) → size % 8 = 0 →
      ∀ j, index ≤ j → j < idx → (pc2 j).chunk_size % 8 = 0 := by
  intro fuel
  induction fuel with
  | zero =>
    intro index size pc idx pc2 h _ j h1 h2
    simp only [class_loop, Option.some.injEq, Prod.mk.injEq] at h
    omega
  | succ n ih =>
    intro index size pc idx pc2 h hs8 j h1 h2
    have hfirst := class_loop_first grow _ _ _ _ _ _ h
    rw [class_loop_succ] at h
    by_cases hc : index < POWER_LARGEST ∧ size < MM_MAX_SIZE
    · rw [if_pos hc] at h
      by_cases hs : size = 0
      · rw [if_pos hs] at h; exact absurd h (by simp)
      · rw [if_neg hs] at h
        by_cases hj : j = index
        · subst hj; rw [hfirst h2]; exact hs8
        · exact ih _ _ _ _ _ h (ROUND_UP_mod _) j (by omega) h2
    · rw [if_neg hc] at h
      simp only [Option.some.injEq, Prod.mk.injEq] at h
      omega

/-- `alloc_newpage` keeps a pool well-formed. -/
theorem PoolWF.wf_alloc_newpage {st : Pool} (h : PoolWF st) (sys : Sys) (id : Nat) :
    PoolWF (alloc_newpage sys id st).2 := by
  obtain ⟨f1, _, _, f4, f5⟩ := alloc_newpage_frame sys id st
  have hv : ∀ c, ValidClass (MemManager.alloc_newpage sys id st).2 c → ValidClass st c := by
    intro c hc; unfold ValidClass at hc ⊢; rw [f1] at hc; exact hc
  refine ⟨?_, ?_, ?_, ?_⟩
  · intro c hc
    rw [(f5 c).1, (f5 c).2.1]
    exact h.table c (hv c hc)
  · intro c
    rw [(f5 c).1, (f5 c).2.1]
    exact h.sizes c
  · intro c
    rw [(f5 c).2.2.1, (f5 c).2.2.2.2]
    exact h.entries c
  · intro c hc
    by_cases hcid : c = id
    · subst hcid
      have hcur := h.current c (hv c hc)
      obtain ⟨_, hpp⟩ := h.table c (hv c hc)
      obtain ⟨_, hsz⟩ := h.sizes c
      have hcs := (h.table c (hv c hc)).1
      have hlt : (st.pageclass c).perpage < U32 := by
        have : (st.pageclass c).perpage ≤ (st.pageclass c).chunk_size * (st.pageclass c).perpage :=
          Nat.le_mul_of_pos_left _ hcs
        unfold MM_MAX_SIZE at hsz; unfold U32; omega
      rw [alloc_newpage_unfold]
      split_ifs
      · exact hcur
      · exact hcur
      · simp only [Pool.setClass, upd_same]; exact hcur
      · simp only [upd_same]; exact fun _ => ⟨hpp, hlt⟩
    · rw [f4 c hcid]
      exact h.current c (hv c hc)

/-- `take_chunk` keeps a pool well-formed. -/
theorem PoolWF.wf_take_chunk {st : Pool} (h : PoolWF st) (id : Nat) (hid : ValidClass st id) :
    PoolWF (take_chunk id st).2 := by
  obtain ⟨f1, _, _, _, _, f6, f7⟩ := take_chunk_frame id st
  have hv : ∀ c, ValidClass (MemManager.take_chunk id st).2 c → ValidClass st c := by
    intro c hc; unfold ValidClass at hc ⊢; rw [f1] at hc; exact hc
  obtain ⟨e1, e2⟩ := h.entries id
  have hcur := h.current id hid
  refine ⟨?_, ?_, ?_, ?_⟩
  · intro c hc
    rw [(f7 c).1, (f7 c).2.1]
    exact h.table c (hv c hc)
  · intro c
    rw [(f7 c).1, (f7 c).2.1]
    exact h.sizes c
  · intro c
    by_cases hcid : c = id
    · subst hcid
      rw [(f7 c).2.2.1]
      have hfc : ((MemManager.take_chunk c st).2.pageclass c).free_curr
          ≤ (st.pageclass c).free_curr := by
        unfold MemManager.take_chunk
        simp only []
        split_ifs <;> simp only [Pool.setClass, upd_same] <;> (unfold U32 at *; omega)
      exact ⟨by omega, fun k hk => e2 k (by omega)⟩
    · rw [f6 c hcid]; exact h.entries c
  · intro c hc
    by_cases hcid : c = id
    · subst hcid
      unfold MemManager.take_chunk
      simp only []
      by_cases hfc : (st.pageclass c).free_curr ≠ 0
      · rw [if_pos hfc]
        split_ifs <;> simp only [Pool.setClass, upd_same] <;> exact hcur
      · rw [if_neg hfc]
        by_cases hep : (st.pageclass c).end_page_ptr ≠ 0
        · rw [if_pos hep]
          simp only [Pool.setClass, upd_same]
          obtain ⟨c1, c2⟩ := hcur hep
          intro hne
          by_cases hz : ((st.pageclass c).end_page_free + U32 - 1) % U32 = 0
          · rw [if_pos hz] at hne; exact absurd rfl hne
          · unfold U32 at *; omega
        · rw [if_neg hep]; exact hcur
    · rw [f6 c hcid]
      exact h.current c (hv c hc)

/-- `do_mem_alloc` keeps a pool well-formed. -/
theorem PoolWF.wf_do_mem_alloc {st : Pool} (h : PoolWF st) (sys : Sys) (size : Nat) :
    PoolWF (do_mem_alloc sys size st).2 := by
  unfold MemManager.do_mem_alloc
  simp only []
  by_cases hv : get_page_id st size < POWER_SMALLEST ∨ get_page_id st size > st.page_class_num
  · rw [if_pos hv]; exact h
  · rw [if_neg hv]
    have hne : get_page_id st size ≠ 0 := by unfold POWER_SMALLEST at hv; omega
    obtain ⟨_, a, b, c, _⟩ := get_page_id_pos st size hne
    have he : PoolWF (ensure_page sys (get_page_id st size) st).2 := by
      unfold ensure_page
      simp only []
      split_ifs
      · exact h.wf_alloc_newpage sys _
      · exact h
    by_cases hz : (ensure_page sys (get_page_id st size) st).1 = 0
    · rw [if_pos hz]; exact he
    · rw [if_neg hz]
      refine he.wf_take_chunk _ ⟨a, ?_, c⟩
      rw [(ensure_page_frame sys (get_page_id st size) st).1]; exact b

/-- `do_mem_free` on a non-null pointer keeps a pool well-formed. -/
theorem PoolWF.wf_do_mem_free {st : Pool} (h : PoolWF st) (ok : Bool) (p size : Nat)
    (hp : p ≠ 0) : PoolWF (do_mem_free ok p size st) := by
  obtain ⟨f1, _, _, _, _, _, f7, f8⟩ := do_mem_free_frame ok p size st
  have hv : ∀ c, ValidClass (MemManager.do_mem_free ok p size st) c → ValidClass st c := by
    intro c hc; unfold ValidClass at hc ⊢; rw [f1] at hc; exact hc
  refine ⟨?_, ?_, ?_, ?_⟩
  · intro c hc
    rw [(f8 c).1, (f8 c).2.1]
    exact h.table c (hv c hc)
  · intro c
    rw [(f8 c).1, (f8 c).2.1]
    exact h.sizes c
  · intro c
    by_cases hcid : c = st.classid p
    · subst hcid
      obtain ⟨e1, e2⟩ := h.entries (st.classid p)
      unfold MemManager.do_mem_free
      simp only []
      split_ifs
      all_goals first
        | exact ⟨e1, e2⟩
        | (simp only [Pool.setClass, upd_same]
           refine ⟨Nat.mod_lt _ (by decide), fun k hk => ?_⟩
           have hle : ((st.pageclass (st.classid p)).free_curr + 1) % U32
               ≤ (st.pageclass (st.classid p)).free_curr + 1 := Nat.mod_le _ _
           by_cases hkf : k = (st.pageclass (st.classid p)).free_curr
           · rw [hkf, upd_same]; exact hp
           · rw [upd_other _ _ _ _ hkf]; exact e2 k (by omega))
    · rw [f7 c hcid]; exact h.entries c
  · intro c hc
    rw [(f8 c).2.2.1, (f8 c).2.2.2.1]
    exact h.current c (hv c hc)

/-- The loop of `prealloc_page` keeps a pool well-formed. -/
theorem PoolWF.wf_prealloc_loop (sys : Nat → Sys) (num : Nat) :
    ∀ fuel i st, PoolWF st → PoolWF (prealloc_loop sys num fuel i st) := by
  intro fuel
  induction fuel with
  | zero => intro i st h; exact h
  | succ n ih =>
    intro i st h
    unfold MemManager.prealloc_loop
    split_ifs
    · exact ih _ _ (h.wf_alloc_newpage (sys i) i)
    · exact h

/-- A `pages_init` that builds the table enters `prealloc_page` in a state whose
class table is the result of the loop with the last class pinned. -/
theorem pages_init_unfold (memlimit : Nat) (grow : Nat → Nat) (prealloc : Bool)
    (pool_ret : Nat) (sys : Nat → Sys) (st st2 : Pool)
    (hfresh : ¬(prealloc = true ∧ st.mem_pool ≠ 0))
    (h : pages_init memlimit grow prealloc pool_ret sys st = some st2) :
    ∃ pc S, class_loop grow (POWER_LARGEST - POWER_SMALLEST) POWER_SMALLEST
        (ROUND_UP (sizeof_item + MM_MIN_SIZE))
        (fun i => if i < PAGE_MAX_CLASS_NUM then pageclass_t.zero else st.pageclass i)
          = some (st2.page_class_num, pc) ∧
      S.page_class_num = st2.page_class_num ∧
      S.pageclass = upd pc st2.page_class_num
        { pc st2.page_class_num with chunk_size := MM_MAX_SIZE, perpage := 1 } ∧
      st2 = prealloc_page sys st2.page_class_num S := by
  unfold pages_init at h
  simp only [] at h
  rw [if_neg hfresh] at h
  split at h
  · exact absurd h (by simp)
  · rename_i index pc hloop
    simp only [Option.some.injEq] at h
    have hidx : st2.page_class_num = index := by
      rw [← h]
      unfold prealloc_page
      exact (prealloc_loop_frame sys index POWER_LARGEST POWER_SMALLEST _).1
    rw [hidx]
    have hpc0 : (fun i => if i < PAGE_MAX_CLASS_NUM then pageclass_t.zero
        else (if prealloc = true then
          ({ st with
            mem_pool := pool_ret, mem_avaliable := pool_ret,
            memalloc := (1 * 1024 * 1024 *
              (if prealloc = true ∧ memlimit < 15 then 15 else memlimit)) % U64,
            memuse := 0 } : Pool)
          else st).pageclass i)
        = (fun i => if i < PAGE_MAX_CLASS_NUM then pageclass_t.zero else st.pageclass i) := by
      funext i
      split_ifs <;> rfl
    rw [hpc0] at hloop
    exact ⟨pc, _, hloop, rfl, rfl, h.symm⟩

/-- A `pages_init` on a well-formed pool returns a well-formed pool. -/
theorem PoolWF.wf_pages_init (memlimit : Nat) (grow : Nat → Nat) (prealloc : Bool)
    (pool_ret : Nat) (sys : Nat → Sys) (st st2 : Pool) (hwf : PoolWF st)
    (h : pages_init memlimit grow prealloc pool_ret sys st = some st2) : PoolWF st2 := by
  by_cases hre : prealloc = true ∧ st.mem_pool ≠ 0
  · unfold MemManager.pages_init at h
    simp only [] at h
    rw [if_pos hre] at h
    simp only [Option.some.injEq] at h
    rw [← h]; exact hwf
  · obtain ⟨pc, S, hloop, hS1, hS2, hst2⟩ :=
      pages_init_unfold memlimit grow prealloc pool_ret sys st st2 hre h
    obtain ⟨_, _, hc, hd⟩ := class_loop_spec grow _ _ _ _ _ _ hloop
    have hal := class_loop_aligned grow _ _ _ _ _ _ hloop (by decide)
    have hSwf : PoolWF S := by
      refine ⟨?_, ?_, ?_, ?_⟩
      · intro c hcv
        obtain ⟨c1, c2, c3⟩ := hcv
        rw [hS1] at c2
        rw [hS2]
        by_cases hcn : c = st2.page_class_num
        · rw [hcn, upd_same]
          exact ⟨show 0 < MM_MAX_SIZE by decide, show 0 < 1 by decide⟩
        · rw [upd_other _ _ _ _ hcn]
          obtain ⟨_, d2, d3, d4, _⟩ := hd c c1 (by omega)
          exact ⟨d2, by rw [d4]; exact Nat.div_pos (le_of_lt d3) d2⟩
      · intro c
        rw [hS2]
        by_cases hcn : c = st2.page_class_num
        · rw [hcn, upd_same]
          exact ⟨show MM_MAX_SIZE % 8 = 0 by decide, show MM_MAX_SIZE * 1 ≤ MM_MAX_SIZE by decide⟩
        · rw [upd_other _ _ _ _ hcn]
          by_cases hin : POWER_SMALLEST ≤ c ∧ c < st2.page_class_num
          · obtain ⟨_, _, _, d4, _⟩ := hd c hin.1 hin.2
            exact ⟨hal c hin.1 hin.2, by rw [d4]; exact Nat.mul_div_le _ _⟩
          · rw [hc c (by omega)]
            split_ifs
            · exact ⟨by decide, by decide⟩
            · exact hwf.sizes c
      · intro c
        rw [hS2]
        have hbase : ((fun i => if i < PAGE_MAX_CLASS_NUM then pageclass_t.zero
            else st.pageclass i) c).free_curr < U32 ∧
            ∀ k, k < ((fun i => if i < PAGE_MAX_CLASS_NUM then pageclass_t.zero
              else st.pageclass i) c).free_curr →
              ((fun i => if i < PAGE_MAX_CLASS_NUM then pageclass_t.zero
                else st.pageclass i) c).freelist k ≠ 0 := by
          simp only []
          split_ifs
          · exact ⟨by decide, fun k hk => absurd hk (Nat.not_lt_zero _)⟩
          · exact hwf.entries c
        have hpc : (pc c).free_curr = ((fun i => if i < PAGE_MAX_CLASS_NUM then pageclass_t.zero
            else st.pageclass i) c).free_curr ∧
            (pc c).freelist = ((fun i => if i < PAGE_MAX_CLASS_NUM then pageclass_t.zero
              else st.pageclass i) c).freelist := by
          by_cases hin : POWER_SMALLEST ≤ c ∧ c < st2.page_class_num
          · obtain ⟨_, _, _, _, d5⟩ := hd c hin.1 hin.2
            rw [d5]; exact ⟨rfl, rfl⟩
          · rw [hc c (by omega)]; exact ⟨rfl, rfl⟩
        by_cases hcn : c = st2.page_class_num
        · rw [hcn, upd_same]
          rw [hcn] at hpc hbase
          simp only [] at hpc hbase ⊢
          rw [hpc.1, hpc.2]; exact hbase
        · rw [upd_other _ _ _ _ hcn, hpc.1, hpc.2]; exact hbase
      · intro c hcv hne
        exfalso
        apply hne
        obtain ⟨c1, c2, c3⟩ := hcv
        rw [hS1] at c2
        rw [hS2]
        have hz : (pc c).end_page_ptr = 0 := by
          by_cases hin : c < st2.page_class_num
          · obtain ⟨_, _, _, _, d5⟩ := hd c c1 hin
            rw [d5, if_pos (show c < PAGE_MAX_CLASS_NUM from c3)]; rfl
          · rw [hc c (by omega), if_pos (show c < PAGE_MAX_CLASS_NUM from c3)]; rfl
        by_cases hcn : c = st2.page_class_num
        · rw [hcn, upd_same]; rw [hcn] at hz; exact hz
        · rw [upd_other _ _ _ _ hcn]; exact hz
    rw [hst2]
    unfold prealloc_page
    exact PoolWF.wf_prealloc_loop sys _ _ _ _ hSwf

theorem PoolWF.boot (hdr : Nat → Nat) : PoolWF (Pool.boot hdr) := by
  refine ⟨?_, ?_, ?_, ?_⟩
  · intro c hc
    have h1 := hc.1
    have h2 := hc.2.1
    simp only [Pool.boot] at h2
    omega
  · intro c; exact ⟨show (0 : Nat) % 8 = 0 by decide, show (0 : Nat) * 0 ≤ MM_MAX_SIZE by decide⟩
  · intro c; exact ⟨show (0 : Nat) < U32 by decide, fun k hk => absurd hk (Nat.not_lt_zero _)⟩
  · intro c hc
    have h1 := hc.1
    have h2 := hc.2.1
    simp only [Pool.boot] at h2
    omega

/-- Every call keeps a pool well-formed. -/
theorem PoolWF.call {st st2 : Pool} (h : PoolWF st) (c : Call) (hc : c.wellTyped)
    (hrun : c.run st = some st2) : PoolWF st2 := by
  cases c with
  | pages_init memlimit grow prealloc pool_ret sys =>
    exact PoolWF.wf_pages_init memlimit grow prealloc pool_ret sys st st2 h hrun
  | memory_alloc m size =>
    simp only [Call.run, Option.some.injEq] at hrun
    subst hrun
    obtain ⟨f1, f2, _⟩ := memory_alloc_frame m size st
    refine ⟨?_, ?_, ?_, ?_⟩
    · intro c hcv; rw [f2]; exact h.table c (by unfold ValidClass at hcv ⊢; rw [f1] at hcv; exact hcv)
    · intro c; rw [f2]; exact h.sizes c
    · intro c; rw [f2]; exact h.entries c
    · intro c hcv; rw [f2]
      exact h.current c (by unfold ValidClass at hcv ⊢; rw [f1] at hcv; exact hcv)
  | alloc_newpage sys id =>
    simp only [Call.run, Option.some.injEq] at hrun
    subst hrun
    exact h.wf_alloc_newpage sys id
  | do_mem_alloc sys size =>
    simp only [Call.run, Option.some.injEq] at hrun
    subst hrun
    exact h.wf_do_mem_alloc sys size
  | do_mem_free ok pointer size =>
    simp only [Call.run, Option.some.injEq] at hrun
    subst hrun
    exact h.wf_do_mem_free ok pointer size hc

/-- Every reachable pool is well-formed. -/
theorem reachable_wf (st : Pool) (h : Reachable st) : PoolWF st := by
  induction h with
  | start hdr memlimit grow prealloc pool_ret sys st _ hinit =>
    exact PoolWF.wf_pages_init memlimit grow prealloc pool_ret sys _ st (PoolWF.boot hdr) hinit
  | step st c st2 _ hc hrun ih => exact ih.call c hc hrun

/-! ## Routing of `do_mem_alloc` -/

/-- A successful `alloc_newpage` leaves the class with a current page. -/
theorem alloc_newpage_success_page (sys : Sys) (id : Nat) (st : Pool)
    (h : (alloc_newpage sys id st).1 ≠ 0) :
    ((alloc_newpage sys id st).2.pageclass id).end_page_ptr ≠ 0 := by
  rw [alloc_newpage_unfold] at h ⊢
  split_ifs at h ⊢ with h1 h2 h3
  · exact absurd rfl h
  · exact absurd rfl h
  · exact absurd rfl h
  · simp only [upd_same]; exact h3

/-- With a free-list entry or a current page, `take_chunk` on a well-formed pool
returns a non-null chunk. -/
theorem take_chunk_nonnull {st : Pool} (hwf : PoolWF st) (id : Nat)
    (h : (st.pageclass id).free_curr ≠ 0 ∨ (st.pageclass id).end_page_ptr ≠ 0) :
    (take_chunk id st).1 ≠ 0 := by
  obtain ⟨e1, e2⟩ := hwf.entries id
  unfold take_chunk
  simp only []
  by_cases hfc : (st.pageclass id).free_curr ≠ 0
  · rw [if_pos hfc]
    have hne := e2 (((st.pageclass id).free_curr + U32 - 1) % U32) (by unfold U32 at *; omega)
    rw [if_pos hne]
    exact hne
  · rw [if_neg hfc]
    have hep : (st.pageclass id).end_page_ptr ≠ 0 := by
      rcases h with h | h
      · exact absurd h hfc
      · exact h
    rw [if_pos hep]
    exact hep

/-- With an empty free list and a current page, `take_chunk` carves the page. -/
theorem take_chunk_carve (id : Nat) (st : Pool) (hfc : (st.pageclass id).free_curr = 0)
    (hep : (st.pageclass id).end_page_ptr ≠ 0) :
    (take_chunk id st).1 = (st.pageclass id).end_page_ptr ∧
    ((take_chunk id st).2.pageclass id).end_page_free
      = ((st.pageclass id).end_page_free + U32 - 1) % U32 ∧
    ((take_chunk id st).2.pageclass id).end_page_ptr
      = (if ((st.pageclass id).end_page_free + U32 - 1) % U32 = 0 then 0
        else (st.pageclass id).end_page_ptr + (st.pageclass id).chunk_size) ∧
    ((take_chunk id st).2.pageclass id).free_curr = 0 ∧
    (take_chunk id st).2.classid (take_chunk id st).1 = id % 256 := by
  unfold take_chunk
  simp only []
  rw [if_neg (by rw [hfc]; simp), if_pos hep]
  simp [Pool.setClass, hfc]

/-- The page growth of `do_mem_alloc` does nothing when the class has a
free-list entry or a current page. -/
theorem ensure_page_skip (sys : Sys) (id : Nat) (st : Pool)
    (h : (st.pageclass id).free_curr ≠ 0 ∨ (st.pageclass id).end_page_ptr ≠ 0) :
    ensure_page sys id st = (1, st) := by
  unfold ensure_page
  simp only []
  rw [if_neg]
  intro hc
  rcases h with h | h
  · exact h hc.2
  · exact h hc.1

/-- C15: in every reachable pool state, `do_mem_alloc(size)` returns null if and
only if `get_page_id(size)` is outside `[1, page_class_num]`, or the resolved
class has no free-list entry and no current page and `alloc_newpage` for that
class returns 0. -/
theorem do_mem_alloc_null_iff (st : Pool) (hr : Reachable st) (sys : Sys) (size : Nat) :
    (do_mem_alloc sys size st).1 = 0 ↔
      (get_page_id st size < POWER_SMALLEST ∨ get_page_id st size > st.page_class_num) ∨
      ((st.pageclass (get_page_id st size)).free_curr = 0 ∧
        (st.pageclass (get_page_id st size)).end_page_ptr = 0 ∧
        (alloc_newpage sys (get_page_id st size) st).1 = 0) := by
  have hwf := reachable_wf st hr
  unfold do_mem_alloc
  simp only []
  by_cases hv : get_page_id st size < POWER_SMALLEST ∨ get_page_id st size > st.page_class_num
  · rw [if_pos hv]
    exact ⟨fun _ => Or.inl hv, fun _ => rfl⟩
  · rw [if_neg hv]
    by_cases hc : (st.pageclass (get_page_id st size)).end_page_ptr = 0 ∧
        (st.pageclass (get_page_id st size)).free_curr = 0
    · have he : ensure_page sys (get_page_id st size) st
          = alloc_newpage sys (get_page_id st size) st := by
        unfold ensure_page
        simp only []
        rw [if_pos hc]
      rw [he]
      by_cases hz : (alloc_newpage sys (get_page_id st size) st).1 = 0
      · rw [if_pos hz]
        exact ⟨fun _ => Or.inr ⟨hc.2, hc.1, hz⟩, fun _ => rfl⟩
      · rw [if_neg hz]
        have hne := take_chunk_nonnull (hwf.wf_alloc_newpage sys (get_page_id st size))
          (get_page_id st size) (Or.inr (alloc_newpage_success_page _ _ _ hz))
        constructor
        · intro h0; exact absurd h0 hne
        · rintro (h1 | ⟨_, _, h3⟩)
          · exact absurd h1 hv
          · exact absurd h3 hz
    · have hor : (st.pageclass (get_page_id st size)).free_curr ≠ 0 ∨
          (st.pageclass (get_page_id st size)).end_page_ptr ≠ 0 := by
        by_contra hno
        push_neg at hno
        exact hc ⟨hno.2, hno.1⟩
      rw [ensure_page_skip sys _ st hor]
      simp only [one_ne_zero, if_false]
      have hne := take_chunk_nonnull hwf (get_page_id st size) hor
      constructor
      · intro h0; exact absurd h0 hne
      · rintro (h1 | ⟨h2, h3, _⟩)
        · exact absurd h1 hv
        · rcases hor with h | h
          · exact absurd h2 h
          · exact absurd h3 h

/-- C15 (witness): on the default pool a request of 100 bytes is served, one of
2 MB is refused because no class fits. -/
theorem do_mem_alloc_null_iff_witness :
    ((do_mem_alloc ⟨true, 0⟩ 2097152 pool_default).1 = 0 ↔
      (get_page_id pool_default 2097152 < POWER_SMALLEST ∨
        get_page_id pool_default 2097152 > pool_default.page_class_num) ∨
      ((pool_default.pageclass (get_page_id pool_default 2097152)).free_curr = 0 ∧
        (pool_default.pageclass (get_page_id pool_default 2097152)).end_page_ptr = 0 ∧
        (alloc_newpage ⟨true, 0⟩ (get_page_id pool_default 2097152) pool_default).1 = 0)) :=
  do_mem_alloc_null_iff pool_default pool_default_reachable ⟨true, 0⟩ 2097152

/-- C14: routing of a successful `do_mem_alloc(size)` in a reachable state, for
the class `id = get_page_id(size)`.  The chunk size of the class is at least
`size` and the header of the result is stamped with `id`.  If the free list is
non-empty, the result is its top entry, `free_curr` decreases by one and the
current page is left alone.  Otherwise the result is the cursor of the current
page (the page just carved by `alloc_newpage` if there was none),
`end_page_free` decreases by one and `end_page_ptr` advances by `chunk_size`,
or becomes null exactly when the counter reaches 0. -/
theorem do_mem_alloc_routing (st : Pool) (hr : Reachable st) (sys : Sys) (size : Nat)
    (hok : (do_mem_alloc sys size st).1 ≠ 0) :
    size ≤ (st.pageclass (get_page_id st size)).chunk_size ∧
    (do_mem_alloc sys size st).2.classid (do_mem_alloc sys size st).1 = get_page_id st size ∧
    ((st.pageclass (get_page_id st size)).free_curr ≠ 0 →
      (do_mem_alloc sys size st).1 = (st.pageclass (get_page_id st size)).freelist
        ((st.pageclass (get_page_id st size)).free_curr - 1) ∧
      ((do_mem_alloc sys size st).2.pageclass (get_page_id st size)).free_curr + 1
        = (st.pageclass (get_page_id st size)).free_curr ∧
      ((do_mem_alloc sys size st).2.pageclass (get_page_id st size)).end_page_ptr
        = (st.pageclass (get_page_id st size)).end_page_ptr ∧
      ((do_mem_alloc sys size st).2.pageclass (get_page_id st size)).end_page_free
        = (st.pageclass (get_page_id st size)).end_page_free) ∧
    ((st.pageclass (get_page_id st size)).free_curr = 0 →
      ((st.pageclass (get_page_id st size)).end_page_ptr ≠ 0 →
        (ensure_page sys (get_page_id st size) st).2 = st) ∧
      (do_mem_alloc sys size st).1
        = ((ensure_page sys (get_page_id st size) st).2.pageclass
          (get_page_id st size)).end_page_ptr ∧
      ((do_mem_alloc sys size st).2.pageclass (get_page_id st size)).end_page_free + 1
        = ((ensure_page sys (get_page_id st size) st).2.pageclass
          (get_page_id st size)).end_page_free ∧
      ((do_mem_alloc sys size st).2.pageclass (get_page_id st size)).end_page_ptr
        = (if ((do_mem_alloc sys size st).2.pageclass (get_page_id st size)).end_page_free = 0
          then 0
          else ((ensure_page sys (get_page_id st size) st).2.pageclass
              (get_page_id st size)).end_page_ptr
            + (st.pageclass (get_page_id st size)).chunk_size)) := by
  have hwf := reachable_wf st hr
  obtain ⟨a1, a2, a3, a4, a5⟩ := do_mem_alloc_ok sys size st hok
  have hne : get_page_id st size ≠ 0 := by omega
  obtain ⟨_, _, _, _, hsz, _⟩ := get_page_id_pos st size hne
  have hmod : get_page_id st size % 256 = get_page_id st size :=
    Nat.mod_eq_of_lt (by unfold POWER_LARGEST at a3; omega)
  obtain ⟨g1, _, _, _, g5⟩ := ensure_page_frame sys (get_page_id st size) st
  have hwf1 : PoolWF (ensure_page sys (get_page_id st size) st).2 := by
    unfold ensure_page
    simp only []
    split_ifs
    · exact hwf.wf_alloc_newpage sys _
    · exact hwf
  have hfc1 := (g5 (get_page_id st size)).2.2.2.2
  have hlt := (hwf.entries (get_page_id st size)).1
  rw [a5] at hok ⊢
  refine ⟨hsz, ?_, ?_, ?_⟩
  · have := (take_chunk_ok _ _ hok (by rw [hfc1]; exact hlt)).1
    rw [this, hmod]
  · intro hfc
    rw [ensure_page_skip sys _ st (Or.inl hfc)]
    obtain ⟨p1, p2, p3, p4⟩ := take_chunk_pop (get_page_id st size) st hfc
    have e : ((st.pageclass (get_page_id st size)).free_curr + U32 - 1) % U32
        = (st.pageclass (get_page_id st size)).free_curr - 1 := by
      unfold U32 at *; omega
    rw [e] at p1 p2
    exact ⟨p1, by rw [p2]; omega, p3, p4⟩
  · intro hfc
    have hfc2 : ((ensure_page sys (get_page_id st size) st).2.pageclass
        (get_page_id st size)).free_curr = 0 := by rw [hfc1]; exact hfc
    have hep : ((ensure_page sys (get_page_id st size) st).2.pageclass
        (get_page_id st size)).end_page_ptr ≠ 0 := by
      intro h0
      apply hok
      unfold take_chunk
      simp only []
      rw [if_neg (by rw [hfc2]; simp), if_neg (by rw [h0]; simp)]
    obtain ⟨c1, c2, c3, _, _⟩ := take_chunk_carve _ _ hfc2 hep
    obtain ⟨w1, w2⟩ := hwf1.current (get_page_id st size) ⟨a1, by rw [g1]; exact a2, a3⟩ hep
    have e : (((ensure_page sys (get_page_id st size) st).2.pageclass
        (get_page_id st size)).end_page_free + U32 - 1) % U32 + 1
        = ((ensure_page sys (get_page_id st size) st).2.pageclass
          (get_page_id st size)).end_page_free := by
      unfold U32 at *; omega
    refine ⟨fun h => ?_, c1, by rw [c2]; exact e, ?_⟩
    · rw [ensure_page_skip sys _ st (Or.inr h)]
    · rw [c3, c2, (g5 (get_page_id st size)).1]

/-- C14 (witness): on the default pool, a request of 100 bytes is served from
the current page of class 8. -/
theorem do_mem_alloc_routing_witness :
    100 ≤ (pool_default.pageclass (get_page_id pool_default 100)).chunk_size ∧
    (do_mem_alloc ⟨true, 0⟩ 100 pool_default).2.classid
      (do_mem_alloc ⟨true, 0⟩ 100 pool_default).1 = get_page_id pool_default 100 :=
  ⟨(do_mem_alloc_routing pool_default pool_default_reachable ⟨true, 0⟩ 100 (by decide!)).1,
    (do_mem_alloc_routing pool_default pool_default_reachable ⟨true, 0⟩ 100 (by decide!)).2.1⟩

/-! ## `do_mem_free` and `alloc_newpage`, case by case -/

/-- C16: `do_mem_free` on a pointer whose header class id is outside
`[1, page_class_num]` returns the state unchanged.  For an id inside the range,
when the list growth (if the list is full) succeeds, the free list of that
class gets the pointer at index `free_curr`, keeps its lower entries, and
`free_curr` grows by one (as a `uint32_t`: exactly by one below `2^32 - 1`);
every other class, the pages and current page of this class, the arena and the
headers are unchanged. -/
theorem do_mem_free_spec (ok : Bool) (pointer size : Nat) (st : Pool) :
    ((st.classid pointer < POWER_SMALLEST ∨ st.classid pointer > st.page_class_num) →
      do_mem_free ok pointer size st = st) ∧
    (¬ (st.classid pointer < POWER_SMALLEST ∨ st.classid pointer > st.page_class_num) →
      ((st.pageclass (st.classid pointer)).free_curr
          = (st.pageclass (st.classid pointer)).free_total → ok = true) →
      ((do_mem_free ok pointer size st).pageclass (st.classid pointer)).freelist
          (st.pageclass (st.classid pointer)).free_curr = pointer ∧
      (∀ k, k ≠ (st.pageclass (st.classid pointer)).free_curr →
        ((do_mem_free ok pointer size st).pageclass (st.classid pointer)).freelist k
          = (st.pageclass (st.classid pointer)).freelist k) ∧
      ((do_mem_free ok pointer size st).pageclass (st.classid pointer)).free_curr
        = ((st.pageclass (st.classid pointer)).free_curr + 1) % U32 ∧
      ((st.pageclass (st.classid pointer)).free_curr + 1 < U32 →
        ((do_mem_free ok pointer size st).pageclass (st.classid pointer)).free_curr
          = (st.pageclass (st.classid pointer)).free_curr + 1) ∧
      (∀ j, j ≠ st.classid pointer →
        (do_mem_free ok pointer size st).pageclass j = st.pageclass j) ∧
      ((do_mem_free ok pointer size st).pageclass (st.classid pointer)).page_total
        = (st.pageclass (st.classid pointer)).page_total ∧
      ((do_mem_free ok pointer size st).pageclass (st.classid pointer)).page_list
        = (st.pageclass (st.classid pointer)).page_list ∧
      ((do_mem_free ok pointer size st).pageclass (st.classid pointer)).end_page_ptr
        = (st.pageclass (st.classid pointer)).end_page_ptr ∧
      ((do_mem_free ok pointer size st).pageclass (st.classid pointer)).end_page_free
        = (st.pageclass (st.classid pointer)).end_page_free ∧
      (do_mem_free ok pointer size st).mem_avaliable = st.mem_avaliable ∧
      (do_mem_free ok pointer size st).memuse = st.memuse ∧
      (do_mem_free ok pointer size st).classid = st.classid) := by
  constructor
  · intro h
    unfold do_mem_free
    simp only []
    rw [if_pos h]
  · intro h hgrow
    have key : ((do_mem_free ok pointer size st).pageclass (st.classid pointer)).freelist
          = upd (st.pageclass (st.classid pointer)).freelist
              (st.pageclass (st.classid pointer)).free_curr pointer ∧
        ((do_mem_free ok pointer size st).pageclass (st.classid pointer)).free_curr
          = ((st.pageclass (st.classid pointer)).free_curr + 1) % U32 ∧
        (∀ j, j ≠ st.classid pointer →
          (do_mem_free ok pointer size st).pageclass j = st.pageclass j) ∧
        ((do_mem_free ok pointer size st).pageclass (st.classid pointer)).page_total
          = (st.pageclass (st.classid pointer)).page_total ∧
        ((do_mem_free ok pointer size st).pageclass (st.classid pointer)).page_list
          = (st.pageclass (st.classid pointer)).page_list ∧
        ((do_mem_free ok pointer size st).pageclass (st.classid pointer)).end_page_ptr
          = (st.pageclass (st.classid pointer)).end_page_ptr ∧
        ((do_mem_free ok pointer size st).pageclass (st.classid pointer)).end_page_free
          = (st.pageclass (st.classid pointer)).end_page_free ∧
        (do_mem_free ok pointer size st).mem_avaliable = st.mem_avaliable ∧
        (do_mem_free ok pointer size st).memuse = st.memuse ∧
        (do_mem_free ok pointer size st).classid = st.classid := by
      unfold do_mem_free
      simp only []
      rw [if_neg h]
      by_cases hfull : (st.pageclass (st.classid pointer)).free_curr
          = (st.pageclass (st.classid pointer)).free_total
      · rw [if_pos hfull, hgrow hfull]
        simp only [if_true]
        refine ⟨?_, ?_, ?_, ?_, ?_, ?_, ?_, ?_, ?_, ?_⟩ <;>
          first
          | (intro j hj; simp [Pool.setClass, upd, hj])
          | simp [Pool.setClass]
      · rw [if_neg hfull]
        refine ⟨?_, ?_, ?_, ?_, ?_, ?_, ?_, ?_, ?_, ?_⟩ <;>
          first
          | (intro j hj; simp [Pool.setClass, upd, hj])
          | simp [Pool.setClass]
    obtain ⟨k1, k2, k3, k4, k5, k6, k7, k8, k9, k10⟩ := key
    refine ⟨?_, ?_, k2, ?_, k3, k4, k5, k6, k7, k8, k9, k10⟩
    · rw [k1, upd_same]
    · intro k hk
      rw [k1, upd_other _ _ _ _ hk]
    · intro hlt
      rw [k2, Nat.mod_eq_of_lt hlt]

/-- A null answer of `memory_alloc` leaves the state as it was. -/
theorem memory_alloc_null (m size : Nat) (st : Pool) (hinv : ArenaInv st)
    (hs : size < 9223372036854775808) (h : (memory_alloc m size st).1 = 0) :
    (memory_alloc m size st).2 = st := by
  obtain ⟨⟨h1, h2⟩, hb, _⟩ := hinv
  by_cases hp : st.mem_pool = 0
  · have : memory_alloc m size st = (m, st) := by
      unfold memory_alloc; simp [hp]
    rw [this]
  · obtain ⟨a, b, _⟩ := memory_alloc_cases m size st hp h1 h2 (by unfold U64; omega)
    rw [b (a.mp h)]

/-- In a well-formed pool the page size of a class is the exact product
`chunk_size * perpage`, a multiple of 8. -/
theorem page_bytes_exact {st : Pool} (hwf : PoolWF st) (id : Nat) :
    page_bytes st id = (st.pageclass id).chunk_size * (st.pageclass id).perpage ∧
    ROUND_UP (page_bytes st id) = page_bytes st id := by
  obtain ⟨s1, s2⟩ := hwf.sizes id
  have e : page_bytes st id = (st.pageclass id).chunk_size * (st.pageclass id).perpage := by
    unfold page_bytes
    exact Nat.mod_eq_of_lt (by unfold MM_MAX_SIZE at s2; unfold U32; omega)
  have m8 : page_bytes st id % 8 = 0 := by
    rw [e, Nat.mul_mod, s1]; simp
  have hlt := page_bytes_lt st id
  obtain ⟨r1, r2, r3⟩ := ROUND_UP_ge (page_bytes st id) (by unfold U32 at hlt; unfold U64; omega)
  exact ⟨e, by omega⟩

/-- C17 (counterexample to the claim as worded): without an arena a successful
`alloc_newpage` takes the page from `malloc` and leaves `memuse` at 0, although
the page of class 1 has `24 * 43690 = 1048560` bytes. -/
theorem heap_mode_page_leaves_memuse :
    Reachable pool_heap ∧
    (alloc_newpage ⟨true, 1048576⟩ 1 pool_heap).1 = 1 ∧
    pool_heap.memuse = 0 ∧
    (alloc_newpage ⟨true, 1048576⟩ 1 pool_heap).2.memuse = 0 ∧
    (pool_heap.pageclass 1).chunk_size * (pool_heap.pageclass 1).perpage = 1048560 := by
  refine ⟨Reachable.start (fun _ => 0) 15 grow12 false 0 sysOk pool_heap (by decide)
    (some_getD_of_isSome _ _ (by decide!)), ?_, ?_, ?_, ?_⟩ <;> decide!

/-- C17 (amended): in every reachable state, when `alloc_newpage(id)` returns 0
the arena cursor, `memuse` and, for every class, `chunk_size`, `perpage`,
`page_total`, the recorded pages, `end_page_ptr`, `end_page_free`, the free
list and `free_curr` are unchanged.  When it does not return 0 it returns 1,
`page_total` grows by one (as a `uint32_t`: exactly by one below `2^32 - 1`),
the new page is recorded at the old index `page_total` and is the current page,
non-null, with `end_page_free = perpage`; if the pool has an arena, the page
starts at the old cursor and `memuse` grows by `chunk_size * perpage`, and if
it has none, `memuse` stays as it was. -/
theorem alloc_newpage_outcome (st : Pool) (hr : Reachable st) (sys : Sys) (id : Nat) :
    ((alloc_newpage sys id st).1 = 0 →
      (alloc_newpage sys id st).2.mem_avaliable = st.mem_avaliable ∧
      (alloc_newpage sys id st).2.memuse = st.memuse ∧
      ∀ c, ((alloc_newpage sys id st).2.pageclass c).chunk_size = (st.pageclass c).chunk_size ∧
        ((alloc_newpage sys id st).2.pageclass c).perpage = (st.pageclass c).perpage ∧
        ((alloc_newpage sys id st).2.pageclass c).page_total = (st.pageclass c).page_total ∧
        ((alloc_newpage sys id st).2.pageclass c).page_list = (st.pageclass c).page_list ∧
        ((alloc_newpage sys id st).2.pageclass c).end_page_ptr = (st.pageclass c).end_page_ptr ∧
        ((alloc_newpage sys id st).2.pageclass c).end_page_free
          = (st.pageclass c).end_page_free ∧
        ((alloc_newpage sys id st).2.pageclass c).freelist = (st.pageclass c).freelist ∧
        ((alloc_newpage sys id st).2.pageclass c).free_curr = (st.pageclass c).free_curr) ∧
    ((alloc_newpage sys id st).1 ≠ 0 →
      (alloc_newpage sys id st).1 = 1 ∧
      ((alloc_newpage sys id st).2.pageclass id).page_total
        = ((st.pageclass id).page_total + 1) % U32 ∧
      ((st.pageclass id).page_total + 1 < U32 →
        ((alloc_newpage sys id st).2.pageclass id).page_total
          = (st.pageclass id).page_total + 1) ∧
      ((alloc_newpage sys id st).2.pageclass id).page_list (st.pageclass id).page_total
        = ((alloc_newpage sys id st).2.pageclass id).end_page_ptr ∧
      ((alloc_newpage sys id st).2.pageclass id).end_page_ptr ≠ 0 ∧
      ((alloc_newpage sys id st).2.pageclass id).end_page_free = (st.pageclass id).perpage ∧
      (st.mem_pool ≠ 0 →
        ((alloc_newpage sys id st).2.pageclass id).end_page_ptr = st.mem_avaliable ∧
        (alloc_newpage sys id st).2.memuse
          = st.memuse + (st.pageclass id).chunk_size * (st.pageclass id).perpage) ∧
      (st.mem_pool = 0 → (alloc_newpage sys id st).2.memuse = st.memuse)) := by
  have hinv := reachable_inv st hr
  have hwf := reachable_wf st hr
  have hpb := page_bytes_lt st id
  obtain ⟨pe1, pe2⟩ := page_bytes_exact hwf id
  have hs : page_bytes st id < 9223372036854775808 := by unfold U32 at hpb; omega
  rw [alloc_newpage_unfold]
  split_ifs with c1 c2 c3
  · refine ⟨fun _ => ⟨rfl, rfl, fun c => ⟨rfl, rfl, rfl, rfl, rfl, rfl, rfl, rfl⟩⟩,
      fun h => absurd rfl h⟩
  · refine ⟨fun _ => ⟨rfl, rfl, fun c => ⟨rfl, rfl, rfl, rfl, rfl, rfl, rfl, rfl⟩⟩,
      fun h => absurd rfl h⟩
  · refine ⟨fun _ => ?_, fun h => absurd rfl h⟩
    rw [memory_alloc_null _ _ _ hinv hs c3]
    refine ⟨rfl, rfl, fun c => ?_⟩
    by_cases hc : c = id
    · subst hc
      simp [Pool.setClass]
    · simp [Pool.setClass, upd, hc]
  · refine ⟨fun h => absurd h (by simp), fun _ => ?_⟩
    simp only [upd_same]
    refine ⟨trivial, trivial, fun hlt => Nat.mod_eq_of_lt hlt, trivial, c3, trivial, ?_, ?_⟩
    · intro hp
      obtain ⟨⟨h1, h2⟩, hb, _⟩ := hinv
      obtain ⟨a, _, b⟩ := memory_alloc_cases sys.malloc_ret (page_bytes st id) st hp h1 h2
        (by unfold U64; omega)
      have hle : st.memuse + page_bytes st id ≤ st.memalloc := by
        by_contra hgt
        exact c3 (a.mpr (by omega))
      rw [b hle, pe2, ← pe1]
      have : min (page_bytes st id) (st.memalloc - st.memuse) = page_bytes st id :=
        Nat.min_eq_left (by omega)
      simp [this]
    · intro hp
      have : memory_alloc sys.malloc_ret (page_bytes st id) st = (sys.malloc_ret, st) := by
        unfold memory_alloc; simp [hp]
      rw [this]

/-- C17 (witness): with an arena of 64 MB a second page of class 1 fits;
`memuse` grows by the page size `24 * 43690`. -/
theorem alloc_newpage_outcome_witness :
    (alloc_newpage ⟨true, 0⟩ 1 pool_roomy).1 ≠ 0 ∧
    (alloc_newpage ⟨true, 0⟩ 1 pool_roomy).2.memuse
      = pool_roomy.memuse
        + (pool_roomy.pageclass 1).chunk_size * (pool_roomy.pageclass 1).perpage :=
  ⟨by decide!,
    ((((alloc_newpage_outcome pool_roomy
      (Reachable.start (fun _ => 0) 64 grow12 true 4096 sysOk pool_roomy (by decide)
        (some_getD_of_isSome _ _ (by decide!))) ⟨true, 0⟩ 1).2
      (by decide!)).2.2.2.2.2.2.1) (by decide!)).2⟩

/-- C16 (witness): freeing the chunk that `do_mem_alloc(100)` returned on the
default pool puts it on top of the free list of class 8. -/
theorem do_mem_free_spec_witness :
    ((do_mem_free true 7344000 0 (do_mem_alloc ⟨true, 0⟩ 100 pool_default).2).pageclass 8).freelist
      0 = 7344000 ∧
    ((do_mem_free true 7344000 0 (do_mem_alloc ⟨true, 0⟩ 100 pool_default).2).pageclass 8).free_curr
      = 1 := by
  have h := (do_mem_free_spec true 7344000 0 (do_mem_alloc ⟨true, 0⟩ 100 pool_default).2).2
    (by decide!) (fun _ => rfl)
  have e1 : (do_mem_alloc ⟨true, 0⟩ 100 pool_default).2.classid 7344000 = 8 := by decide!
  have e2 : (((do_mem_alloc ⟨true, 0⟩ 100 pool_default).2).pageclass 8).free_curr = 0 := by
    decide!
  rw [e1, e2] at h
  exact ⟨h.1, h.2.2.1⟩

/-! ## The typed wrapper `New` / `Delete` -/

/-- The pool fields that `write_alloc_num` leaves alone: all but the memory map. -/
theorem write_alloc_num_frame (st : Pool) (p n : Nat) :
    (write_alloc_num st p n).page_class_num = st.page_class_num ∧
    (write_alloc_num st p n).pageclass = st.pageclass ∧
    (write_alloc_num st p n).mem_pool = st.mem_pool ∧
    (write_alloc_num st p n).mem_avaliable = st.mem_avaliable ∧
    (write_alloc_num st p n).memalloc = st.memalloc ∧
    (write_alloc_num st p n).memuse = st.memuse ∧
    read_alloc_num (write_alloc_num st p n) p = n := by
  simp [write_alloc_num, read_alloc_num]

/-- When the byte count `count * sizeof(T) + sizeof(item)` does not wrap and
exceeds 1 MB, `New` takes the block from `malloc` and touches the pool only by
writing `alloc_num` into the header, and `Delete` hands the block to `free`. -/
theorem New_oversize_exact (sizeofT : Nat) (malloc_ret : Nat) (sys : Sys)
    (size : Nat) (w : World) (ok : Bool)
    (hfit : sizeofT * size + sizeof_item < U64)
    (hbig : sizeofT * size + sizeof_item > MM_MAX_SIZE) (hm : malloc_ret ≠ 0) :
    (New sizeofT true malloc_ret sys size w).1 = malloc_ret + sizeof_item ∧
    (New sizeofT true malloc_ret sys size w).2.log
      = w.log ++ [Event.malloc (sizeofT * size + sizeof_item)] ∧
    (New sizeofT true malloc_ret sys size w).2.pool = write_alloc_num w.pool malloc_ret size ∧
    (Delete sizeofT true ok (malloc_ret + sizeof_item)
        (New sizeofT true malloc_ret sys size w).2).log
      = w.log ++ [Event.malloc (sizeofT * size + sizeof_item), Event.free malloc_ret] ∧
    (Delete sizeofT true ok (malloc_ret + sizeof_item)
        (New sizeofT true malloc_ret sys size w).2).pool
      = write_alloc_num w.pool malloc_ret size := by
  have hts : (sizeofT * size + sizeof_item) % U64 = sizeofT * size + sizeof_item :=
    Nat.mod_eq_of_lt hfit
  have hsz : ¬ size ≤ 0 := by
    intro h0
    have : size = 0 := by omega
    subst this
    unfold sizeof_item MM_MAX_SIZE at hbig
    omega
  have hnew : New sizeofT true malloc_ret sys size w
      = (malloc_ret + sizeof_item,
          ⟨write_alloc_num w.pool malloc_ret size,
            w.log ++ [Event.malloc (sizeofT * size + sizeof_item)]⟩) := by
    unfold New
    simp only []
    rw [if_neg hsz, hts, if_pos hbig]
    simp only []
    rw [if_neg hm]
    simp
  rw [hnew]
  refine ⟨rfl, rfl, rfl, ?_, ?_⟩
  · unfold Delete
    simp only []
    rw [if_neg (by unfold sizeof_item; omega)]
    have hr : read_alloc_num (write_alloc_num w.pool malloc_ret size)
        (malloc_ret + sizeof_item - sizeof_item) = size := by
      rw [Nat.add_sub_cancel]
      exact (write_alloc_num_frame _ _ _).2.2.2.2.2.2
    rw [hr, if_neg hsz, hts, if_pos hbig]
    simp
  · unfold Delete
    simp only []
    rw [if_neg (by unfold sizeof_item; omega)]
    have hr : read_alloc_num (write_alloc_num w.pool malloc_ret size)
        (malloc_ret + sizeof_item - sizeof_item) = size := by
      rw [Nat.add_sub_cancel]
      exact (write_alloc_num_frame _ _ _).2.2.2.2.2.2
    rw [hr, if_neg hsz, hts, if_pos hbig]
    simp

/-- C12 (failing input): `New<T>(2^61)` for a POD type of 8 bytes.  The exact
byte count `2^61 * 8 + 16` exceeds 1 MB, but the `size_t` product wraps and
`total_size` is 16: `New` calls `mem_alloc(16)` and never `malloc`, the pool
hands out a 24-byte chunk of class 1 (the current page moves on), and
`Delete` calls `mem_free`, never `free`. -/
theorem New_oversize_wraps_into_pool :
    8 * 2305843009213693952 + sizeof_item > MM_MAX_SIZE ∧
    (New 8 true 65536 ⟨true, 0⟩ 2305843009213693952 ⟨pool_default, []⟩).2.log
      = [Event.mem_alloc 16] ∧
    (New 8 true 65536 ⟨true, 0⟩ 2305843009213693952 ⟨pool_default, []⟩).1 = 4096 + 16 ∧
    (pool_default.pageclass 1).end_page_ptr = 4096 ∧
    ((New 8 true 65536 ⟨true, 0⟩ 2305843009213693952 ⟨pool_default, []⟩).2.pool.pageclass
      1).end_page_ptr = 4096 + 24 ∧
    (Delete 8 true true (4096 + 16)
      (New 8 true 65536 ⟨true, 0⟩ 2305843009213693952 ⟨pool_default, []⟩).2).log
      = [Event.mem_alloc 16, Event.mem_free 4096 2305843009213693952] ∧
    ((Delete 8 true true (4096 + 16)
      (New 8 true 65536 ⟨true, 0⟩ 2305843009213693952 ⟨pool_default, []⟩).2).pool.pageclass
      1).free_curr = 1 := by
  refine ⟨by decide, ?_, ?_, ?_, ?_, ?_, ?_⟩ <;> decide!

/-- The two branches of `New` for a non-POD element type, spelled out. -/
theorem New_unfold (sizeofT malloc_ret : Nat) (sys : Sys) (n : Nat) (w : World) :
    New sizeofT false malloc_ret sys n w =
      if n ≤ 0 then (0, w)
      else if (sizeofT * n + sizeof_item) % U64 > MM_MAX_SIZE then
        if malloc_ret = 0 then
          (0, ⟨w.pool, w.log ++ [Event.malloc ((sizeofT * n + sizeof_item) % U64)]⟩)
        else
          (malloc_ret + sizeof_item,
            ⟨write_alloc_num w.pool malloc_ret n,
              w.log ++ [Event.malloc ((sizeofT * n + sizeof_item) % U64)] ++
                (List.range n).map
                  (fun i => Event.construct (malloc_ret + sizeof_item + i * sizeofT))⟩)
      else if (do_mem_alloc sys ((sizeofT * n + sizeof_item) % U64) w.pool).1 = 0 then
        (0, ⟨(do_mem_alloc sys ((sizeofT * n + sizeof_item) % U64) w.pool).2,
          w.log ++ [Event.mem_alloc ((sizeofT * n + sizeof_item) % U64)]⟩)
      else
        ((do_mem_alloc sys ((sizeofT * n + sizeof_item) % U64) w.pool).1 + sizeof_item,
          ⟨write_alloc_num (do_mem_alloc sys ((sizeofT * n + sizeof_item) % U64) w.pool).2
              (do_mem_alloc sys ((sizeofT * n + sizeof_item) % U64) w.pool).1 n,
            w.log ++ [Event.mem_alloc ((sizeofT * n + sizeof_item) % U64)] ++
              (List.range n).map
                (fun i => Event.construct
                  ((do_mem_alloc sys ((sizeofT * n + sizeof_item) % U64) w.pool).1
                    + sizeof_item + i * sizeofT))⟩) := by
  unfold New
  simp only []
  split_ifs <;> first | contradiction | simp

/-- `Delete` for a non-POD element type on a block whose header holds the
count `n ≥ 1`. -/
theorem Delete_unfold (sizeofT : Nat) (ok : Bool) (p n : Nat) (pool : Pool) (log : List Event)
    (hn : 1 ≤ n) :
    Delete sizeofT false ok (p + sizeof_item) ⟨write_alloc_num pool p n, log⟩ =
      if (sizeofT * n + sizeof_item) % U64 > MM_MAX_SIZE then
        ⟨write_alloc_num pool p n,
          log ++ (List.range n).map (fun i => Event.destruct (p + sizeof_item + i * sizeofT))
            ++ [Event.free p]⟩
      else
        ⟨do_mem_free ok p n (write_alloc_num pool p n),
          log ++ (List.range n).map (fun i => Event.destruct (p + sizeof_item + i * sizeofT))
            ++ [Event.mem_free p n]⟩ := by
  have hr : read_alloc_num (write_alloc_num pool p n) (p + sizeof_item - sizeof_item) = n := by
    rw [Nat.add_sub_cancel]
    exact (write_alloc_num_frame _ _ _).2.2.2.2.2.2
  unfold Delete
  simp only []
  rw [if_neg (by unfold sizeof_item; omega), hr, if_neg (by omega)]
  simp only [Nat.add_sub_cancel]
  split_ifs <;> first | contradiction | simp

/-- C13: for a non-POD element type and a count `n ≥ 1` for which `New<T>(n)`
returns a non-null `result`: the header behind `result` holds `n`, the log of
`New` is the allocation call followed by exactly `n` constructor runs at
`result + i * sizeof(T)` for `i = 0, …, n-1` in ascending order, and
`Delete<T>(result)` appends exactly `n` destructor runs at the same addresses
in the same order, followed by the release of the block (`free` or
`mem_free` with count `n`). -/
theorem New_Delete_events (sizeofT malloc_ret : Nat) (sys : Sys) (n : Nat) (w : World)
    (ok : Bool) (hn : 1 ≤ n) (hok : (New sizeofT false malloc_ret sys n w).1 ≠ 0) :
    read_alloc_num (New sizeofT false malloc_ret sys n w).2.pool
      ((New sizeofT false malloc_ret sys n w).1 - sizeof_item) = n ∧
    (∃ e, (e = Event.malloc ((sizeofT * n + sizeof_item) % U64) ∨
          e = Event.mem_alloc ((sizeofT * n + sizeof_item) % U64)) ∧
      (New sizeofT false malloc_ret sys n w).2.log
        = w.log ++ [e] ++ (List.range n).map
            (fun i => Event.construct ((New sizeofT false malloc_ret sys n w).1 + i * sizeofT))) ∧
    (∃ e, (e = Event.free ((New sizeofT false malloc_ret sys n w).1 - sizeof_item) ∨
          e = Event.mem_free ((New sizeofT false malloc_ret sys n w).1 - sizeof_item) n) ∧
      (Delete sizeofT false ok (New sizeofT false malloc_ret sys n w).1
          (New sizeofT false malloc_ret sys n w).2).log
        = (New sizeofT false malloc_ret sys n w).2.log ++ (List.range n).map
            (fun i => Event.destruct ((New sizeofT false malloc_ret sys n w).1 + i * sizeofT))
          ++ [e]) := by
  rw [New_unfold] at hok ⊢
  rw [if_neg (by omega)] at hok ⊢
  by_cases hbig : (sizeofT * n + sizeof_item) % U64 > MM_MAX_SIZE
  · rw [if_pos hbig] at hok ⊢
    by_cases hm : malloc_ret = 0
    · rw [if_pos hm] at hok; exact absurd rfl hok
    · rw [if_neg hm]
      simp only []
      rw [Delete_unfold _ _ _ _ _ _ hn, if_pos hbig, Nat.add_sub_cancel]
      exact ⟨(write_alloc_num_frame _ _ _).2.2.2.2.2.2, ⟨_, Or.inl rfl, rfl⟩,
        ⟨_, Or.inl rfl, rfl⟩⟩
  · rw [if_neg hbig] at hok ⊢
    by_cases hm : (do_mem_alloc sys ((sizeofT * n + sizeof_item) % U64) w.pool).1 = 0
    · rw [if_pos hm] at hok; exact absurd rfl hok
    · rw [if_neg hm]
      simp only []
      rw [Delete_unfold _ _ _ _ _ _ hn, if_neg hbig, Nat.add_sub_cancel]
      exact ⟨(write_alloc_num_frame _ _ _).2.2.2.2.2.2, ⟨_, Or.inr rfl, rfl⟩,
        ⟨_, Or.inr rfl, rfl⟩⟩

/-- C13 (witness): `New<T>(3)` for a non-POD type of 24 bytes on the default
pool records 3 in the header. -/
theorem New_Delete_events_witness :
    read_alloc_num (New 24 false 65536 ⟨true, 0⟩ 3 ⟨pool_default, []⟩).2.pool
      ((New 24 false 65536 ⟨true, 0⟩ 3 ⟨pool_default, []⟩).1 - sizeof_item) = 3 :=
  (New_Delete_events 24 65536 ⟨true, 0⟩ 3 ⟨pool_default, []⟩ true (by decide) (by decide!)).1

/-! ## The growable arrays -/

/-- The capacity of the free list after a `do_mem_free` whose `realloc` succeeds. -/
theorem do_mem_free_total (pointer size : Nat) (st : Pool)
    (h1 : 1 ≤ st.classid pointer) (h2 : st.classid pointer ≤ st.page_class_num) :
    ((do_mem_free true pointer size st).pageclass (st.classid pointer)).free_total
      = if (st.pageclass (st.classid pointer)).free_curr
            = (st.pageclass (st.classid pointer)).free_total then
          (if (st.pageclass (st.classid pointer)).free_total = 0 then 16
            else (2 * (st.pageclass (st.classid pointer)).free_total) % U32)
        else (st.pageclass (st.classid pointer)).free_total := by
  unfold do_mem_free
  simp only []
  rw [if_neg (by unfold POWER_SMALLEST; omega)]
  split_ifs <;> simp [Pool.setClass]

/-- Doubling a capacity below `2^31` gives a capacity of at most `2^31`. -/
theorem IsCapacity.double {n : Nat} (h : IsCapacity n) (h0 : n ≠ 0) (hlt : n < 2147483648) :
    IsCapacity (2 * n) ∧ 2 * n ≤ 2147483648 := by
  rcases h with h | ⟨k, hk⟩
  · exact absurd h h0
  · have p27 : (2 : Nat) ^ 27 = 134217728 := by norm_num
    have hk27 : k < 27 := by
      by_contra hge
      have := Nat.pow_le_pow_right (show 0 < 2 by decide) (show 27 ≤ k by omega)
      omega
    have hle := Nat.pow_le_pow_right (show 0 < 2 by decide) (show k + 1 ≤ 27 by omega)
    have hs : (2 : Nat) ^ (k + 1) = 2 ^ k * 2 := pow_succ 2 k
    refine ⟨Or.inr ⟨k + 1, by omega⟩, by omega⟩

/-- Either `do_mem_free` leaves the state alone, or it pushes: the count grows
by one and the capacity, if the list was full, goes from 0 to 16 or doubles
(as a `uint32_t`). -/
theorem do_mem_free_counts (ok : Bool) (pointer size : Nat) (st : Pool) :
    do_mem_free ok pointer size st = st ∨
    (((do_mem_free ok pointer size st).pageclass (st.classid pointer)).free_curr
        = ((st.pageclass (st.classid pointer)).free_curr + 1) % U32 ∧
      ((do_mem_free ok pointer size st).pageclass (st.classid pointer)).free_total
        = if (st.pageclass (st.classid pointer)).free_curr
              = (st.pageclass (st.classid pointer)).free_total then
            (if (st.pageclass (st.classid pointer)).free_total = 0 then 16
              else (2 * (st.pageclass (st.classid pointer)).free_total) % U32)
          else (st.pageclass (st.classid pointer)).free_total) := by
  unfold do_mem_free
  simp only []
  by_cases h1 : st.classid pointer < POWER_SMALLEST ∨ st.classid pointer > st.page_class_num
  · rw [if_pos h1]; exact Or.inl rfl
  · rw [if_neg h1]
    by_cases hfull : (st.pageclass (st.classid pointer)).free_curr
        = (st.pageclass (st.classid pointer)).free_total
    · rw [if_pos hfull, if_pos hfull]
      cases ok
      · left; simp
      · right; simp [Pool.setClass]
    · rw [if_neg hfull, if_neg hfull]
      right; simp [Pool.setClass]

/-- The growable-array invariant survives `do_mem_free` as long as the capacity
of the free list is below `2^31`: the capacity changes only when the list is
full, from 0 to 16 or to its double, and the count stays within the capacity. -/
theorem do_mem_free_grow_ok (ok : Bool) (pointer size : Nat) (st : Pool)
    (hinv : ∀ c, GrowOk (st.pageclass c))
    (hlt : (st.pageclass (st.classid pointer)).free_total < 2147483648) :
    ∀ c, GrowOk ((do_mem_free ok pointer size st).pageclass c) := by
  intro c
  obtain ⟨g1, g2, g3, g4⟩ := hinv (st.classid pointer)
  obtain ⟨_, _, _, _, _, _, f7, f8⟩ := do_mem_free_frame ok pointer size st
  rcases do_mem_free_counts ok pointer size st with h | ⟨k1, k2⟩
  · rw [h]; exact hinv c
  · by_cases hc : c = st.classid pointer
    · subst hc
      obtain ⟨_, _, _, _, e5, _, e7⟩ := f8 (st.classid pointer)
      have e1 : ((st.pageclass (st.classid pointer)).free_curr + 1) % U32
          = (st.pageclass (st.classid pointer)).free_curr + 1 :=
        Nat.mod_eq_of_lt (by unfold U32; omega)
      rw [e1] at k1
      unfold GrowOk
      rw [k1, e5, e7]
      by_cases hfull : (st.pageclass (st.classid pointer)).free_curr
          = (st.pageclass (st.classid pointer)).free_total
      · rw [if_pos hfull] at k2
        by_cases h0 : (st.pageclass (st.classid pointer)).free_total = 0
        · rw [if_pos h0] at k2
          rw [k2]
          exact ⟨by omega, g2, Or.inr ⟨0, rfl⟩, g4⟩
        · rw [if_neg h0] at k2
          have e : (2 * (st.pageclass (st.classid pointer)).free_total) % U32
              = 2 * (st.pageclass (st.classid pointer)).free_total :=
            Nat.mod_eq_of_lt (by unfold U32; omega)
          rw [e] at k2
          rw [k2]
          exact ⟨by omega, g2, (g3.double h0 hlt).1, g4⟩
      · rw [if_neg hfull] at k2
        rw [k2]
        exact ⟨by omega, g2, g3, g4⟩
    · rw [f7 c hc]; exact hinv c

/-- The last of `n + 1` calls of `do_mem_free`. -/
theorem free_many_succ (pointer : Nat) :
    ∀ n st, free_many pointer (n + 1) st = do_mem_free true pointer 0 (free_many pointer n st) := by
  intro n
  induction n with
  | zero => intro st; rfl
  | succ n ih =>
    intro st
    show free_many pointer (n + 1) (do_mem_free true pointer 0 st) = _
    rw [ih]
    rfl

/-- Repeated `do_mem_free` keeps the state reachable. -/
theorem free_many_reachable (pointer : Nat) (hp : pointer ≠ 0) :
    ∀ n st, Reachable st → Reachable (free_many pointer n st) := by
  intro n
  induction n with
  | zero => intro st h; exact h
  | succ n ih =>
    intro st h
    exact ih _ (Reachable.step st (Call.do_mem_free true pointer 0) _ h hp rfl)

/-- Counting the entries: `n` frees of a chunk of a valid class, starting from
`free_curr ≤ free_total ≤ 2^31` with `free_curr + n ≤ 2^31`, leave
`free_curr + n` entries in a list whose capacity is still at most `2^31`. -/
theorem free_many_count (pointer : Nat) :
    ∀ n st, 1 ≤ st.classid pointer → st.classid pointer ≤ st.page_class_num →
      (st.pageclass (st.classid pointer)).free_curr + n ≤ 2147483648 →
      (st.pageclass (st.classid pointer)).free_curr
        ≤ (st.pageclass (st.classid pointer)).free_total →
      IsCapacity (st.pageclass (st.classid pointer)).free_total →
      (st.pageclass (st.classid pointer)).free_total ≤ 2147483648 →
      (free_many pointer n st).classid = st.classid ∧
      (free_many pointer n st).page_class_num = st.page_class_num ∧
      ((free_many pointer n st).pageclass (st.classid pointer)).free_curr
        = (st.pageclass (st.classid pointer)).free_curr + n ∧
      ((free_many pointer n st).pageclass (st.classid pointer)).free_curr
        ≤ ((free_many pointer n st).pageclass (st.classid pointer)).free_total ∧
      ((free_many pointer n st).pageclass (st.classid pointer)).free_total ≤ 2147483648 := by
  intro n
  induction n with
  | zero =>
    intro st _ _ _ h4 _ h6
    exact ⟨rfl, rfl, rfl, h4, h6⟩
  | succ n ih =>
    intro st h1 h2 h3 h4 h5 h6
    obtain ⟨f1, _, _, _, _, f6, _, _⟩ := do_mem_free_frame true pointer 0 st
    obtain ⟨p1, _⟩ := do_mem_free_push pointer 0 st h1 h2
    have pt := do_mem_free_total pointer 0 st h1 h2
    have e1 : ((st.pageclass (st.classid pointer)).free_curr + 1) % U32
        = (st.pageclass (st.classid pointer)).free_curr + 1 :=
      Nat.mod_eq_of_lt (by unfold U32; omega)
    rw [e1] at p1
    have hcap : IsCapacity
        ((do_mem_free true pointer 0 st).pageclass (st.classid pointer)).free_total ∧
        (st.pageclass (st.classid pointer)).free_curr + 1
          ≤ ((do_mem_free true pointer 0 st).pageclass (st.classid pointer)).free_total ∧
        ((do_mem_free true pointer 0 st).pageclass (st.classid pointer)).free_total
          ≤ 2147483648 := by
      rw [pt]
      by_cases hfull : (st.pageclass (st.classid pointer)).free_curr
          = (st.pageclass (st.classid pointer)).free_total
      · rw [if_pos hfull]
        by_cases h0 : (st.pageclass (st.classid pointer)).free_total = 0
        · rw [if_pos h0]
          exact ⟨Or.inr ⟨0, rfl⟩, by omega, by omega⟩
        · rw [if_neg h0]
          have e : (2 * (st.pageclass (st.classid pointer)).free_total) % U32
              = 2 * (st.pageclass (st.classid pointer)).free_total :=
            Nat.mod_eq_of_lt (by unfold U32; omega)
          rw [e]
          obtain ⟨d1, d2⟩ := h5.double h0 (by omega)
          exact ⟨d1, by omega, d2⟩
      · rw [if_neg hfull]
        exact ⟨h5, by omega, h6⟩
    have hid : (do_mem_free true pointer 0 st).classid pointer = st.classid pointer := by
      rw [f6]
    have := ih (do_mem_free true pointer 0 st) (by rw [hid]; exact h1)
      (by rw [hid, f1]; exact h2) (by rw [hid, p1]; omega) (by rw [hid, p1]; exact hcap.2.1)
      (by rw [hid]; exact hcap.1) (by rw [hid]; exact hcap.2.2)
    rw [hid] at this
    obtain ⟨t1, t2, t3, t4, t5⟩ := this
    have hs : free_many pointer (n + 1) st
        = free_many pointer n (do_mem_free true pointer 0 st) := rfl
    rw [hs]
    refine ⟨by rw [t1, f6], by rw [t2, f1], ?_, t4, t5⟩
    rw [t3, p1]
    omega

/-- C18 (failing input): `2^31 + 1` calls of `do_mem_free` on a chunk of class 8
of the default pool, every `realloc` answering non-null.  After `2^31` of them
the free list is full with capacity `2^31`; the next one computes the new
capacity `2 * 2^31` in a `uint32_t`, which is 0, and writes entry `2^31` into
a list of capacity 0.  The state is reachable, `free_curr = 2^31 + 1` exceeds
`free_total = 0`, and the capacity went from `2^31` to 0 rather than doubling. -/
theorem free_list_capacity_overflows :
    Reachable overflow_state ∧
    ((free_many 7344000 2147483648 (do_mem_alloc ⟨true, 0⟩ 100 pool_default).2).pageclass
      8).free_total = 2147483648 ∧
    ((free_many 7344000 2147483648 (do_mem_alloc ⟨true, 0⟩ 100 pool_default).2).pageclass
      8).free_curr = 2147483648 ∧
    (overflow_state.pageclass 8).free_total = 0 ∧
    (overflow_state.pageclass 8).free_curr = 2147483649 ∧
    ¬ GrowOk (overflow_state.pageclass 8) := by
  have hid : (do_mem_alloc ⟨true, 0⟩ 100 pool_default).2.classid 7344000 = 8 := by decide!
  have hpcn : (do_mem_alloc ⟨true, 0⟩ 100 pool_default).2.page_class_num = 58 := by decide!
  have hfc : ((do_mem_alloc ⟨true, 0⟩ 100 pool_default).2.pageclass 8).free_curr = 0 := by
    decide!
  have hft : ((do_mem_alloc ⟨true, 0⟩ 100 pool_default).2.pageclass 8).free_total = 0 := by
    decide!
  have hr1 : Reachable (do_mem_alloc ⟨true, 0⟩ 100 pool_default).2 :=
    Reachable.step pool_default (Call.do_mem_alloc ⟨true, 0⟩ 100) _ pool_default_reachable
      trivial rfl
  have hrn := free_many_reachable 7344000 (by decide) 2147483648 _ hr1
  have hcount := free_many_count 7344000 2147483648 (do_mem_alloc ⟨true, 0⟩ 100 pool_default).2
    (by rw [hid]; decide) (by rw [hid, hpcn]; decide) (by rw [hid, hfc])
    (by rw [hid, hfc, hft]) (by rw [hid, hft]; exact Or.inl rfl) (by rw [hid, hft]; decide)
  rw [hid, hfc, hpcn] at hcount
  obtain ⟨c1, c2, c3, c4, c5⟩ := hcount
  rw [Nat.zero_add] at c3
  have hfull : ((free_many 7344000 2147483648
      (do_mem_alloc ⟨true, 0⟩ 100 pool_default).2).pageclass 8).free_total = 2147483648 :=
    Nat.le_antisymm c5 (by rw [c3] at c4; exact c4)
  have hid2 : (free_many 7344000 2147483648
      (do_mem_alloc ⟨true, 0⟩ 100 pool_default).2).classid 7344000 = 8 := by
    rw [c1, hid]
  have h1 := do_mem_free_push 7344000 0
    (free_many 7344000 2147483648 (do_mem_alloc ⟨true, 0⟩ 100 pool_default).2)
    (by rw [hid2]; decide) (by rw [hid2, c2]; decide)
  have h2 := do_mem_free_total 7344000 0
    (free_many 7344000 2147483648 (do_mem_alloc ⟨true, 0⟩ 100 pool_default).2)
    (by rw [hid2]; decide) (by rw [hid2, c2]; decide)
  rw [hid2] at h1 h2
  rw [c3] at h1
  rw [c3, hfull] at h2
  have e0 : (overflow_state.pageclass 8).free_total = 0 := by
    rw [overflow_state, h2]
    decide
  have e1 : (overflow_state.pageclass 8).free_curr = 2147483649 := by
    rw [overflow_state, h1.1]
    decide
  refine ⟨Reachable.step _ (Call.do_mem_free true 7344000 0) _ hrn
    (show (7344000 : Nat) ≠ 0 by decide) rfl, hfull, c3, e0, e1, ?_⟩
  intro hg
  have hle := hg.1
  rw [e0, e1] at hle
  exact absurd hle (by decide)

end MemManager
